import Mathlib

/-!
Verification development for the `group21-compiler` front end
(lexer → parser → scope analyzer → type checker).

This file gives a shallow embedding, in Lean 4, of the Python sources
`compiler/tokens.py`, `compiler/parser.py`, `compiler/scope_analyzer.py` and
`compiler/type_checker.py`. Python classes become structures/inductives,
methods become pure functions, mutation of `self` becomes explicit state
passing, and `raise` becomes `Except.error`. Python values stored in token
and literal fields are modelled by `PyVal`. Where the Python code reads an
attribute that is never assigned anywhere in the repository (an
`AttributeError` at run time), the embedding returns an explicit
`attributeError` value; each such spot carries a comment pointing at the
source lines that justify it.
-/

set_option maxHeartbeats 1000000

namespace G21

/-- A Python runtime value as it can occur in `Token.value` / `Literal.value`:
`None`, an `int`, a `float` (kept as its source text, since no stage of the
front end ever computes with the numeric value), a `str`, or a `bool`. -/
inductive PyVal where
  | vNone : PyVal
  | vInt (n : Int) : PyVal
  | vFloat (text : String) : PyVal
  | vStr (s : String) : PyVal
  | vBool (b : Bool) : PyVal
deriving DecidableEq, Repr

/-- Extracts the string carried by an `Identifier` token's value. Both lexers
(`lexer_regex.py`, `lexer_noregex.py`) always put a `str` into the value of an
`Identifier` token, so the default `""` branch is never exercised by
lexer-produced token streams. -/
def PyVal.asName : PyVal → String
  | .vStr s => s
  | _ => ""

/-- `compiler/tokens.py` `Token`: `{type: str, value: Any = None, pos = None}`.
The parser reads `pos` only to format error messages, which the embedding's
discriminated error constructors do not carry, so `pos` is kept but unused. -/
structure Token where
  type : String
  value : PyVal := .vNone
  pos : Option (Nat × Nat) := none
deriving DecidableEq, Repr

/-- AST node `Param` (`parser.py`): `{type_tok: str, name: str}`. Both fields
are always strings for parser-produced nodes (`parse_param`). -/
structure Param where
  type_tok : String
  name : String
deriving DecidableEq, Repr

mutual

/-- AST expression nodes of `parser.py`: `Binary`, `Unary`, `Literal`,
`Identifier`, `Call`. `Literal` carries only a raw value — `parser.py` line 39
declares `Literal` with the single field `value`; there is no `type_tok`
field on it anywhere in the repository. -/
inductive Expr where
  | binary (op : String) (left right : Expr) : Expr
  | unary (op : String) (e : Expr) : Expr
  | literal (value : PyVal) : Expr
  | identifier (name : String) : Expr
  | call (callee : Expr) (args : List Expr) : Expr

/-- AST node `VarDecl` (`parser.py`): `{type_tok, name, expr: Optional}`. -/
inductive VarDecl where
  | mk (type_tok : String) (name : String) (expr : Option Expr) : VarDecl

/-- The two shapes `ForStmt.init` can have after parsing (`parse_for`):
a `VarDecl` or an `ExprStmt` (`parser.py` lines 200-209). -/
inductive ForInit where
  | var (v : VarDecl) : ForInit
  | exprStmt (e : Expr) : ForInit

/-- Statement shapes produced by `Parser.parse_stmt`. Note that variable
declarations and blocks come out of the parser as plain Python *tuples*
`("Var", VarDecl)` and `("Block", [stmts])` (`parser.py` lines 150, 173),
not as dataclass nodes; `varTuple` and `blockTuple` embed those tuples. -/
inductive Stmt where
  | varTuple (v : VarDecl) : Stmt
  | exprStmt (e : Expr) : Stmt
  | returnStmt (e : Option Expr) : Stmt
  | ifStmt (cond : Expr) (if_block else_block : List Stmt) : Stmt
  | forStmt (init : Option ForInit) (cond updt : Option Expr) (block : List Stmt) : Stmt
  | breakStmt : Stmt
  | blockTuple (block : List Stmt) : Stmt

end

/-- AST node `FnDecl` (`parser.py`): `{type_tok, name, params, body}`. -/
structure FnDecl where
  type_tok : String
  name : String
  params : List Param
  body : List Stmt

/-- A top-level item of a `Program`. `Parser.parse` appends either an `FnDecl`
or a statement (top-level variable declarations arrive as the same
`("Var", v)` tuple `parse_stmt` would produce, `parser.py` line 93).
`bareVar` models a bare `VarDecl` instance placed in the item list by hand:
the parser never produces one, but both `ScopeAnalyzer.visit_program` and
`TypeChecker.check_item` dispatch on that shape with `isinstance`. -/
inductive Item where
  | fn (f : FnDecl) : Item
  | bareVar (v : VarDecl) : Item
  | stmt (s : Stmt) : Item

/-- AST root `Program` (`parser.py` line 8): `{items: list}`. -/
structure Program where
  items : List Item

/-- Recognizer for `isinstance(item, FnDecl)`. -/
def Item.isFn : Item → Bool
  | .fn _ => true
  | _ => false

/-! ## Scope analyzer (`compiler/scope_analyzer.py`) -/

/-- The discriminated scope errors of `scope_analyzer.py`. The resolver
appends formatted strings to `self.errors`; the embedding keeps the error
class plus the offending name. `calledNonFunction` is the second message
shape emitted under the `UndefinedFunctionCalled` heading
(`scope_analyzer.py` lines 253-257: a bound name whose symbol kind is not
`'function'` used as a callee). -/
inductive ScopeErr where
  | undeclaredVariableAccessed (name : String) : ScopeErr
  | undefinedFunctionCalled (name : String) : ScopeErr
  | calledNonFunction (name : String) : ScopeErr
  | variableRedefinition (name : String) : ScopeErr
  | functionPrototypeRedefinition (name : String) : ScopeErr
deriving DecidableEq, Repr

/-- `Symbol` dataclass (`scope_analyzer.py` lines 32-39). -/
structure Symbol where
  name : String
  kind : String
  type_tok : Option String := none
  params : Option (List Param) := none
  scope_level : Nat := 0
deriving DecidableEq, Repr

/-- One `ScopeNode`'s own data (`scope_analyzer.py` lines 42-48): its
`scope_type` and its insertion-ordered `symbols` dict (modelled as an
association list; keys are unique because `define` refuses duplicates).
The `parent` pointer and the derived `level` are represented by the frame's
position in a chain (see `Chain` below): the head is the current scope, the
last element is the global scope, and `level = chain.length - index - 1`. -/
structure Frame where
  scope_type : String
  symbols : List (String × Symbol) := []
deriving DecidableEq, Repr

/-- The parent-linked chain from the current `ScopeNode` up to the global
scope, innermost first. -/
abbrev Chain := List Frame

/-- `ScopeNode.lookup_local` (`scope_analyzer.py` line 63): this frame only. -/
def Frame.lookup_local (fr : Frame) (name : String) : Option Symbol :=
  List.lookup name fr.symbols

/-- `ScopeNode.define` (`scope_analyzer.py` lines 50-61): raise a
redefinition error — `FunctionPrototypeRedefinition` when the *new* symbol's
kind is `'function'`, `VariableRedefinition` otherwise — if the name is
already bound in this frame, else insert it. -/
def Frame.define (fr : Frame) (name : String) (symbol : Symbol) : Except ScopeErr Frame :=
  if (fr.lookup_local name).isSome then
    .error (if symbol.kind == "function" then
      .functionPrototypeRedefinition name else .variableRedefinition name)
  else
    .ok { fr with symbols := fr.symbols ++ [(name, symbol)] }

/-- `ScopeNode.lookup` (`scope_analyzer.py` lines 67-73): this frame, then
recursively the parents. -/
def chainLookup (ch : Chain) (name : String) : Option Symbol :=
  match ch with
  | [] => none
  | fr :: parents =>
    match fr.lookup_local name with
    | some s => some s
    | none => chainLookup parents name

/-- `ScopeAnalyzer`'s mutable state: `current_scope` (with its whole parent
chain, global scope last) and the accumulated `errors` list.
`ScopeAnalyzer.__init__` (lines 79-82) assigns exactly the attributes
`global_scope`, `current_scope` and `errors`; `global_scope` is the last
element of `chain` throughout. -/
structure SAState where
  chain : Chain
  errors : List ScopeErr
deriving DecidableEq, Repr

/-- Fresh analyzer state: a lone `global` scope, no errors. -/
def initState : SAState := { chain := [{ scope_type := "global" }], errors := [] }

/-- `ScopeAnalyzer.enter_scope` (lines 84-86). -/
def enter_scope (st : SAState) (scope_type : String) : SAState :=
  { st with chain := { scope_type := scope_type } :: st.chain }

/-- `ScopeAnalyzer.exit_scope` (lines 88-91): pop unless at the global scope
(whose parent is `None`). -/
def exit_scope (st : SAState) : SAState :=
  match st.chain with
  | _ :: parent :: rest => { st with chain := parent :: rest }
  | _ => st

/-- The `Symbol` built by `ScopeAnalyzer.define_symbol` (lines 93-102):
`scope_level` is the current scope's `level`, i.e. `chain.length - 1`. -/
def mkSymbol (ch : Chain) (name kind : String) (type_tok : Option String)
    (params : Option (List Param)) : Symbol :=
  { name := name, kind := kind, type_tok := type_tok, params := params,
    scope_level := ch.length - 1 }

/-- `ScopeAnalyzer.define_symbol` (lines 93-103): define in the current
(head) frame, propagating the redefinition exception. -/
def define_symbol (st : SAState) (name kind : String) (type_tok : Option String)
    (params : Option (List Param)) : Except ScopeErr SAState :=
  match st.chain with
  | [] => .ok st
  | fr :: parents =>
    match fr.define name (mkSymbol st.chain name kind type_tok params) with
    | .error e => .error e
    | .ok fr' => .ok { st with chain := fr' :: parents }

/-- The `try: define_symbol(...) except ...: self.errors.append(str(e))`
pattern that wraps every `define_symbol` call in the resolver
(`visit_program` lines 122-131, `visit_fn_decl` lines 148-152,
`visit_var_decl` lines 167-171). -/
def tryDefine (st : SAState) (name kind : String) (type_tok : Option String)
    (params : Option (List Param)) : SAState :=
  match define_symbol st name kind type_tok params with
  | .ok st' => st'
  | .error e => { st with errors := st.errors ++ [e] }

/-- Appends one scope error (`self.errors.append(...)`). -/
def addErr (st : SAState) (e : ScopeErr) : SAState :=
  { st with errors := st.errors ++ [e] }

/-- `ScopeAnalyzer.lookup_symbol` (lines 105-107). -/
def lookup_symbol (st : SAState) (name : String) : Option Symbol :=
  chainLookup st.chain name

mutual

/-- `ScopeAnalyzer.visit_expr` (lines 229-264). Expressions never change the
scope chain; identifier and callee resolution failures are *recorded*
(appended) and the walk continues. In the `Call` case, an identifier callee
is resolved (and must be a `function`-kind symbol) while any other callee
expression is visited recursively; then the arguments are visited. -/
def visit_expr (st : SAState) (e : Expr) : SAState :=
  match e with
  | .binary _ l r => visit_expr (visit_expr st l) r
  | .unary _ e1 => visit_expr st e1
  | .literal _ => st
  | .identifier name =>
    match lookup_symbol st name with
    | some _ => st
    | none => addErr st (.undeclaredVariableAccessed name)
  | .call callee args =>
    let st1 := match callee with
      | .identifier cname =>
        match lookup_symbol st cname with
        | none => addErr st (.undefinedFunctionCalled cname)
        | some s => if s.kind == "function" then st else addErr st (.calledNonFunction cname)
      | other => visit_expr st other
    visit_expr_list st1 args

/-- The `for arg in expr.args: self.visit_expr(arg)` loop. -/
def visit_expr_list (st : SAState) (es : List Expr) : SAState :=
  match es with
  | [] => st
  | e :: rest => visit_expr_list (visit_expr st e) rest

end

/-- Projection of the `VarDecl` node's declared type. -/
def VarDecl.type_tok : VarDecl → String
  | .mk t _ _ => t

/-- Projection of the `VarDecl` node's name. -/
def VarDecl.name : VarDecl → String
  | .mk _ n _ => n

/-- Projection of the `VarDecl` node's optional initializer. -/
def VarDecl.expr : VarDecl → Option Expr
  | .mk _ _ e => e

/-- The `if <expr> is not None: self.visit_expr(<expr>)` pattern
(`visit_var_decl` line 164, `visit_stmt` lines 186, 213, 217). -/
def visit_opt_expr (st : SAState) (oe : Option Expr) : SAState :=
  match oe with
  | some e => visit_expr st e
  | none => st

/-- `ScopeAnalyzer.visit_var_decl` (lines 161-171): first resolve the
initializer (if any), *then* bind the name in the current scope. -/
def visit_var_decl (st : SAState) (v : VarDecl) : SAState :=
  tryDefine (visit_opt_expr st v.expr) v.name "var" (some v.type_tok) none

/-- The `for` initializer dispatch of `visit_stmt` (lines 206-210): a
`VarDecl` is resolved-and-bound, an `ExprStmt` has its expression visited,
`None` is skipped. -/
def visit_for_init (st : SAState) (init : Option ForInit) : SAState :=
  match init with
  | some (.var v) => visit_var_decl st v
  | some (.exprStmt e) => visit_expr st e
  | none => st

mutual

/-- `ScopeAnalyzer.visit_stmt` (lines 173-227). -/
def visit_stmt (st : SAState) (s : Stmt) : SAState :=
  match s with
  | .varTuple v => visit_var_decl st v
  | .blockTuple body =>
    exit_scope (visit_stmt_list (enter_scope st "block") body)
  | .exprStmt e => visit_expr st e
  | .returnStmt oe => visit_opt_expr st oe
  | .ifStmt cond if_block else_block =>
    let st1 := visit_expr st cond
    let st2 := exit_scope (visit_stmt_list (enter_scope st1 "block") if_block)
    -- `if stmt.else_block:` — an empty else list is falsy and is skipped.
    if else_block.isEmpty then st2
    else exit_scope (visit_stmt_list (enter_scope st2 "block") else_block)
  | .forStmt init cond updt block =>
    let st1 := enter_scope st "block"
    let st2 := visit_for_init st1 init
    let st3 := visit_opt_expr st2 cond
    let st4 := visit_opt_expr st3 updt
    exit_scope (visit_stmt_list st4 block)
  | .breakStmt => st

/-- The `for s in ...: self.visit_stmt(s)` loops. -/
def visit_stmt_list (st : SAState) (ss : List Stmt) : SAState :=
  match ss with
  | [] => st
  | s :: rest => visit_stmt_list (visit_stmt st s) rest

end

/-- `ScopeAnalyzer.visit_fn_decl` (lines 142-159): fresh `function` frame,
parameters defined into it, body visited, frame popped. -/
def visit_fn_decl (st : SAState) (f : FnDecl) : SAState :=
  let st1 := enter_scope st "function"
  let st2 := f.params.foldl
    (fun acc p => tryDefine acc p.name "param" (some p.type_tok) none) st1
  exit_scope (visit_stmt_list st2 f.body)

/-- One step of pass 1 of `ScopeAnalyzer.visit_program` (lines 120-131):
register a top-level function in the global scope, skip everything else. -/
def pass1_step (st : SAState) (it : Item) : SAState :=
  match it with
  | .fn f => tryDefine st f.name "function" (some f.type_tok) (some f.params)
  | _ => st

/-- Pass 1 of `ScopeAnalyzer.visit_program`. -/
def visit_program_pass1 (st : SAState) (items : List Item) : SAState :=
  items.foldl pass1_step st

/-- One step of pass 2 of `ScopeAnalyzer.visit_program` (lines 133-140). A
bare `VarDecl` item matches neither `isinstance` test in `visit_stmt` and
is silently skipped. -/
def pass2_step (st : SAState) (it : Item) : SAState :=
  match it with
  | .fn f => visit_fn_decl st f
  | .stmt s => visit_stmt st s
  | .bareVar _ => st

/-- Pass 2 of `ScopeAnalyzer.visit_program`. -/
def visit_program_pass2 (st : SAState) (items : List Item) : SAState :=
  items.foldl pass2_step st

/-- `ScopeAnalyzer.visit_program` (lines 118-140). -/
def visit_program (st : SAState) (p : Program) : SAState :=
  visit_program_pass2 (visit_program_pass1 st p.items) p.items

/-- `ScopeAnalyzer.analyze` + `analyze_scope` (lines 109-116, 267-271):
run the walk from a fresh analyzer; raise the batched error list if it is
non-empty, otherwise hand back the analyzer for inspection. -/
def analyzeScope (p : Program) : Except (List ScopeErr) SAState :=
  let st := visit_program initState p
  if st.errors.isEmpty then .ok st else .error st.errors

/-! ## Type checker (`compiler/type_checker.py`) -/

/-- The discriminated type-checker exceptions (`type_checker.py` lines
10-25), together with two Python runtime exceptions the checker can hit:
`attributeError obj attr` models reading attribute `attr` on an object of
class `obj` that does not have it, and `typeError` models `zip(..., None)`.
Constructors that the pipeline can never raise are kept because the classes
exist in the source. -/
inductive TCErr where
  | erroneousVarDecl (param : String) : TCErr
  | fnCallParamCount (fn : String) : TCErr
  | fnCallParamType (fn param : String) : TCErr
  | erroneousReturnType : TCErr
  | expressionTypeMismatch (name : String) : TCErr
  | expectedBooleanExpression : TCErr
  | erroneousBreak : TCErr
  | nonBooleanCondStmt : TCErr
  | emptyExpression : TCErr
  | attemptedBoolOpOnNonBools : TCErr
  | attemptedBitOpOnNonNumeric : TCErr
  | attemptedShiftOnNonInt : TCErr
  | attemptedAddOpOnNonNumeric : TCErr
  | attemptedExponentiationOfNonNumeric : TCErr
  | returnStmtNotFound (fn : String) : TCErr
  | attributeError (obj attr : String) : TCErr
  | typeError (msg : String) : TCErr
deriving DecidableEq, Repr

/-- `TypeChecker`'s mutable state (`type_checker.py` lines 27-32):
`saChain` is `self.scope_analyzer.current_scope`'s chain as left by the
resolver (the checker's `lookup_symbol` calls go through the analyzer, lines
125 and 151); `tcScopes` is the checker's own `current_scope` chain, of
which only the `scope_type` tags ever matter (`in_loop`, lines 178-184) —
it starts at the analyzer's global scope node; `current_function`
corresponds to `self.current_function`. -/
structure TCState where
  saChain : Chain
  tcScopes : List String := ["global"]
  current_function : Option Symbol := none
deriving DecidableEq, Repr

/-- `TypeChecker.__init__` applied to a finished analyzer state. -/
def tcInit (sa : SAState) : TCState :=
  { saChain := sa.chain, tcScopes := ["global"], current_function := none }

/-- `TypeChecker.enter_scope` (lines 170-172). -/
def tcEnter (st : TCState) (scope_type : String) : TCState :=
  { st with tcScopes := scope_type :: st.tcScopes }

/-- `TypeChecker.exit_scope` (lines 174-176): pop unless parentless. -/
def tcExit (st : TCState) : TCState :=
  match st.tcScopes with
  | _ :: parent :: rest => { st with tcScopes := parent :: rest }
  | _ => st

/-- `TypeChecker.in_loop` (lines 178-184): walk the checker's own scope
chain looking for a `'for'` frame. -/
def in_loop (st : TCState) : Bool :=
  st.tcScopes.contains "for"

/-- The Python class name of an expression node, as `isinstance` sees it. -/
def Expr.className : Expr → String
  | .binary .. => "Binary"
  | .unary .. => "Unary"
  | .literal _ => "Literal"
  | .identifier _ => "Identifier"
  | .call .. => "Call"

/-- `TypeChecker.get_function_scope` (`type_checker.py` lines 186-190)
iterates `self.scope_analyzer.all_scopes`. `ScopeAnalyzer.__init__`
(`scope_analyzer.py` lines 79-82) assigns exactly the attributes
`global_scope`, `current_scope` and `errors`, and no statement anywhere in
the repository ever assigns an `all_scopes` attribute (nor a `name`
attribute on `ScopeNode`, which the loop body would read next). In Python,
reading the missing attribute raises `AttributeError` before the loop runs,
so the call unconditionally produces that exception; the line
`raise Exception(f"Function scope ... not found")` and the `return scope`
inside the loop are unreachable. -/
def get_function_scope (_fn_name : String) : TCErr :=
  .attributeError "ScopeAnalyzer" "all_scopes"

/-- The type a checked expression evaluates to, as the Python code handles
it: a `str` such as `"Int"`, `"Bool"`, `"Void"`, or Python `None` (a
`Symbol.type_tok` that was never set). `none` here models Python `None`. -/
abbrev PyTy := Option String

mutual

/-- `TypeChecker.check_expr` (`type_checker.py` lines 119-168). Notes kept
from the source, in order:
* line 123 `return expr.type_tok` — the parser's `Literal` dataclass has
  only a `value` field (`parser.py` line 39-40) and no code in the
  repository ever assigns `type_tok` on a `Literal`, so this read raises
  `AttributeError`;
* lines 137-143 — the arithmetic rule matches `op` against
  `"+" "-" "*" "/" "**"`, and lines 144-147 match `"&&" "||"`, although the
  parser tags `Binary` nodes with `"AddOp" "SubOp" "MulOp" "DivOp" "ModOp"
  "AndOp" "OrOp" ...` (`parser.py` lines 239-299), so on parser-produced
  trees every binary expression falls through to `return left_type`;
* line 151 `expr.callee.name` — a non-`Identifier` callee has no `name`
  attribute;
* line 155 — `len(fn_symbol.params) if fn_symbol.params else 0`, then
  line 161 `zip(expr.args, fn_symbol.params)` raises `TypeError` when
  `params` is `None`;
* expressions never mutate the checker's state, so `check_expr` takes the
  state read-only. -/
def check_expr (st : TCState) (e : Expr) : Except TCErr PyTy :=
  match e with
  | .literal _ => .error (.attributeError "Literal" "type_tok")
  | .identifier name =>
    match chainLookup st.saChain name with
    | none => .error (.expressionTypeMismatch name)
    | some symbol => .ok symbol.type_tok
  | .unary _ operand => check_expr st operand
  | .binary op l r =>
    match check_expr st l with
    | .error e1 => .error e1
    | .ok left_type =>
      match check_expr st r with
      | .error e2 => .error e2
      | .ok right_type =>
        if op ∈ (["+", "-", "*", "/", "**"] : List String) then
          if left_type ∉ ([some "Int", some "Float"] : List PyTy)
              ∨ right_type ∉ ([some "Int", some "Float"] : List PyTy) then
            .error (if op == "**" then .attemptedExponentiationOfNonNumeric
                    else .attemptedAddOpOnNonNumeric)
          else .ok left_type
        else if op ∈ (["&&", "||"] : List String) then
          if left_type ≠ some "Bool" ∨ right_type ≠ some "Bool" then
            .error .attemptedBoolOpOnNonBools
          else .ok (some "Bool")
        else .ok left_type
  | .call callee args =>
    match callee with
    | .identifier cname =>
      match chainLookup st.saChain cname with
      | none => .error (.fnCallParamCount cname)
      | some fn_symbol =>
        let param_count : Nat := match fn_symbol.params with
          | none => 0
          | some ps => ps.length
        if args.length ≠ param_count then .error (.fnCallParamCount cname)
        else
          match fn_symbol.params with
          | none => .error (.typeError "zip argument is None")
          | some ps => check_call_args st cname args ps fn_symbol.type_tok
    | other => .error (.attributeError other.className "name")

/-- The `for arg, param in zip(...)` loop of `check_expr`'s call case
(lines 161-167), ending in `return fn_symbol.type_tok`. -/
def check_call_args (st : TCState) (cname : String) (args : List Expr)
    (ps : List Param) (ret : PyTy) : Except TCErr PyTy :=
  match args, ps with
  | arg :: args', param :: ps' =>
    match check_expr st arg with
    | .error e => .error e
    | .ok arg_type =>
      if arg_type ≠ some param.type_tok then
        .error (.fnCallParamType cname param.name)
      else check_call_args st cname args' ps' ret
  | _, _ => .ok ret

end

/-- `TypeChecker.check_var_decl` (lines 68-74). -/
def check_var_decl (st : TCState) (v : VarDecl) : Except TCErr Unit :=
  match v with
  | .mk type_tok name oexpr =>
    match oexpr with
    | none => .ok ()
    | some e =>
      match check_expr st e with
      | .error err => .error err
      | .ok expr_type =>
        if expr_type ≠ some type_tok then .error (.expressionTypeMismatch name)
        else .ok ()

mutual

/-- `TypeChecker.check_stmt` (lines 76-117). A `("Var", v)` tuple and a
`("Block", [...])` tuple match none of the `isinstance` tests, so the
method falls through and returns silently: tuple-shaped statements —
which is the only shape in which the parser emits variable declarations
and nested blocks — are not checked at all. -/
def check_stmt (st : TCState) (s : Stmt) : Except TCErr TCState :=
  match s with
  | .exprStmt e =>
    match check_expr st e with
    | .error err => .error err
    | .ok _ => .ok st
  | .returnStmt oe =>
    let ety : Except TCErr PyTy := match oe with
      | some e => check_expr st e
      | none => .ok (some "Void")
    match ety with
    | .error err => .error err
    | .ok expr_type =>
      -- line 81 reads `self.current_function.type_tok`; at the top level
      -- `current_function` is Python `None`, which has no `type_tok`.
      match st.current_function with
      | none => .error (.attributeError "NoneType" "type_tok")
      | some f =>
        if expr_type ≠ f.type_tok then .error .erroneousReturnType else .ok st
  | .ifStmt cond if_block else_block =>
    match check_expr st cond with
    | .error err => .error err
    | .ok cond_type =>
      if cond_type ≠ some "Bool" then .error .expectedBooleanExpression
      else
        match check_stmt_list (tcEnter st "if") if_block with
        | .error err => .error err
        | .ok st2 =>
          let st3 := tcExit st2
          if else_block.isEmpty then .ok st3
          else
            match check_stmt_list (tcEnter st3 "else") else_block with
            | .error err => .error err
            | .ok st4 => .ok (tcExit st4)
  | .forStmt init cond updt block =>
    let st1 := tcEnter st "for"
    let initRes : Except TCErr Unit := match init with
      | some (.var v) => check_var_decl st1 v
      | some (.exprStmt e) =>
        match check_expr st1 e with
        | .error err => .error err
        | .ok _ => .ok ()
      | none => .ok ()
    match initRes with
    | .error err => .error err
    | .ok _ =>
      let condRes : Except TCErr Unit := match cond with
        | some c =>
          match check_expr st1 c with
          | .error err => .error err
          | .ok cond_type =>
            if cond_type ≠ some "Bool" then .error .nonBooleanCondStmt else .ok ()
        | none => .ok ()
      match condRes with
      | .error err => .error err
      | .ok _ =>
        let updtRes : Except TCErr Unit := match updt with
          | some u =>
            match check_expr st1 u with
            | .error err => .error err
            | .ok _ => .ok ()
          | none => .ok ()
        match updtRes with
        | .error err => .error err
        | .ok _ =>
          match check_stmt_list st1 block with
          | .error err => .error err
          | .ok st2 => .ok (tcExit st2)
  | .breakStmt =>
    if in_loop st then .ok st else .error .erroneousBreak
  | .varTuple _ => .ok st
  | .blockTuple _ => .ok st

/-- The `for s in ...: self.check_stmt(s)` loops of `check_fn_decl` and
`check_stmt`. -/
def check_stmt_list (st : TCState) (ss : List Stmt) : Except TCErr TCState :=
  match ss with
  | [] => .ok st
  | s :: rest =>
    match check_stmt st s with
    | .error err => .error err
    | .ok st' => check_stmt_list st' rest

end

/-- `TypeChecker.check_fn_decl` (lines 47-66). Line 49 looks up the
function's symbol (assigning `self.current_function`), then line 50 calls
`get_function_scope`, which raises `AttributeError` unconditionally (see
`get_function_scope` above); the exception propagates, so the parameter
check, the body walk, the `returned` scan and the `ReturnStmtNotFound`
check of lines 52-66 are all dead code and the method never returns
normally. -/
def check_fn_decl (st : TCState) (f : FnDecl) : Except TCErr TCState :=
  let _current_function := chainLookup st.saChain f.name
  .error (get_function_scope f.name)

/-- `TypeChecker.check_item` (lines 39-45): `isinstance` dispatch. A
parser-produced top-level variable declaration is a `("Var", v)` tuple —
not a `VarDecl` instance — so it takes the `check_stmt` branch. -/
def check_item (st : TCState) (it : Item) : Except TCErr TCState :=
  match it with
  | .fn f => check_fn_decl st f
  | .bareVar v =>
    match check_var_decl st v with
    | .error err => .error err
    | .ok _ => .ok st
  | .stmt s => check_stmt st s

/-- The `for item in program.items` loop of `check_program` (lines 35-37). -/
def check_item_list (st : TCState) (items : List Item) : Except TCErr TCState :=
  match items with
  | [] => .ok st
  | it :: rest =>
    match check_item st it with
    | .error err => .error err
    | .ok st' => check_item_list st' rest

/-- `TypeChecker.check_program` (lines 35-37): fail-fast walk of the items. -/
def check_program (st : TCState) (p : Program) : Except TCErr TCState :=
  check_item_list st p.items

/-! ## Parser (`compiler/parser.py`)

The `Parser` object holds `self.tokens` (immutable) and `self.pos`; the
embedding passes the token list and the position explicitly and returns the
new position with each parse result. The source's recursion terminates on
finite token streams because every recursive call first consumes a token;
the embedding makes this explicit with a `fuel` parameter that every nested
call decrements, and a distinguished `outOfFuel` error that stands for no
source behaviour (all claims are stated for runs that do not exhaust fuel,
or at concrete fuel large enough never to hit it). -/

/-- The discriminated parse errors (`parser.py` lines 49-55), plus the
fuel artifact. -/
inductive ParseErr where
  | unexpectedEOF : ParseErr
  | failedToFindToken (expected found : String) : ParseErr
  | expectedTypeToken : ParseErr
  | expectedIdentifier : ParseErr
  | unexpectedToken : ParseErr
  | expectedExpr (found : String) : ParseErr
  | outOfFuel : ParseErr
deriving DecidableEq, Repr

/-- The token synthesized by `_peek` past the end: `Token("EOF", None)`. -/
def eofToken : Token := { type := "EOF" }

/-- `Parser._peek` (lines 62-65): the token at `pos`, or a synthesized EOF
token when `pos` is at or past the end of the list. -/
def _peek (ts : List Token) (pos : Nat) : Token :=
  if h : pos < ts.length then ts[pos] else eofToken

/-- The type of the token at `pos`. -/
def peekT (ts : List Token) (pos : Nat) : String :=
  (_peek ts pos).type

/-- `Parser.next` (lines 67-72): raise `UnexpectedEOF` on an EOF-typed
token, otherwise consume and return it. -/
def nextTok (ts : List Token) (pos : Nat) : Except ParseErr (Token × Nat) :=
  let tok := _peek ts pos
  if tok.type == "EOF" then .error .unexpectedEOF else .ok (tok, pos + 1)

/-- `Parser.match` (lines 74-77): consume and return the token if its type
is among `types`, else return `None` without consuming. (Named `matchTok`
because `match` is a Lean keyword.) -/
def matchTok (ts : List Token) (pos : Nat) (types : List String) :
    Except ParseErr (Option (Token × Nat)) :=
  if (_peek ts pos).type ∈ types then
    match nextTok ts pos with
    | .error e => .error e
    | .ok tp => .ok (some tp)
  else .ok none

/-- Position after an optional-terminator `match` (`self.match("Dot",
"Semicolon")` used for its side effect only). -/
def termPos (r : Option (Token × Nat)) (pos : Nat) : Nat :=
  match r with
  | some (_, p') => p'
  | none => pos

/-- `Parser.expect` (lines 79-83). -/
def expect (ts : List Token) (pos : Nat) (ttype : String) :
    Except ParseErr (Token × Nat) :=
  let tok := _peek ts pos
  if tok.type == ttype then nextTok ts pos
  else .error (.failedToFindToken ttype tok.type)

/-- `Parser.expect_identifier` (lines 139-143). -/
def expect_identifier (ts : List Token) (pos : Nat) :
    Except ParseErr (String × Nat) :=
  let tok := _peek ts pos
  if tok.type == "Identifier" then
    match nextTok ts pos with
    | .error e => .error e
    | .ok (tk, p') => .ok (tk.value.asName, p')
  else .error .expectedIdentifier

/-- The type-keyword token kinds (`parser.py` lines 90, 101, 122, 130,
147, 201). -/
def typeTokens : List String := ["Int", "Float", "Bool", "String"]

/-- The literal token kinds of `parse_primary` (lines 325-332); all four
branches build `Literal(self.next().value)` identically. -/
def litTokens : List String := ["IntLit", "FloatLit", "StringLit", "BoolLit"]

mutual

/-- `Parser.parse_expr` (lines 227-228). -/
def parse_expr : Nat → List Token → Nat → Except ParseErr (Expr × Nat)
  | 0, _, _ => .error .outOfFuel
  | f + 1, ts, pos => parse_assignment f ts pos
termination_by structural f => f

/-- `Parser.parse_assignment` (lines 230-237): right-associative; the
right-hand side is parsed before the bare-identifier shape of the left side
is enforced. -/
def parse_assignment : Nat → List Token → Nat → Except ParseErr (Expr × Nat)
  | 0, _, _ => .error .outOfFuel
  | f + 1, ts, pos =>
    match parse_logical_or f ts pos with
    | .error e => .error e
    | .ok (left, p1) =>
      match matchTok ts p1 ["AssignOp"] with
      | .error e => .error e
      | .ok none => .ok (left, p1)
      | .ok (some (_, p2)) =>
        match parse_assignment f ts p2 with
        | .error e => .error e
        | .ok (right, p3) =>
          match left with
          | .identifier _ => .ok (.binary "AssignOp" left right, p3)
          | _ => .error .unexpectedToken
termination_by structural f => f

/-- `Parser.parse_logical_or` (lines 239-243). -/
def parse_logical_or : Nat → List Token → Nat → Except ParseErr (Expr × Nat)
  | 0, _, _ => .error .outOfFuel
  | f + 1, ts, pos =>
    match parse_logical_and f ts pos with
    | .error e => .error e
    | .ok (node, p1) => or_loop f ts p1 node
termination_by structural f => f

/-- The `while self.match("OrOp")` loop of `parse_logical_or`. -/
def or_loop : Nat → List Token → Nat → Expr → Except ParseErr (Expr × Nat)
  | 0, _, _, _ => .error .outOfFuel
  | f + 1, ts, pos, node =>
    match matchTok ts pos ["OrOp"] with
    | .error e => .error e
    | .ok none => .ok (node, pos)
    | .ok (some (_, p1)) =>
      match parse_logical_and f ts p1 with
      | .error e => .error e
      | .ok (right, p2) => or_loop f ts p2 (.binary "OrOp" node right)
termination_by structural f => f

/-- `Parser.parse_logical_and` (lines 245-249). -/
def parse_logical_and : Nat → List Token → Nat → Except ParseErr (Expr × Nat)
  | 0, _, _ => .error .outOfFuel
  | f + 1, ts, pos =>
    match parse_equality f ts pos with
    | .error e => .error e
    | .ok (node, p1) => and_loop f ts p1 node
termination_by structural f => f

/-- The `while self.match("AndOp")` loop of `parse_logical_and`. -/
def and_loop : Nat → List Token → Nat → Expr → Except ParseErr (Expr × Nat)
  | 0, _, _, _ => .error .outOfFuel
  | f + 1, ts, pos, node =>
    match matchTok ts pos ["AndOp"] with
    | .error e => .error e
    | .ok none => .ok (node, pos)
    | .ok (some (_, p1)) =>
      match parse_equality f ts p1 with
      | .error e => .error e
      | .ok (right, p2) => and_loop f ts p2 (.binary "AndOp" node right)
termination_by structural f => f

/-- `Parser.parse_equality` (lines 251-260). -/
def parse_equality : Nat → List Token → Nat → Except ParseErr (Expr × Nat)
  | 0, _, _ => .error .outOfFuel
  | f + 1, ts, pos =>
    match parse_comparison f ts pos with
    | .error e => .error e
    | .ok (node, p1) => eq_loop f ts p1 node
termination_by structural f => f

/-- The `while True: if match("EqualsOp") ... elif match("NotEquals") ...`
loop of `parse_equality`. Two consecutive `self.match` calls at the same
position are a single match against both types, and the `Binary` operator
tag the source writes in each branch is exactly the matched token's type. -/
def eq_loop : Nat → List Token → Nat → Expr → Except ParseErr (Expr × Nat)
  | 0, _, _, _ => .error .outOfFuel
  | f + 1, ts, pos, node =>
    match matchTok ts pos ["EqualsOp", "NotEquals"] with
    | .error e => .error e
    | .ok none => .ok (node, pos)
    | .ok (some (tk, p1)) =>
      match parse_comparison f ts p1 with
      | .error e => .error e
      | .ok (right, p2) => eq_loop f ts p2 (.binary tk.type node right)
termination_by structural f => f

/-- `Parser.parse_comparison` (lines 262-275). -/
def parse_comparison : Nat → List Token → Nat → Except ParseErr (Expr × Nat)
  | 0, _, _ => .error .outOfFuel
  | f + 1, ts, pos =>
    match parse_add f ts pos with
    | .error e => .error e
    | .ok (node, p1) => cmp_loop f ts p1 node
termination_by structural f => f

/-- The four-way `match` loop of `parse_comparison` (same merging as
`eq_loop`). -/
def cmp_loop : Nat → List Token → Nat → Expr → Except ParseErr (Expr × Nat)
  | 0, _, _, _ => .error .outOfFuel
  | f + 1, ts, pos, node =>
    match matchTok ts pos ["LessThan", "GreaterThan", "LessEq", "GreaterEq"] with
    | .error e => .error e
    | .ok none => .ok (node, pos)
    | .ok (some (tk, p1)) =>
      match parse_add f ts p1 with
      | .error e => .error e
      | .ok (right, p2) => cmp_loop f ts p2 (.binary tk.type node right)
termination_by structural f => f

/-- `Parser.parse_add` (lines 277-286). -/
def parse_add : Nat → List Token → Nat → Except ParseErr (Expr × Nat)
  | 0, _, _ => .error .outOfFuel
  | f + 1, ts, pos =>
    match parse_mul f ts pos with
    | .error e => .error e
    | .ok (node, p1) => add_loop f ts p1 node
termination_by structural f => f

/-- The `AddOp`/`SubOp` loop of `parse_add` (same merging as `eq_loop`). -/
def add_loop : Nat → List Token → Nat → Expr → Except ParseErr (Expr × Nat)
  | 0, _, _, _ => .error .outOfFuel
  | f + 1, ts, pos, node =>
    match matchTok ts pos ["AddOp", "SubOp"] with
    | .error e => .error e
    | .ok none => .ok (node, pos)
    | .ok (some (tk, p1)) =>
      match parse_mul f ts p1 with
      | .error e => .error e
      | .ok (right, p2) => add_loop f ts p2 (.binary tk.type node right)
termination_by structural f => f

/-- `Parser.parse_mul` (lines 288-299). -/
def parse_mul : Nat → List Token → Nat → Except ParseErr (Expr × Nat)
  | 0, _, _ => .error .outOfFuel
  | f + 1, ts, pos =>
    match parse_unary f ts pos with
    | .error e => .error e
    | .ok (node, p1) => mul_loop f ts p1 node
termination_by structural f => f

/-- The `MulOp`/`DivOp`/`ModOp` loop of `parse_mul` (same merging as
`eq_loop`). -/
def mul_loop : Nat → List Token → Nat → Expr → Except ParseErr (Expr × Nat)
  | 0, _, _, _ => .error .outOfFuel
  | f + 1, ts, pos, node =>
    match matchTok ts pos ["MulOp", "DivOp", "ModOp"] with
    | .error e => .error e
    | .ok none => .ok (node, pos)
    | .ok (some (tk, p1)) =>
      match parse_unary f ts p1 with
      | .error e => .error e
      | .ok (right, p2) => mul_loop f ts p2 (.binary tk.type node right)
termination_by structural f => f

/-- `Parser.parse_unary` (lines 301-306). -/
def parse_unary : Nat → List Token → Nat → Except ParseErr (Expr × Nat)
  | 0, _, _ => .error .outOfFuel
  | f + 1, ts, pos =>
    match matchTok ts pos ["SubOp"] with
    | .error e => .error e
    | .ok (some (_, p1)) =>
      match parse_unary f ts p1 with
      | .error e => .error e
      | .ok (node, p2) => .ok (.unary "SubOp" node, p2)
    | .ok none =>
      match matchTok ts pos ["NotOp"] with
      | .error e => .error e
      | .ok (some (_, p1)) =>
        match parse_unary f ts p1 with
        | .error e => .error e
        | .ok (node, p2) => .ok (.unary "NotOp" node, p2)
      | .ok none => parse_call f ts pos
termination_by structural f => f

/-- `Parser.parse_call` (lines 308-321). -/
def parse_call : Nat → List Token → Nat → Except ParseErr (Expr × Nat)
  | 0, _, _ => .error .outOfFuel
  | f + 1, ts, pos =>
    match parse_primary f ts pos with
    | .error e => .error e
    | .ok (node, p1) => call_loop f ts p1 node
termination_by structural f => f

/-- The `while True: if self.match("ParenL")` loop of `parse_call`. -/
def call_loop : Nat → List Token → Nat → Expr → Except ParseErr (Expr × Nat)
  | 0, _, _, _ => .error .outOfFuel
  | f + 1, ts, pos, node =>
    match matchTok ts pos ["ParenL"] with
    | .error e => .error e
    | .ok none => .ok (node, pos)
    | .ok (some (_, p1)) =>
      if peekT ts p1 ≠ "ParenR" then
        match parse_expr f ts p1 with
        | .error e => .error e
        | .ok (a, p2) =>
          match call_args f ts p2 [a] with
          | .error e => .error e
          | .ok (args, p3) =>
            match expect ts p3 "ParenR" with
            | .error e => .error e
            | .ok (_, p4) => call_loop f ts p4 (.call node args)
      else
        match expect ts p1 "ParenR" with
        | .error e => .error e
        | .ok (_, p2) => call_loop f ts p2 (.call node [])
termination_by structural f => f

/-- The `while self.match("Comma")` argument loop of `parse_call`. -/
def call_args : Nat → List Token → Nat → List Expr → Except ParseErr (List Expr × Nat)
  | 0, _, _, _ => .error .outOfFuel
  | f + 1, ts, pos, acc =>
    match matchTok ts pos ["Comma"] with
    | .error e => .error e
    | .ok none => .ok (acc, pos)
    | .ok (some (_, p1)) =>
      match parse_expr f ts p1 with
      | .error e => .error e
      | .ok (a, p2) => call_args f ts p2 (acc ++ [a])
termination_by structural f => f

/-- `Parser.parse_primary` (lines 323-337). The four literal branches are
textually identical up to the token kind tested and all build
`Literal(self.next().value)`. -/
def parse_primary : Nat → List Token → Nat → Except ParseErr (Expr × Nat)
  | 0, _, _ => .error .outOfFuel
  | f + 1, ts, pos =>
    let tok := _peek ts pos
    if tok.type ∈ litTokens then
      match nextTok ts pos with
      | .error e => .error e
      | .ok (tk, p1) => .ok (.literal tk.value, p1)
    else if tok.type == "Identifier" then
      match nextTok ts pos with
      | .error e => .error e
      | .ok (tk, p1) => .ok (.identifier tk.value.asName, p1)
    else if tok.type == "ParenL" then
      match nextTok ts pos with
      | .error e => .error e
      | .ok (_, p1) =>
        match parse_expr f ts p1 with
        | .error e => .error e
        | .ok (node, p2) =>
          match expect ts p2 "ParenR" with
          | .error e => .error e
          | .ok (_, p3) => .ok (node, p3)
    else .error (.expectedExpr tok.type)
termination_by structural f => f

end

mutual

/-- `Parser.parse_stmt` (lines 145-176). Statement terminators: after each
statement form, `self.match("Dot","Semicolon")` consumes a period or a
semicolon if present and does nothing otherwise. -/
def parse_stmt : Nat → List Token → Nat → Except ParseErr (Stmt × Nat)
  | 0, _, _ => .error .outOfFuel
  | f + 1, ts, pos =>
    let tok := _peek ts pos
    if tok.type ∈ typeTokens then
      match parse_var_decl f ts pos with
      | .error e => .error e
      | .ok (v, p1) =>
        match matchTok ts p1 ["Dot", "Semicolon"] with
        | .error e => .error e
        | .ok r => .ok (.varTuple v, termPos r p1)
    else if tok.type == "Return" || tok.type == "wapsi" then
      match nextTok ts pos with
      | .error e => .error e
      | .ok (_, p1) =>
        if peekT ts p1 ∈ (["Dot", "Semicolon"] : List String) then
          match matchTok ts p1 ["Dot", "Semicolon"] with
          | .error e => .error e
          | .ok r => .ok (.returnStmt none, termPos r p1)
        else
          match parse_expr f ts p1 with
          | .error e => .error e
          | .ok (e, p2) =>
            match matchTok ts p2 ["Dot", "Semicolon"] with
            | .error e' => .error e'
            | .ok r => .ok (.returnStmt (some e), termPos r p2)
    else if tok.type == "If" || tok.type == "agar" then parse_if f ts pos
    else if tok.type == "For" || tok.type == "duhrao" then parse_for f ts pos
    else if tok.type == "Break" || tok.type == "toro" then
      match nextTok ts pos with
      | .error e => .error e
      | .ok (_, p1) =>
        match matchTok ts p1 ["Dot", "Semicolon"] with
        | .error e => .error e
        | .ok r => .ok (.breakStmt, termPos r p1)
    else if tok.type == "BraceL" then
      match nextTok ts pos with
      | .error e => .error e
      | .ok (_, p1) =>
        match stmt_block f ts p1 with
        | .error e => .error e
        | .ok (block, p2) =>
          match expect ts p2 "BraceR" with
          | .error e => .error e
          | .ok (_, p3) =>
            match matchTok ts p3 ["Dot", "Semicolon"] with
            | .error e => .error e
            | .ok r => .ok (.blockTuple block, termPos r p3)
    else
      match parse_expr f ts pos with
      | .error e => .error e
      | .ok (e, p1) =>
        match matchTok ts p1 ["Dot", "Semicolon"] with
        | .error e' => .error e'
        | .ok r => .ok (.exprStmt e, termPos r p1)
termination_by structural f => f

/-- The `while self._peek().type != "BraceR"` statement loops (`parse_stmt`
block case, `parse_if`, `parse_for`, `parse_fn_decl`). -/
def stmt_block : Nat → List Token → Nat → Except ParseErr (List Stmt × Nat)
  | 0, _, _ => .error .outOfFuel
  | f + 1, ts, pos =>
    if peekT ts pos == "BraceR" then .ok ([], pos)
    else
      match parse_stmt f ts pos with
      | .error e => .error e
      | .ok (s, p1) =>
        match stmt_block f ts p1 with
        | .error e => .error e
        | .ok (ss, p2) => .ok (s :: ss, p2)
termination_by structural f => f

/-- `Parser.parse_if` (lines 178-195). `if self.match("Else") or
self.match("warna")` is a single match against both kinds. -/
def parse_if : Nat → List Token → Nat → Except ParseErr (Stmt × Nat)
  | 0, _, _ => .error .outOfFuel
  | f + 1, ts, pos =>
    match nextTok ts pos with
    | .error e => .error e
    | .ok (_, p1) =>
      match expect ts p1 "ParenL" with
      | .error e => .error e
      | .ok (_, p2) =>
        match parse_expr f ts p2 with
        | .error e => .error e
        | .ok (cond, p3) =>
          match expect ts p3 "ParenR" with
          | .error e => .error e
          | .ok (_, p4) =>
            match expect ts p4 "BraceL" with
            | .error e => .error e
            | .ok (_, p5) =>
              match stmt_block f ts p5 with
              | .error e => .error e
              | .ok (if_block, p6) =>
                match expect ts p6 "BraceR" with
                | .error e => .error e
                | .ok (_, p7) =>
                  match matchTok ts p7 ["Else", "warna"] with
                  | .error e => .error e
                  | .ok none =>
                    match matchTok ts p7 ["Dot", "Semicolon"] with
                    | .error e => .error e
                    | .ok r => .ok (.ifStmt cond if_block [], termPos r p7)
                  | .ok (some (_, p8)) =>
                    match expect ts p8 "BraceL" with
                    | .error e => .error e
                    | .ok (_, p9) =>
                      match stmt_block f ts p9 with
                      | .error e => .error e
                      | .ok (else_block, p10) =>
                        match expect ts p10 "BraceR" with
                        | .error e => .error e
                        | .ok (_, p11) =>
                          match matchTok ts p11 ["Dot", "Semicolon"] with
                          | .error e => .error e
                          | .ok r =>
                            .ok (.ifStmt cond if_block else_block, termPos r p11)
termination_by structural f => f

/-- `Parser.parse_for` (lines 197-224). The init/cond branch conditions
test the upcoming token only against `"Dot"` (not `"Semicolon"`), exactly
as the source does. -/
def parse_for : Nat → List Token → Nat → Except ParseErr (Stmt × Nat)
  | 0, _, _ => .error .outOfFuel
  | f + 1, ts, pos =>
    match nextTok ts pos with
    | .error e => .error e
    | .ok (_, p1) =>
      match expect ts p1 "ParenL" with
      | .error e => .error e
      | .ok (_, p2) =>
        let initRes : Except ParseErr (Option ForInit × Nat) :=
          if peekT ts p2 ∈ typeTokens then
            match parse_var_decl f ts p2 with
            | .error e => .error e
            | .ok (v, q1) =>
              match matchTok ts q1 ["Dot", "Semicolon"] with
              | .error e => .error e
              | .ok r => .ok (some (.var v), termPos r q1)
          else if peekT ts p2 ≠ "Dot" then
            match parse_expr f ts p2 with
            | .error e => .error e
            | .ok (e, q1) =>
              match matchTok ts q1 ["Dot", "Semicolon"] with
              | .error e => .error e
              | .ok r => .ok (some (.exprStmt e), termPos r q1)
          else
            match matchTok ts p2 ["Dot", "Semicolon"] with
            | .error e => .error e
            | .ok r => .ok (none, termPos r p2)
        match initRes with
        | .error e => .error e
        | .ok (init, p3) =>
          let condRes : Except ParseErr (Option Expr × Nat) :=
            if peekT ts p3 ≠ "Dot" then
              match parse_expr f ts p3 with
              | .error e => .error e
              | .ok (c, q1) => .ok (some c, q1)
            else .ok (none, p3)
          match condRes with
          | .error e => .error e
          | .ok (cond, p4) =>
            match matchTok ts p4 ["Dot", "Semicolon"] with
            | .error e => .error e
            | .ok r1 =>
              let p5 := termPos r1 p4
              let updtRes : Except ParseErr (Option Expr × Nat) :=
                if peekT ts p5 ≠ "ParenR" then
                  match parse_expr f ts p5 with
                  | .error e => .error e
                  | .ok (u, q1) => .ok (some u, q1)
                else .ok (none, p5)
              match updtRes with
              | .error e => .error e
              | .ok (updt, p6) =>
                match expect ts p6 "ParenR" with
                | .error e => .error e
                | .ok (_, p7) =>
                  match expect ts p7 "BraceL" with
                  | .error e => .error e
                  | .ok (_, p8) =>
                    match stmt_block f ts p8 with
                    | .error e => .error e
                    | .ok (block, p9) =>
                      match expect ts p9 "BraceR" with
                      | .error e => .error e
                      | .ok (_, p10) =>
                        match matchTok ts p10 ["Dot", "Semicolon"] with
                        | .error e => .error e
                        | .ok r =>
                          .ok (.forStmt init cond updt block, termPos r p10)
termination_by structural f => f

/-- `Parser.parse_var_decl` (lines 128-137); the caller consumes any
terminator. -/
def parse_var_decl : Nat → List Token → Nat → Except ParseErr (VarDecl × Nat)
  | 0, _, _ => .error .outOfFuel
  | f + 1, ts, pos =>
    let t := _peek ts pos
    if t.type ∈ typeTokens then
      match nextTok ts pos with
      | .error e => .error e
      | .ok (tt, p1) =>
        match expect_identifier ts p1 with
        | .error e => .error e
        | .ok (name, p2) =>
          match matchTok ts p2 ["AssignOp"] with
          | .error e => .error e
          | .ok none => .ok (.mk tt.type name none, p2)
          | .ok (some (_, p3)) =>
            match parse_expr f ts p3 with
            | .error e => .error e
            | .ok (e, p4) => .ok (.mk tt.type name (some e), p4)
    else .error .expectedTypeToken

end

/-- `Parser.parse_param` (lines 120-126). -/
def parse_param (ts : List Token) (pos : Nat) : Except ParseErr (Param × Nat) :=
  let t := _peek ts pos
  if t.type ∈ typeTokens then
    match nextTok ts pos with
    | .error e => .error e
    | .ok (tt, p1) =>
      match expect_identifier ts p1 with
      | .error e => .error e
      | .ok (name, p2) => .ok (.mk tt.type name, p2)
  else .error .expectedTypeToken

/-- The `while self.match("Comma")` parameter loop of `parse_fn_decl`
(lines 109-110). -/
def param_loop : Nat → List Token → Nat → List Param → Except ParseErr (List Param × Nat)
  | 0, _, _, _ => .error .outOfFuel
  | f + 1, ts, pos, acc =>
    match matchTok ts pos ["Comma"] with
    | .error e => .error e
    | .ok none => .ok (acc, pos)
    | .ok (some (_, p1)) =>
      match parse_param ts p1 with
      | .error e => .error e
      | .ok (p, p2) => param_loop f ts p2 (acc ++ [p])

/-- `Parser.parse_fn_decl` (lines 98-118). -/
def parse_fn_decl (f : Nat) (ts : List Token) (pos : Nat) :
    Except ParseErr (FnDecl × Nat) :=
  match expect ts pos "Function" with
  | .error e => .error e
  | .ok (_, p1) =>
    let t := _peek ts p1
    if t.type ∈ typeTokens then
      match nextTok ts p1 with
      | .error e => .error e
      | .ok (tt, p2) =>
        match expect_identifier ts p2 with
        | .error e => .error e
        | .ok (name, p3) =>
          match expect ts p3 "ParenL" with
          | .error e => .error e
          | .ok (_, p4) =>
            let paramsRes : Except ParseErr (List Param × Nat) :=
              if peekT ts p4 ≠ "ParenR" then
                match parse_param ts p4 with
                | .error e => .error e
                | .ok (p0, q1) => param_loop f ts q1 [p0]
              else .ok ([], p4)
            match paramsRes with
            | .error e => .error e
            | .ok (params, p5) =>
              match expect ts p5 "ParenR" with
              | .error e => .error e
              | .ok (_, p6) =>
                match expect ts p6 "BraceL" with
                | .error e => .error e
                | .ok (_, p7) =>
                  match stmt_block f ts p7 with
                  | .error e => .error e
                  | .ok (body, p8) =>
                    match expect ts p8 "BraceR" with
                    | .error e => .error e
                    | .ok (_, p9) =>
                      match matchTok ts p9 ["Dot", "Semicolon"] with
                      | .error e => .error e
                      | .ok r => .ok (.mk tt.type name params body, termPos r p9)
    else .error .expectedTypeToken

/-- The `while self._peek().type != "EOF"` item loop of `Parser.parse`
(lines 85-96). -/
def parse_items : Nat → List Token → Nat → Except ParseErr (List Item × Nat)
  | 0, _, _ => .error .outOfFuel
  | f + 1, ts, pos =>
    if peekT ts pos == "EOF" then .ok ([], pos)
    else if peekT ts pos == "Function" then
      match parse_fn_decl f ts pos with
      | .error e => .error e
      | .ok (fd, p1) =>
        match parse_items f ts p1 with
        | .error e => .error e
        | .ok (rest, p2) => .ok (.fn fd :: rest, p2)
    else if peekT ts pos ∈ typeTokens then
      match parse_var_decl f ts pos with
      | .error e => .error e
      | .ok (v, p1) =>
        match matchTok ts p1 ["Dot", "Semicolon"] with
        | .error e => .error e
        | .ok r =>
          match parse_items f ts (termPos r p1) with
          | .error e => .error e
          | .ok (rest, p2) => .ok (.stmt (.varTuple v) :: rest, p2)
    else
      match parse_stmt f ts pos with
      | .error e => .error e
      | .ok (s, p1) =>
        match parse_items f ts p1 with
        | .error e => .error e
        | .ok (rest, p2) => .ok (.stmt s :: rest, p2)

/-- `Parser.parse` (lines 85-96): loop until an EOF-typed token (real or
synthesized) is the next token, then return the `Program`. -/
def parse (f : Nat) (ts : List Token) : Except ParseErr Program :=
  match parse_items f ts 0 with
  | .error e => .error e
  | .ok (items, _) => .ok ⟨items⟩

/-! ## Claim C9: machinery

To show that the three statement terminators are interchangeable we need a
locality property of the expression parser: a successful parse of an
expression is determined by the tokens it consumed plus the *class* of the
stopping token. `equivAt ts ts' p` says the two token lists agree strictly
below position `p`, and at `p` either carry the same token or both carry a
statement terminator (`Dot`, `Semicolon`, or the closing-brace `BraceR` the
block loops stop on). No terminator type continues any expression
production, so a parse that succeeded on `ts` stopping at `p` replays
verbatim on `ts'`. -/

/-- The three statement-terminator token types of the claim. -/
def termTypes : List String := ["Dot", "Semicolon", "BraceR"]

/-- Agreement of two token lists below `p`, with interchangeable
terminators at `p`. -/
def equivAt (ts ts' : List Token) (p : Nat) : Prop :=
  (∀ i, i < p → _peek ts i = _peek ts' i) ∧
  (_peek ts p = _peek ts' p ∨ (peekT ts p ∈ termTypes ∧ peekT ts' p ∈ termTypes))

theorem nextTok_elim {ts : List Token} {pos : Nat} {tk : Token} {p1 : Nat}
    (h : nextTok ts pos = .ok (tk, p1)) :
    p1 = pos + 1 ∧ tk = _peek ts pos := by
  unfold nextTok at h
  by_cases he : (_peek ts pos).type == "EOF"
  · rw [if_pos he] at h
    simp at h
  · rw [if_neg he] at h
    simp at h
    exact ⟨h.2.symm, h.1.symm⟩

theorem matchTok_some_elim {ts : List Token} {pos : Nat} {types : List String}
    {tk : Token} {p1 : Nat} (h : matchTok ts pos types = .ok (some (tk, p1))) :
    p1 = pos + 1 ∧ tk = _peek ts pos ∧ (_peek ts pos).type ∈ types := by
  unfold matchTok at h
  by_cases hc : (_peek ts pos).type ∈ types
  · rw [if_pos hc] at h
    cases hn : nextTok ts pos with
    | error e => rw [hn] at h; simp at h
    | ok tp =>
      rw [hn] at h
      simp at h
      obtain ⟨h1, h2⟩ := nextTok_elim hn
      subst h
      simp at h1 h2
      exact ⟨h1, h2, hc⟩
  · rw [if_neg hc] at h
    simp at h

theorem matchTok_none_elim {ts : List Token} {pos : Nat} {types : List String}
    (h : matchTok ts pos types = .ok none) : (_peek ts pos).type ∉ types := by
  unfold matchTok at h
  by_cases hc : (_peek ts pos).type ∈ types
  · rw [if_pos hc] at h
    cases hn : nextTok ts pos with
    | error e => rw [hn] at h; simp at h
    | ok tp => rw [hn] at h; simp at h
  · exact hc

theorem peek_eq_of_lt {ts ts' : List Token} {p : Nat} (he : equivAt ts ts' p)
    {i : Nat} (hi : i < p) : _peek ts i = _peek ts' i :=
  he.1 i hi

theorem peek_eq_of_le {ts ts' : List Token} {p : Nat} (he : equivAt ts ts' p)
    {i : Nat} (hi : i ≤ p) (hnt : peekT ts i ∉ termTypes) :
    _peek ts i = _peek ts' i := by
  rcases Nat.lt_or_eq_of_le hi with hlt | heq
  · exact he.1 i hlt
  · subst heq
    rcases he.2 with hp | ⟨ht, _⟩
    · exact hp
    · exact absurd ht hnt

theorem nextTok_congr {ts ts' : List Token} {pos : Nat}
    (hp : _peek ts pos = _peek ts' pos) : nextTok ts' pos = nextTok ts pos := by
  unfold nextTok
  rw [hp]

theorem expect_congr {ts ts' : List Token} {pos : Nat} {ttype : String}
    (hp : _peek ts pos = _peek ts' pos) : expect ts' pos ttype = expect ts pos ttype := by
  unfold expect
  rw [hp, nextTok_congr hp]

theorem matchTok_congr {ts ts' : List Token} {p pos : Nat} {types : List String}
    (he : equivAt ts ts' p) (hle : pos ≤ p) (hT : ∀ t ∈ types, t ∉ termTypes) :
    matchTok ts' pos types = matchTok ts pos types := by
  by_cases hc : (_peek ts pos).type ∈ types
  · have hpk : _peek ts pos = _peek ts' pos :=
      peek_eq_of_le he hle (fun hmem => hT _ hc hmem)
    unfold matchTok
    rw [hpk, nextTok_congr hpk]
  · rcases Nat.lt_or_eq_of_le hle with hlt | heq
    · have hpk := he.1 pos hlt
      unfold matchTok
      rw [hpk, nextTok_congr hpk]
    · subst heq
      rcases he.2 with hp | ⟨ht, ht'⟩
      · unfold matchTok
        rw [hp, nextTok_congr hp]
      · have hc' : (_peek ts' pos).type ∉ types := fun hmem => (hT _ hmem) ht'
        unfold matchTok
        rw [if_neg hc, if_neg hc']

theorem expect_elim {ts : List Token} {pos : Nat} {ttype : String}
    {tk : Token} {p1 : Nat} (h : expect ts pos ttype = .ok (tk, p1)) :
    p1 = pos + 1 := by
  unfold expect at h
  by_cases hc : (_peek ts pos).type == ttype
  · rw [if_pos hc] at h
    exact (nextTok_elim h).1
  · rw [if_neg hc] at h
    simp at h

mutual

theorem mono_parse_expr : ∀ (f : Nat) (ts : List Token) (pos : Nat) (v : Expr)
      (q : Nat), parse_expr f ts pos = .ok (v, q) → pos ≤ q
  | 0, ts, pos, v, q => by
    intro h
    simp [parse_expr] at h
  | f + 1, ts, pos, v, q => by
    intro h
    exact mono_parse_assignment f ts pos v q h

theorem mono_parse_assignment : ∀ (f : Nat) (ts : List Token) (pos : Nat) (v : Expr)
      (q : Nat), parse_assignment f ts pos = .ok (v, q) → pos ≤ q
  | 0, ts, pos, v, q => by
    intro h
    simp [parse_assignment] at h
  | f + 1, ts, pos, v, q => by
    intro h
    simp only [parse_assignment] at h
    cases hp : parse_logical_or f ts pos with
    | error e => rw [hp] at h; simp at h
    | ok rp =>
      rw [hp] at h
      obtain ⟨left, p1⟩ := rp
      simp only [] at h
      have h1 := mono_parse_logical_or f ts pos left p1 hp
      cases hm : matchTok ts p1 ["AssignOp"] with
      | error e => rw [hm] at h; simp at h
      | ok r =>
        rw [hm] at h
        cases r with
        | none =>
          simp at h
          omega
        | some tp =>
          obtain ⟨tk, p2⟩ := tp
          simp only [] at h
          cases ha : parse_assignment f ts p2 with
          | error e => rw [ha] at h; simp at h
          | ok ra =>
            rw [ha] at h
            obtain ⟨right, p3⟩ := ra
            simp only [] at h
            have h2 := (matchTok_some_elim hm).1
            have h3 := mono_parse_assignment f ts p2 right p3 ha
            cases left with
            | identifier nm => simp at h; omega
            | binary op l r => simp at h
            | unary op e1 => simp at h
            | literal lv => simp at h
            | call c as => simp at h

theorem mono_parse_logical_or : ∀ (f : Nat) (ts : List Token) (pos : Nat) (v : Expr)
      (q : Nat), parse_logical_or f ts pos = .ok (v, q) → pos ≤ q
  | 0, ts, pos, v, q => by
    intro h
    simp [parse_logical_or] at h
  | f + 1, ts, pos, v, q => by
    intro h
    simp only [parse_logical_or] at h
    cases hp : parse_logical_and f ts pos with
    | error e => rw [hp] at h; simp at h
    | ok rp =>
      rw [hp] at h
      obtain ⟨n, p1⟩ := rp
      simp only [] at h
      have h1 := mono_parse_logical_and f ts pos n p1 hp
      have h2 := mono_or_loop f ts p1 n v q h
      omega

theorem mono_parse_logical_and : ∀ (f : Nat) (ts : List Token) (pos : Nat) (v : Expr)
      (q : Nat), parse_logical_and f ts pos = .ok (v, q) → pos ≤ q
  | 0, ts, pos, v, q => by
    intro h
    simp [parse_logical_and] at h
  | f + 1, ts, pos, v, q => by
    intro h
    simp only [parse_logical_and] at h
    cases hp : parse_equality f ts pos with
    | error e => rw [hp] at h; simp at h
    | ok rp =>
      rw [hp] at h
      obtain ⟨n, p1⟩ := rp
      simp only [] at h
      have h1 := mono_parse_equality f ts pos n p1 hp
      have h2 := mono_and_loop f ts p1 n v q h
      omega

theorem mono_parse_equality : ∀ (f : Nat) (ts : List Token) (pos : Nat) (v : Expr)
      (q : Nat), parse_equality f ts pos = .ok (v, q) → pos ≤ q
  | 0, ts, pos, v, q => by
    intro h
    simp [parse_equality] at h
  | f + 1, ts, pos, v, q => by
    intro h
    simp only [parse_equality] at h
    cases hp : parse_comparison f ts pos with
    | error e => rw [hp] at h; simp at h
    | ok rp =>
      rw [hp] at h
      obtain ⟨n, p1⟩ := rp
      simp only [] at h
      have h1 := mono_parse_comparison f ts pos n p1 hp
      have h2 := mono_eq_loop f ts p1 n v q h
      omega

theorem mono_parse_comparison : ∀ (f : Nat) (ts : List Token) (pos : Nat) (v : Expr)
      (q : Nat), parse_comparison f ts pos = .ok (v, q) → pos ≤ q
  | 0, ts, pos, v, q => by
    intro h
    simp [parse_comparison] at h
  | f + 1, ts, pos, v, q => by
    intro h
    simp only [parse_comparison] at h
    cases hp : parse_add f ts pos with
    | error e => rw [hp] at h; simp at h
    | ok rp =>
      rw [hp] at h
      obtain ⟨n, p1⟩ := rp
      simp only [] at h
      have h1 := mono_parse_add f ts pos n p1 hp
      have h2 := mono_cmp_loop f ts p1 n v q h
      omega

theorem mono_parse_add : ∀ (f : Nat) (ts : List Token) (pos : Nat) (v : Expr)
      (q : Nat), parse_add f ts pos = .ok (v, q) → pos ≤ q
  | 0, ts, pos, v, q => by
    intro h
    simp [parse_add] at h
  | f + 1, ts, pos, v, q => by
    intro h
    simp only [parse_add] at h
    cases hp : parse_mul f ts pos with
    | error e => rw [hp] at h; simp at h
    | ok rp =>
      rw [hp] at h
      obtain ⟨n, p1⟩ := rp
      simp only [] at h
      have h1 := mono_parse_mul f ts pos n p1 hp
      have h2 := mono_add_loop f ts p1 n v q h
      omega

theorem mono_parse_mul : ∀ (f : Nat) (ts : List Token) (pos : Nat) (v : Expr)
      (q : Nat), parse_mul f ts pos = .ok (v, q) → pos ≤ q
  | 0, ts, pos, v, q => by
    intro h
    simp [parse_mul] at h
  | f + 1, ts, pos, v, q => by
    intro h
    simp only [parse_mul] at h
    cases hp : parse_unary f ts pos with
    | error e => rw [hp] at h; simp at h
    | ok rp =>
      rw [hp] at h
      obtain ⟨n, p1⟩ := rp
      simp only [] at h
      have h1 := mono_parse_unary f ts pos n p1 hp
      have h2 := mono_mul_loop f ts p1 n v q h
      omega

theorem mono_parse_call : ∀ (f : Nat) (ts : List Token) (pos : Nat) (v : Expr)
      (q : Nat), parse_call f ts pos = .ok (v, q) → pos ≤ q
  | 0, ts, pos, v, q => by
    intro h
    simp [parse_call] at h
  | f + 1, ts, pos, v, q => by
    intro h
    simp only [parse_call] at h
    cases hp : parse_primary f ts pos with
    | error e => rw [hp] at h; simp at h
    | ok rp =>
      rw [hp] at h
      obtain ⟨n, p1⟩ := rp
      simp only [] at h
      have h1 := mono_parse_primary f ts pos n p1 hp
      have h2 := mono_call_loop f ts p1 n v q h
      omega

theorem mono_or_loop : ∀ (f : Nat) (ts : List Token) (pos : Nat) (node v : Expr)
      (q : Nat), or_loop f ts pos node = .ok (v, q) → pos ≤ q
  | 0, ts, pos, node, v, q => by
    intro h
    simp [or_loop] at h
  | f + 1, ts, pos, node, v, q => by
    intro h
    simp only [or_loop] at h
    cases hm : matchTok ts pos ["OrOp"] with
    | error e => rw [hm] at h; simp at h
    | ok r =>
      rw [hm] at h
      cases r with
      | none =>
        simp at h
        omega
      | some tp =>
        obtain ⟨tk, p1⟩ := tp
        simp only [] at h
        cases hp : parse_logical_and f ts p1 with
        | error e => rw [hp] at h; simp at h
        | ok rp =>
          rw [hp] at h
          obtain ⟨r2, p2⟩ := rp
          simp only [] at h
          have h1 := (matchTok_some_elim hm).1
          have h2 := mono_parse_logical_and f ts p1 r2 p2 hp
          have h3 := mono_or_loop f ts p2 _ v q h
          omega

theorem mono_and_loop : ∀ (f : Nat) (ts : List Token) (pos : Nat) (node v : Expr)
      (q : Nat), and_loop f ts pos node = .ok (v, q) → pos ≤ q
  | 0, ts, pos, node, v, q => by
    intro h
    simp [and_loop] at h
  | f + 1, ts, pos, node, v, q => by
    intro h
    simp only [and_loop] at h
    cases hm : matchTok ts pos ["AndOp"] with
    | error e => rw [hm] at h; simp at h
    | ok r =>
      rw [hm] at h
      cases r with
      | none =>
        simp at h
        omega
      | some tp =>
        obtain ⟨tk, p1⟩ := tp
        simp only [] at h
        cases hp : parse_equality f ts p1 with
        | error e => rw [hp] at h; simp at h
        | ok rp =>
          rw [hp] at h
          obtain ⟨r2, p2⟩ := rp
          simp only [] at h
          have h1 := (matchTok_some_elim hm).1
          have h2 := mono_parse_equality f ts p1 r2 p2 hp
          have h3 := mono_and_loop f ts p2 _ v q h
          omega

theorem mono_eq_loop : ∀ (f : Nat) (ts : List Token) (pos : Nat) (node v : Expr)
      (q : Nat), eq_loop f ts pos node = .ok (v, q) → pos ≤ q
  | 0, ts, pos, node, v, q => by
    intro h
    simp [eq_loop] at h
  | f + 1, ts, pos, node, v, q => by
    intro h
    simp only [eq_loop] at h
    cases hm : matchTok ts pos ["EqualsOp", "NotEquals"] with
    | error e => rw [hm] at h; simp at h
    | ok r =>
      rw [hm] at h
      cases r with
      | none =>
        simp at h
        omega
      | some tp =>
        obtain ⟨tk, p1⟩ := tp
        simp only [] at h
        cases hp : parse_comparison f ts p1 with
        | error e => rw [hp] at h; simp at h
        | ok rp =>
          rw [hp] at h
          obtain ⟨r2, p2⟩ := rp
          simp only [] at h
          have h1 := (matchTok_some_elim hm).1
          have h2 := mono_parse_comparison f ts p1 r2 p2 hp
          have h3 := mono_eq_loop f ts p2 _ v q h
          omega

theorem mono_cmp_loop : ∀ (f : Nat) (ts : List Token) (pos : Nat) (node v : Expr)
      (q : Nat), cmp_loop f ts pos node = .ok (v, q) → pos ≤ q
  | 0, ts, pos, node, v, q => by
    intro h
    simp [cmp_loop] at h
  | f + 1, ts, pos, node, v, q => by
    intro h
    simp only [cmp_loop] at h
    cases hm : matchTok ts pos ["LessThan", "GreaterThan", "LessEq", "GreaterEq"] with
    | error e => rw [hm] at h; simp at h
    | ok r =>
      rw [hm] at h
      cases r with
      | none =>
        simp at h
        omega
      | some tp =>
        obtain ⟨tk, p1⟩ := tp
        simp only [] at h
        cases hp : parse_add f ts p1 with
        | error e => rw [hp] at h; simp at h
        | ok rp =>
          rw [hp] at h
          obtain ⟨r2, p2⟩ := rp
          simp only [] at h
          have h1 := (matchTok_some_elim hm).1
          have h2 := mono_parse_add f ts p1 r2 p2 hp
          have h3 := mono_cmp_loop f ts p2 _ v q h
          omega

theorem mono_add_loop : ∀ (f : Nat) (ts : List Token) (pos : Nat) (node v : Expr)
      (q : Nat), add_loop f ts pos node = .ok (v, q) → pos ≤ q
  | 0, ts, pos, node, v, q => by
    intro h
    simp [add_loop] at h
  | f + 1, ts, pos, node, v, q => by
    intro h
    simp only [add_loop] at h
    cases hm : matchTok ts pos ["AddOp", "SubOp"] with
    | error e => rw [hm] at h; simp at h
    | ok r =>
      rw [hm] at h
      cases r with
      | none =>
        simp at h
        omega
      | some tp =>
        obtain ⟨tk, p1⟩ := tp
        simp only [] at h
        cases hp : parse_mul f ts p1 with
        | error e => rw [hp] at h; simp at h
        | ok rp =>
          rw [hp] at h
          obtain ⟨r2, p2⟩ := rp
          simp only [] at h
          have h1 := (matchTok_some_elim hm).1
          have h2 := mono_parse_mul f ts p1 r2 p2 hp
          have h3 := mono_add_loop f ts p2 _ v q h
          omega

theorem mono_mul_loop : ∀ (f : Nat) (ts : List Token) (pos : Nat) (node v : Expr)
      (q : Nat), mul_loop f ts pos node = .ok (v, q) → pos ≤ q
  | 0, ts, pos, node, v, q => by
    intro h
    simp [mul_loop] at h
  | f + 1, ts, pos, node, v, q => by
    intro h
    simp only [mul_loop] at h
    cases hm : matchTok ts pos ["MulOp", "DivOp", "ModOp"] with
    | error e => rw [hm] at h; simp at h
    | ok r =>
      rw [hm] at h
      cases r with
      | none =>
        simp at h
        omega
      | some tp =>
        obtain ⟨tk, p1⟩ := tp
        simp only [] at h
        cases hp : parse_unary f ts p1 with
        | error e => rw [hp] at h; simp at h
        | ok rp =>
          rw [hp] at h
          obtain ⟨r2, p2⟩ := rp
          simp only [] at h
          have h1 := (matchTok_some_elim hm).1
          have h2 := mono_parse_unary f ts p1 r2 p2 hp
          have h3 := mono_mul_loop f ts p2 _ v q h
          omega

theorem mono_parse_unary : ∀ (f : Nat) (ts : List Token) (pos : Nat) (v : Expr)
      (q : Nat), parse_unary f ts pos = .ok (v, q) → pos ≤ q
  | 0, ts, pos, v, q => by
    intro h
    simp [parse_unary] at h
  | f + 1, ts, pos, v, q => by
    intro h
    simp only [parse_unary] at h
    cases hm : matchTok ts pos ["SubOp"] with
    | error e => rw [hm] at h; simp at h
    | ok r =>
      rw [hm] at h
      cases r with
      | some tp =>
        obtain ⟨tk, p1⟩ := tp
        simp only [] at h
        cases hu : parse_unary f ts p1 with
        | error e => rw [hu] at h; simp at h
        | ok ru =>
          rw [hu] at h
          obtain ⟨n, p2⟩ := ru
          simp only [] at h
          simp at h
          have h1 := (matchTok_some_elim hm).1
          have h2 := mono_parse_unary f ts p1 n p2 hu
          omega
      | none =>
        simp only [] at h
        cases hm2 : matchTok ts pos ["NotOp"] with
        | error e => rw [hm2] at h; simp at h
        | ok r2 =>
          rw [hm2] at h
          cases r2 with
          | some tp =>
            obtain ⟨tk, p1⟩ := tp
            simp only [] at h
            cases hu : parse_unary f ts p1 with
            | error e => rw [hu] at h; simp at h
            | ok ru =>
              rw [hu] at h
              obtain ⟨n, p2⟩ := ru
              simp only [] at h
              simp at h
              have h1 := (matchTok_some_elim hm2).1
              have h2 := mono_parse_unary f ts p1 n p2 hu
              omega
          | none =>
            simp only [] at h
            exact mono_parse_call f ts pos v q h

theorem mono_call_loop : ∀ (f : Nat) (ts : List Token) (pos : Nat) (node v : Expr)
      (q : Nat), call_loop f ts pos node = .ok (v, q) → pos ≤ q
  | 0, ts, pos, node, v, q => by
    intro h
    simp [call_loop] at h
  | f + 1, ts, pos, node, v, q => by
    intro h
    simp only [call_loop] at h
    cases hm : matchTok ts pos ["ParenL"] with
    | error e => rw [hm] at h; simp at h
    | ok r =>
      rw [hm] at h
      cases r with
      | none =>
        simp at h
        omega
      | some tp =>
        obtain ⟨tk, p1⟩ := tp
        simp only [] at h
        have h1 := (matchTok_some_elim hm).1
        by_cases hpr : peekT ts p1 ≠ "ParenR"
        · rw [if_pos hpr] at h
          cases he : parse_expr f ts p1 with
          | error e => rw [he] at h; simp at h
          | ok re =>
            rw [he] at h
            obtain ⟨a, p2⟩ := re
            simp only [] at h
            cases hargs : call_args f ts p2 [a] with
            | error e => rw [hargs] at h; simp at h
            | ok ra =>
              rw [hargs] at h
              obtain ⟨args, p3⟩ := ra
              simp only [] at h
              cases hex : expect ts p3 "ParenR" with
              | error e => rw [hex] at h; simp at h
              | ok rx =>
                rw [hex] at h
                obtain ⟨tk2, p4⟩ := rx
                simp only [] at h
                have h2 := mono_parse_expr f ts p1 a p2 he
                have h3 := mono_call_args f ts p2 [a] args p3 hargs
                have h4 := expect_elim hex
                have h5 := mono_call_loop f ts p4 _ v q h
                omega
        · rw [if_neg hpr] at h
          cases hex : expect ts p1 "ParenR" with
          | error e => rw [hex] at h; simp at h
          | ok rx =>
            rw [hex] at h
            obtain ⟨tk2, p2⟩ := rx
            simp only [] at h
            have h4 := expect_elim hex
            have h5 := mono_call_loop f ts p2 _ v q h
            omega

theorem mono_call_args : ∀ (f : Nat) (ts : List Token) (pos : Nat) (acc : List Expr)
      (v : List Expr) (q : Nat), call_args f ts pos acc = .ok (v, q) → pos ≤ q
  | 0, ts, pos, acc, v, q => by
    intro h
    simp [call_args] at h
  | f + 1, ts, pos, acc, v, q => by
    intro h
    simp only [call_args] at h
    cases hm : matchTok ts pos ["Comma"] with
    | error e => rw [hm] at h; simp at h
    | ok r =>
      rw [hm] at h
      cases r with
      | none =>
        simp at h
        omega
      | some tp =>
        obtain ⟨tk, p1⟩ := tp
        simp only [] at h
        cases he : parse_expr f ts p1 with
        | error e => rw [he] at h; simp at h
        | ok re =>
          rw [he] at h
          obtain ⟨a, p2⟩ := re
          simp only [] at h
          have h1 := (matchTok_some_elim hm).1
          have h2 := mono_parse_expr f ts p1 a p2 he
          have h3 := mono_call_args f ts p2 _ v q h
          omega

theorem mono_parse_primary : ∀ (f : Nat) (ts : List Token) (pos : Nat) (v : Expr)
      (q : Nat), parse_primary f ts pos = .ok (v, q) → pos ≤ q
  | 0, ts, pos, v, q => by
    intro h
    simp [parse_primary] at h
  | f + 1, ts, pos, v, q => by
    intro h
    simp only [parse_primary] at h
    by_cases h1 : (_peek ts pos).type ∈ litTokens
    · rw [if_pos h1] at h
      cases hn : nextTok ts pos with
      | error e => rw [hn] at h; simp at h
      | ok rn =>
        rw [hn] at h
        obtain ⟨tk, p1⟩ := rn
        simp only [] at h
        simp at h
        have := (nextTok_elim hn).1
        omega
    · rw [if_neg h1] at h
      by_cases h2 : (_peek ts pos).type == "Identifier"
      · rw [if_pos h2] at h
        cases hn : nextTok ts pos with
        | error e => rw [hn] at h; simp at h
        | ok rn =>
          rw [hn] at h
          obtain ⟨tk, p1⟩ := rn
          simp only [] at h
          simp at h
          have := (nextTok_elim hn).1
          omega
      · rw [if_neg h2] at h
        by_cases h3 : (_peek ts pos).type == "ParenL"
        · rw [if_pos h3] at h
          cases hn : nextTok ts pos with
          | error e => rw [hn] at h; simp at h
          | ok rn =>
            rw [hn] at h
            obtain ⟨tk, p1⟩ := rn
            simp only [] at h
            cases he : parse_expr f ts p1 with
            | error e => rw [he] at h; simp at h
            | ok re =>
              rw [he] at h
              obtain ⟨n, p2⟩ := re
              simp only [] at h
              cases hex : expect ts p2 "ParenR" with
              | error e => rw [hex] at h; simp at h
              | ok rx =>
                rw [hex] at h
                obtain ⟨tk2, p3⟩ := rx
                simp only [] at h
                simp at h
                have ha := (nextTok_elim hn).1
                have hb := mono_parse_expr f ts p1 n p2 he
                have hc := expect_elim hex
                omega
        · rw [if_neg h3] at h
          simp at h

end

/-- The token types a successful expression parse can begin with. -/
def startTypes : List String :=
  ["IntLit", "FloatLit", "StringLit", "BoolLit", "Identifier", "ParenL", "SubOp", "NotOp"]

mutual

theorem start_parse_expr : ∀ (f : Nat) (ts : List Token) (pos : Nat) (v : Expr)
      (q : Nat), parse_expr f ts pos = .ok (v, q) → peekT ts pos ∈ startTypes
  | 0, ts, pos, v, q => by
    intro h
    simp [parse_expr] at h
  | f + 1, ts, pos, v, q => by
    intro h
    exact start_parse_assignment f ts pos v q h

theorem start_parse_assignment : ∀ (f : Nat) (ts : List Token) (pos : Nat) (v : Expr)
      (q : Nat), parse_assignment f ts pos = .ok (v, q) → peekT ts pos ∈ startTypes
  | 0, ts, pos, v, q => by
    intro h
    simp [parse_assignment] at h
  | f + 1, ts, pos, v, q => by
    intro h
    simp only [parse_assignment] at h
    cases hp : parse_logical_or f ts pos with
    | error e => rw [hp] at h; simp at h
    | ok rp =>
      obtain ⟨n, p1⟩ := rp
      exact start_parse_logical_or f ts pos n p1 hp

theorem start_parse_logical_or : ∀ (f : Nat) (ts : List Token) (pos : Nat) (v : Expr)
      (q : Nat), parse_logical_or f ts pos = .ok (v, q) → peekT ts pos ∈ startTypes
  | 0, ts, pos, v, q => by
    intro h
    simp [parse_logical_or] at h
  | f + 1, ts, pos, v, q => by
    intro h
    simp only [parse_logical_or] at h
    cases hp : parse_logical_and f ts pos with
    | error e => rw [hp] at h; simp at h
    | ok rp =>
      obtain ⟨n, p1⟩ := rp
      exact start_parse_logical_and f ts pos n p1 hp

theorem start_parse_logical_and : ∀ (f : Nat) (ts : List Token) (pos : Nat) (v : Expr)
      (q : Nat), parse_logical_and f ts pos = .ok (v, q) → peekT ts pos ∈ startTypes
  | 0, ts, pos, v, q => by
    intro h
    simp [parse_logical_and] at h
  | f + 1, ts, pos, v, q => by
    intro h
    simp only [parse_logical_and] at h
    cases hp : parse_equality f ts pos with
    | error e => rw [hp] at h; simp at h
    | ok rp =>
      obtain ⟨n, p1⟩ := rp
      exact start_parse_equality f ts pos n p1 hp

theorem start_parse_equality : ∀ (f : Nat) (ts : List Token) (pos : Nat) (v : Expr)
      (q : Nat), parse_equality f ts pos = .ok (v, q) → peekT ts pos ∈ startTypes
  | 0, ts, pos, v, q => by
    intro h
    simp [parse_equality] at h
  | f + 1, ts, pos, v, q => by
    intro h
    simp only [parse_equality] at h
    cases hp : parse_comparison f ts pos with
    | error e => rw [hp] at h; simp at h
    | ok rp =>
      obtain ⟨n, p1⟩ := rp
      exact start_parse_comparison f ts pos n p1 hp

theorem start_parse_comparison : ∀ (f : Nat) (ts : List Token) (pos : Nat) (v : Expr)
      (q : Nat), parse_comparison f ts pos = .ok (v, q) → peekT ts pos ∈ startTypes
  | 0, ts, pos, v, q => by
    intro h
    simp [parse_comparison] at h
  | f + 1, ts, pos, v, q => by
    intro h
    simp only [parse_comparison] at h
    cases hp : parse_add f ts pos with
    | error e => rw [hp] at h; simp at h
    | ok rp =>
      obtain ⟨n, p1⟩ := rp
      exact start_parse_add f ts pos n p1 hp

theorem start_parse_add : ∀ (f : Nat) (ts : List Token) (pos : Nat) (v : Expr)
      (q : Nat), parse_add f ts pos = .ok (v, q) → peekT ts pos ∈ startTypes
  | 0, ts, pos, v, q => by
    intro h
    simp [parse_add] at h
  | f + 1, ts, pos, v, q => by
    intro h
    simp only [parse_add] at h
    cases hp : parse_mul f ts pos with
    | error e => rw [hp] at h; simp at h
    | ok rp =>
      obtain ⟨n, p1⟩ := rp
      exact start_parse_mul f ts pos n p1 hp

theorem start_parse_mul : ∀ (f : Nat) (ts : List Token) (pos : Nat) (v : Expr)
      (q : Nat), parse_mul f ts pos = .ok (v, q) → peekT ts pos ∈ startTypes
  | 0, ts, pos, v, q => by
    intro h
    simp [parse_mul] at h
  | f + 1, ts, pos, v, q => by
    intro h
    simp only [parse_mul] at h
    cases hp : parse_unary f ts pos with
    | error e => rw [hp] at h; simp at h
    | ok rp =>
      obtain ⟨n, p1⟩ := rp
      exact start_parse_unary f ts pos n p1 hp

theorem start_parse_call : ∀ (f : Nat) (ts : List Token) (pos : Nat) (v : Expr)
      (q : Nat), parse_call f ts pos = .ok (v, q) → peekT ts pos ∈ startTypes
  | 0, ts, pos, v, q => by
    intro h
    simp [parse_call] at h
  | f + 1, ts, pos, v, q => by
    intro h
    simp only [parse_call] at h
    cases hp : parse_primary f ts pos with
    | error e => rw [hp] at h; simp at h
    | ok rp =>
      obtain ⟨n, p1⟩ := rp
      exact start_parse_primary f ts pos n p1 hp

theorem start_parse_unary : ∀ (f : Nat) (ts : List Token) (pos : Nat) (v : Expr)
      (q : Nat), parse_unary f ts pos = .ok (v, q) → peekT ts pos ∈ startTypes
  | 0, ts, pos, v, q => by
    intro h
    simp [parse_unary] at h
  | f + 1, ts, pos, v, q => by
    intro h
    simp only [parse_unary] at h
    cases hm : matchTok ts pos ["SubOp"] with
    | error e => rw [hm] at h; simp at h
    | ok r =>
      rw [hm] at h
      cases r with
      | some tp =>
        have h1 := (matchTok_some_elim hm).2.2
        simp only [peekT, startTypes]
        simp at h1
        simp [h1]
      | none =>
        simp only [] at h
        cases hm2 : matchTok ts pos ["NotOp"] with
        | error e => rw [hm2] at h; simp at h
        | ok r2 =>
          rw [hm2] at h
          cases r2 with
          | some tp =>
            have h1 := (matchTok_some_elim hm2).2.2
            simp only [peekT, startTypes]
            simp at h1
            simp [h1]
          | none =>
            simp only [] at h
            exact start_parse_call f ts pos v q h

theorem start_parse_primary : ∀ (f : Nat) (ts : List Token) (pos : Nat) (v : Expr)
      (q : Nat), parse_primary f ts pos = .ok (v, q) → peekT ts pos ∈ startTypes
  | 0, ts, pos, v, q => by
    intro h
    simp [parse_primary] at h
  | f + 1, ts, pos, v, q => by
    intro h
    simp only [parse_primary] at h
    by_cases h1 : (_peek ts pos).type ∈ litTokens
    · simp [litTokens] at h1
      simp only [peekT, startTypes]
      rcases h1 with h1 | h1 | h1 | h1 <;> simp [h1]
    · rw [if_neg h1] at h
      by_cases h2 : (_peek ts pos).type == "Identifier"
      · have h2' : (_peek ts pos).type = "Identifier" := by simpa using h2
        simp [peekT, startTypes, h2']
      · rw [if_neg h2] at h
        by_cases h3 : (_peek ts pos).type == "ParenL"
        · have h3' : (_peek ts pos).type = "ParenL" := by simpa using h3
          simp [peekT, startTypes, h3']
        · rw [if_neg h3] at h
          simp at h

end

theorem start_not_term : ∀ t ∈ startTypes, t ∉ termTypes := by decide

theorem peekT_congr {ts ts' : List Token} {i : Nat} (h : _peek ts i = _peek ts' i) :
    peekT ts' i = peekT ts i := by
  simp [peekT, h]

mutual

theorem loc_parse_expr : ∀ (f : Nat) (ts ts' : List Token) (p pos : Nat) (v : Expr)
      (q : Nat), parse_expr f ts pos = .ok (v, q) → q ≤ p → equivAt ts ts' p →
      parse_expr f ts' pos = .ok (v, q)
  | 0, ts, ts', p, pos, v, q => by
    intro h hq he
    simp [parse_expr] at h
  | f + 1, ts, ts', p, pos, v, q => by
    intro h hq he
    exact loc_parse_assignment f ts ts' p pos v q h hq he

theorem loc_parse_assignment : ∀ (f : Nat) (ts ts' : List Token) (p pos : Nat) (v : Expr)
      (q : Nat), parse_assignment f ts pos = .ok (v, q) → q ≤ p → equivAt ts ts' p →
      parse_assignment f ts' pos = .ok (v, q)
  | 0, ts, ts', p, pos, v, q => by
    intro h hq he
    simp [parse_assignment] at h
  | f + 1, ts, ts', p, pos, v, q => by
    intro h hq he
    have hT : ∀ t ∈ (["AssignOp"] : List String), t ∉ termTypes := by decide
    simp only [parse_assignment] at h ⊢
    cases hs : parse_logical_or f ts pos with
    | error e => rw [hs] at h; simp at h
    | ok rs =>
      rw [hs] at h
      obtain ⟨left, p1⟩ := rs
      simp only [] at h
      cases hm : matchTok ts p1 ["AssignOp"] with
      | error e => rw [hm] at h; simp at h
      | ok r =>
        rw [hm] at h
        cases r with
        | none =>
          simp at h
          obtain ⟨hv, hq2⟩ := h
          rw [loc_parse_logical_or f ts ts' p pos left p1 hs (by omega) he]
          simp only []
          rw [matchTok_congr he (by omega) hT, hm]
          simp [hv, hq2]
        | some tp =>
          obtain ⟨tk, p2⟩ := tp
          simp only [] at h
          cases ha : parse_assignment f ts p2 with
          | error e => rw [ha] at h; simp at h
          | ok ra =>
            rw [ha] at h
            obtain ⟨right, p3⟩ := ra
            simp only [] at h
            have hp2 := (matchTok_some_elim hm).1
            have hp3 := mono_parse_assignment f ts p2 right p3 ha
            cases left with
            | identifier nm =>
              simp at h
              obtain ⟨hv, hq2⟩ := h
              rw [loc_parse_logical_or f ts ts' p pos (.identifier nm) p1 hs (by omega) he]
              simp only []
              rw [matchTok_congr he (by omega) hT, hm]
              simp only []
              rw [loc_parse_assignment f ts ts' p p2 right p3 ha (by omega) he]
              simp [hv, hq2]
            | binary op l r => simp at h
            | unary op e1 => simp at h
            | literal lv => simp at h
            | call c as => simp at h

theorem loc_parse_logical_or : ∀ (f : Nat) (ts ts' : List Token) (p pos : Nat) (v : Expr)
      (q : Nat), parse_logical_or f ts pos = .ok (v, q) → q ≤ p → equivAt ts ts' p →
      parse_logical_or f ts' pos = .ok (v, q)
  | 0, ts, ts', p, pos, v, q => by
    intro h hq he
    simp [parse_logical_or] at h
  | f + 1, ts, ts', p, pos, v, q => by
    intro h hq he
    simp only [parse_logical_or] at h ⊢
    cases hs : parse_logical_and f ts pos with
    | error e => rw [hs] at h; simp at h
    | ok rs =>
      rw [hs] at h
      obtain ⟨n, p1⟩ := rs
      simp only [] at h
      have hp1 := mono_or_loop f ts p1 n v q h
      rw [loc_parse_logical_and f ts ts' p pos n p1 hs (by omega) he]
      simp only []
      exact loc_or_loop f ts ts' p p1 n v q h (by omega) he

theorem loc_parse_logical_and : ∀ (f : Nat) (ts ts' : List Token) (p pos : Nat) (v : Expr)
      (q : Nat), parse_logical_and f ts pos = .ok (v, q) → q ≤ p → equivAt ts ts' p →
      parse_logical_and f ts' pos = .ok (v, q)
  | 0, ts, ts', p, pos, v, q => by
    intro h hq he
    simp [parse_logical_and] at h
  | f + 1, ts, ts', p, pos, v, q => by
    intro h hq he
    simp only [parse_logical_and] at h ⊢
    cases hs : parse_equality f ts pos with
    | error e => rw [hs] at h; simp at h
    | ok rs =>
      rw [hs] at h
      obtain ⟨n, p1⟩ := rs
      simp only [] at h
      have hp1 := mono_and_loop f ts p1 n v q h
      rw [loc_parse_equality f ts ts' p pos n p1 hs (by omega) he]
      simp only []
      exact loc_and_loop f ts ts' p p1 n v q h (by omega) he

theorem loc_parse_equality : ∀ (f : Nat) (ts ts' : List Token) (p pos : Nat) (v : Expr)
      (q : Nat), parse_equality f ts pos = .ok (v, q) → q ≤ p → equivAt ts ts' p →
      parse_equality f ts' pos = .ok (v, q)
  | 0, ts, ts', p, pos, v, q => by
    intro h hq he
    simp [parse_equality] at h
  | f + 1, ts, ts', p, pos, v, q => by
    intro h hq he
    simp only [parse_equality] at h ⊢
    cases hs : parse_comparison f ts pos with
    | error e => rw [hs] at h; simp at h
    | ok rs =>
      rw [hs] at h
      obtain ⟨n, p1⟩ := rs
      simp only [] at h
      have hp1 := mono_eq_loop f ts p1 n v q h
      rw [loc_parse_comparison f ts ts' p pos n p1 hs (by omega) he]
      simp only []
      exact loc_eq_loop f ts ts' p p1 n v q h (by omega) he

theorem loc_parse_comparison : ∀ (f : Nat) (ts ts' : List Token) (p pos : Nat) (v : Expr)
      (q : Nat), parse_comparison f ts pos = .ok (v, q) → q ≤ p → equivAt ts ts' p →
      parse_comparison f ts' pos = .ok (v, q)
  | 0, ts, ts', p, pos, v, q => by
    intro h hq he
    simp [parse_comparison] at h
  | f + 1, ts, ts', p, pos, v, q => by
    intro h hq he
    simp only [parse_comparison] at h ⊢
    cases hs : parse_add f ts pos with
    | error e => rw [hs] at h; simp at h
    | ok rs =>
      rw [hs] at h
      obtain ⟨n, p1⟩ := rs
      simp only [] at h
      have hp1 := mono_cmp_loop f ts p1 n v q h
      rw [loc_parse_add f ts ts' p pos n p1 hs (by omega) he]
      simp only []
      exact loc_cmp_loop f ts ts' p p1 n v q h (by omega) he

theorem loc_parse_add : ∀ (f : Nat) (ts ts' : List Token) (p pos : Nat) (v : Expr)
      (q : Nat), parse_add f ts pos = .ok (v, q) → q ≤ p → equivAt ts ts' p →
      parse_add f ts' pos = .ok (v, q)
  | 0, ts, ts', p, pos, v, q => by
    intro h hq he
    simp [parse_add] at h
  | f + 1, ts, ts', p, pos, v, q => by
    intro h hq he
    simp only [parse_add] at h ⊢
    cases hs : parse_mul f ts pos with
    | error e => rw [hs] at h; simp at h
    | ok rs =>
      rw [hs] at h
      obtain ⟨n, p1⟩ := rs
      simp only [] at h
      have hp1 := mono_add_loop f ts p1 n v q h
      rw [loc_parse_mul f ts ts' p pos n p1 hs (by omega) he]
      simp only []
      exact loc_add_loop f ts ts' p p1 n v q h (by omega) he

theorem loc_parse_mul : ∀ (f : Nat) (ts ts' : List Token) (p pos : Nat) (v : Expr)
      (q : Nat), parse_mul f ts pos = .ok (v, q) → q ≤ p → equivAt ts ts' p →
      parse_mul f ts' pos = .ok (v, q)
  | 0, ts, ts', p, pos, v, q => by
    intro h hq he
    simp [parse_mul] at h
  | f + 1, ts, ts', p, pos, v, q => by
    intro h hq he
    simp only [parse_mul] at h ⊢
    cases hs : parse_unary f ts pos with
    | error e => rw [hs] at h; simp at h
    | ok rs =>
      rw [hs] at h
      obtain ⟨n, p1⟩ := rs
      simp only [] at h
      have hp1 := mono_mul_loop f ts p1 n v q h
      rw [loc_parse_unary f ts ts' p pos n p1 hs (by omega) he]
      simp only []
      exact loc_mul_loop f ts ts' p p1 n v q h (by omega) he

theorem loc_parse_call : ∀ (f : Nat) (ts ts' : List Token) (p pos : Nat) (v : Expr)
      (q : Nat), parse_call f ts pos = .ok (v, q) → q ≤ p → equivAt ts ts' p →
      parse_call f ts' pos = .ok (v, q)
  | 0, ts, ts', p, pos, v, q => by
    intro h hq he
    simp [parse_call] at h
  | f + 1, ts, ts', p, pos, v, q => by
    intro h hq he
    simp only [parse_call] at h ⊢
    cases hs : parse_primary f ts pos with
    | error e => rw [hs] at h; simp at h
    | ok rs =>
      rw [hs] at h
      obtain ⟨n, p1⟩ := rs
      simp only [] at h
      have hp1 := mono_call_loop f ts p1 n v q h
      rw [loc_parse_primary f ts ts' p pos n p1 hs (by omega) he]
      simp only []
      exact loc_call_loop f ts ts' p p1 n v q h (by omega) he

theorem loc_or_loop : ∀ (f : Nat) (ts ts' : List Token) (p pos : Nat) (node v : Expr)
      (q : Nat), or_loop f ts pos node = .ok (v, q) → q ≤ p → equivAt ts ts' p →
      or_loop f ts' pos node = .ok (v, q)
  | 0, ts, ts', p, pos, node, v, q => by
    intro h hq he
    simp [or_loop] at h
  | f + 1, ts, ts', p, pos, node, v, q => by
    intro h hq he
    have hT : ∀ t ∈ (["OrOp"] : List String), t ∉ termTypes := by decide
    simp only [or_loop] at h ⊢
    cases hm : matchTok ts pos ["OrOp"] with
    | error e => rw [hm] at h; simp at h
    | ok r =>
      rw [hm] at h
      cases r with
      | none =>
        simp at h
        obtain ⟨hv, hq2⟩ := h
        rw [matchTok_congr he (by omega) hT, hm]
        simp [hv, hq2]
      | some tp =>
        obtain ⟨tk, p1⟩ := tp
        simp only [] at h
        cases hs : parse_logical_and f ts p1 with
        | error e => rw [hs] at h; simp at h
        | ok rs =>
          rw [hs] at h
          obtain ⟨r2, p2⟩ := rs
          simp only [] at h
          have hp1 := (matchTok_some_elim hm).1
          have hp2 := mono_parse_logical_and f ts p1 r2 p2 hs
          have hp3 := mono_or_loop f ts p2 _ v q h
          rw [matchTok_congr he (by omega) hT, hm]
          simp only []
          rw [loc_parse_logical_and f ts ts' p p1 r2 p2 hs (by omega) he]
          simp only []
          exact loc_or_loop f ts ts' p p2 _ v q h (by omega) he

theorem loc_and_loop : ∀ (f : Nat) (ts ts' : List Token) (p pos : Nat) (node v : Expr)
      (q : Nat), and_loop f ts pos node = .ok (v, q) → q ≤ p → equivAt ts ts' p →
      and_loop f ts' pos node = .ok (v, q)
  | 0, ts, ts', p, pos, node, v, q => by
    intro h hq he
    simp [and_loop] at h
  | f + 1, ts, ts', p, pos, node, v, q => by
    intro h hq he
    have hT : ∀ t ∈ (["AndOp"] : List String), t ∉ termTypes := by decide
    simp only [and_loop] at h ⊢
    cases hm : matchTok ts pos ["AndOp"] with
    | error e => rw [hm] at h; simp at h
    | ok r =>
      rw [hm] at h
      cases r with
      | none =>
        simp at h
        obtain ⟨hv, hq2⟩ := h
        rw [matchTok_congr he (by omega) hT, hm]
        simp [hv, hq2]
      | some tp =>
        obtain ⟨tk, p1⟩ := tp
        simp only [] at h
        cases hs : parse_equality f ts p1 with
        | error e => rw [hs] at h; simp at h
        | ok rs =>
          rw [hs] at h
          obtain ⟨r2, p2⟩ := rs
          simp only [] at h
          have hp1 := (matchTok_some_elim hm).1
          have hp2 := mono_parse_equality f ts p1 r2 p2 hs
          have hp3 := mono_and_loop f ts p2 _ v q h
          rw [matchTok_congr he (by omega) hT, hm]
          simp only []
          rw [loc_parse_equality f ts ts' p p1 r2 p2 hs (by omega) he]
          simp only []
          exact loc_and_loop f ts ts' p p2 _ v q h (by omega) he

theorem loc_eq_loop : ∀ (f : Nat) (ts ts' : List Token) (p pos : Nat) (node v : Expr)
      (q : Nat), eq_loop f ts pos node = .ok (v, q) → q ≤ p → equivAt ts ts' p →
      eq_loop f ts' pos node = .ok (v, q)
  | 0, ts, ts', p, pos, node, v, q => by
    intro h hq he
    simp [eq_loop] at h
  | f + 1, ts, ts', p, pos, node, v, q => by
    intro h hq he
    have hT : ∀ t ∈ (["EqualsOp", "NotEquals"] : List String), t ∉ termTypes := by decide
    simp only [eq_loop] at h ⊢
    cases hm : matchTok ts pos ["EqualsOp", "NotEquals"] with
    | error e => rw [hm] at h; simp at h
    | ok r =>
      rw [hm] at h
      cases r with
      | none =>
        simp at h
        obtain ⟨hv, hq2⟩ := h
        rw [matchTok_congr he (by omega) hT, hm]
        simp [hv, hq2]
      | some tp =>
        obtain ⟨tk, p1⟩ := tp
        simp only [] at h
        cases hs : parse_comparison f ts p1 with
        | error e => rw [hs] at h; simp at h
        | ok rs =>
          rw [hs] at h
          obtain ⟨r2, p2⟩ := rs
          simp only [] at h
          have hp1 := (matchTok_some_elim hm).1
          have hp2 := mono_parse_comparison f ts p1 r2 p2 hs
          have hp3 := mono_eq_loop f ts p2 _ v q h
          rw [matchTok_congr he (by omega) hT, hm]
          simp only []
          rw [loc_parse_comparison f ts ts' p p1 r2 p2 hs (by omega) he]
          simp only []
          exact loc_eq_loop f ts ts' p p2 _ v q h (by omega) he

theorem loc_cmp_loop : ∀ (f : Nat) (ts ts' : List Token) (p pos : Nat) (node v : Expr)
      (q : Nat), cmp_loop f ts pos node = .ok (v, q) → q ≤ p → equivAt ts ts' p →
      cmp_loop f ts' pos node = .ok (v, q)
  | 0, ts, ts', p, pos, node, v, q => by
    intro h hq he
    simp [cmp_loop] at h
  | f + 1, ts, ts', p, pos, node, v, q => by
    intro h hq he
    have hT : ∀ t ∈ (["LessThan", "GreaterThan", "LessEq", "GreaterEq"] : List String), t ∉ termTypes := by decide
    simp only [cmp_loop] at h ⊢
    cases hm : matchTok ts pos ["LessThan", "GreaterThan", "LessEq", "GreaterEq"] with
    | error e => rw [hm] at h; simp at h
    | ok r =>
      rw [hm] at h
      cases r with
      | none =>
        simp at h
        obtain ⟨hv, hq2⟩ := h
        rw [matchTok_congr he (by omega) hT, hm]
        simp [hv, hq2]
      | some tp =>
        obtain ⟨tk, p1⟩ := tp
        simp only [] at h
        cases hs : parse_add f ts p1 with
        | error e => rw [hs] at h; simp at h
        | ok rs =>
          rw [hs] at h
          obtain ⟨r2, p2⟩ := rs
          simp only [] at h
          have hp1 := (matchTok_some_elim hm).1
          have hp2 := mono_parse_add f ts p1 r2 p2 hs
          have hp3 := mono_cmp_loop f ts p2 _ v q h
          rw [matchTok_congr he (by omega) hT, hm]
          simp only []
          rw [loc_parse_add f ts ts' p p1 r2 p2 hs (by omega) he]
          simp only []
          exact loc_cmp_loop f ts ts' p p2 _ v q h (by omega) he

theorem loc_add_loop : ∀ (f : Nat) (ts ts' : List Token) (p pos : Nat) (node v : Expr)
      (q : Nat), add_loop f ts pos node = .ok (v, q) → q ≤ p → equivAt ts ts' p →
      add_loop f ts' pos node = .ok (v, q)
  | 0, ts, ts', p, pos, node, v, q => by
    intro h hq he
    simp [add_loop] at h
  | f + 1, ts, ts', p, pos, node, v, q => by
    intro h hq he
    have hT : ∀ t ∈ (["AddOp", "SubOp"] : List String), t ∉ termTypes := by decide
    simp only [add_loop] at h ⊢
    cases hm : matchTok ts pos ["AddOp", "SubOp"] with
    | error e => rw [hm] at h; simp at h
    | ok r =>
      rw [hm] at h
      cases r with
      | none =>
        simp at h
        obtain ⟨hv, hq2⟩ := h
        rw [matchTok_congr he (by omega) hT, hm]
        simp [hv, hq2]
      | some tp =>
        obtain ⟨tk, p1⟩ := tp
        simp only [] at h
        cases hs : parse_mul f ts p1 with
        | error e => rw [hs] at h; simp at h
        | ok rs =>
          rw [hs] at h
          obtain ⟨r2, p2⟩ := rs
          simp only [] at h
          have hp1 := (matchTok_some_elim hm).1
          have hp2 := mono_parse_mul f ts p1 r2 p2 hs
          have hp3 := mono_add_loop f ts p2 _ v q h
          rw [matchTok_congr he (by omega) hT, hm]
          simp only []
          rw [loc_parse_mul f ts ts' p p1 r2 p2 hs (by omega) he]
          simp only []
          exact loc_add_loop f ts ts' p p2 _ v q h (by omega) he

theorem loc_mul_loop : ∀ (f : Nat) (ts ts' : List Token) (p pos : Nat) (node v : Expr)
      (q : Nat), mul_loop f ts pos node = .ok (v, q) → q ≤ p → equivAt ts ts' p →
      mul_loop f ts' pos node = .ok (v, q)
  | 0, ts, ts', p, pos, node, v, q => by
    intro h hq he
    simp [mul_loop] at h
  | f + 1, ts, ts', p, pos, node, v, q => by
    intro h hq he
    have hT : ∀ t ∈ (["MulOp", "DivOp", "ModOp"] : List String), t ∉ termTypes := by decide
    simp only [mul_loop] at h ⊢
    cases hm : matchTok ts pos ["MulOp", "DivOp", "ModOp"] with
    | error e => rw [hm] at h; simp at h
    | ok r =>
      rw [hm] at h
      cases r with
      | none =>
        simp at h
        obtain ⟨hv, hq2⟩ := h
        rw [matchTok_congr he (by omega) hT, hm]
        simp [hv, hq2]
      | some tp =>
        obtain ⟨tk, p1⟩ := tp
        simp only [] at h
        cases hs : parse_unary f ts p1 with
        | error e => rw [hs] at h; simp at h
        | ok rs =>
          rw [hs] at h
          obtain ⟨r2, p2⟩ := rs
          simp only [] at h
          have hp1 := (matchTok_some_elim hm).1
          have hp2 := mono_parse_unary f ts p1 r2 p2 hs
          have hp3 := mono_mul_loop f ts p2 _ v q h
          rw [matchTok_congr he (by omega) hT, hm]
          simp only []
          rw [loc_parse_unary f ts ts' p p1 r2 p2 hs (by omega) he]
          simp only []
          exact loc_mul_loop f ts ts' p p2 _ v q h (by omega) he

theorem loc_parse_unary : ∀ (f : Nat) (ts ts' : List Token) (p pos : Nat) (v : Expr)
      (q : Nat), parse_unary f ts pos = .ok (v, q) → q ≤ p → equivAt ts ts' p →
      parse_unary f ts' pos = .ok (v, q)
  | 0, ts, ts', p, pos, v, q => by
    intro h hq he
    simp [parse_unary] at h
  | f + 1, ts, ts', p, pos, v, q => by
    intro h hq he
    have hT1 : ∀ t ∈ (["SubOp"] : List String), t ∉ termTypes := by decide
    have hT2 : ∀ t ∈ (["NotOp"] : List String), t ∉ termTypes := by decide
    simp only [parse_unary] at h ⊢
    cases hm : matchTok ts pos ["SubOp"] with
    | error e => rw [hm] at h; simp at h
    | ok r =>
      rw [hm] at h
      cases r with
      | some tp =>
        obtain ⟨tk, p1⟩ := tp
        simp only [] at h
        cases hu : parse_unary f ts p1 with
        | error e => rw [hu] at h; simp at h
        | ok ru =>
          rw [hu] at h
          obtain ⟨n, p2⟩ := ru
          simp at h
          obtain ⟨hv, hq2⟩ := h
          have hp1 := (matchTok_some_elim hm).1
          have hp2 := mono_parse_unary f ts p1 n p2 hu
          rw [matchTok_congr he (by omega) hT1, hm]
          simp only []
          rw [loc_parse_unary f ts ts' p p1 n p2 hu (by omega) he]
          simp [hv, hq2]
      | none =>
        simp only [] at h
        cases hm2 : matchTok ts pos ["NotOp"] with
        | error e => rw [hm2] at h; simp at h
        | ok r2 =>
          rw [hm2] at h
          cases r2 with
          | some tp =>
            obtain ⟨tk, p1⟩ := tp
            simp only [] at h
            cases hu : parse_unary f ts p1 with
            | error e => rw [hu] at h; simp at h
            | ok ru =>
              rw [hu] at h
              obtain ⟨n, p2⟩ := ru
              simp at h
              obtain ⟨hv, hq2⟩ := h
              have hp1 := (matchTok_some_elim hm2).1
              have hp2 := mono_parse_unary f ts p1 n p2 hu
              rw [matchTok_congr he (by omega) hT1, hm]
              simp only []
              rw [matchTok_congr he (by omega) hT2, hm2]
              simp only []
              rw [loc_parse_unary f ts ts' p p1 n p2 hu (by omega) he]
              simp [hv, hq2]
          | none =>
            simp only [] at h
            have hp0 := mono_parse_call f ts pos v q h
            rw [matchTok_congr he (by omega) hT1, hm]
            simp only []
            rw [matchTok_congr he (by omega) hT2, hm2]
            simp only []
            exact loc_parse_call f ts ts' p pos v q h hq he

theorem loc_call_loop : ∀ (f : Nat) (ts ts' : List Token) (p pos : Nat) (node v : Expr)
      (q : Nat), call_loop f ts pos node = .ok (v, q) → q ≤ p → equivAt ts ts' p →
      call_loop f ts' pos node = .ok (v, q)
  | 0, ts, ts', p, pos, node, v, q => by
    intro h hq he
    simp [call_loop] at h
  | f + 1, ts, ts', p, pos, node, v, q => by
    intro h hq he
    have hT : ∀ t ∈ (["ParenL"] : List String), t ∉ termTypes := by decide
    simp only [call_loop] at h ⊢
    cases hm : matchTok ts pos ["ParenL"] with
    | error e => rw [hm] at h; simp at h
    | ok r =>
      rw [hm] at h
      cases r with
      | none =>
        simp at h
        obtain ⟨hv, hq2⟩ := h
        rw [matchTok_congr he (by omega) hT, hm]
        simp [hv, hq2]
      | some tp =>
        obtain ⟨tk, p1⟩ := tp
        simp only [] at h
        have hp1 := (matchTok_some_elim hm).1
        by_cases hpr : peekT ts p1 ≠ "ParenR"
        · rw [if_pos hpr] at h
          cases hex2 : parse_expr f ts p1 with
          | error e => rw [hex2] at h; simp at h
          | ok re =>
            rw [hex2] at h
            obtain ⟨a, p2⟩ := re
            simp only [] at h
            cases hargs : call_args f ts p2 [a] with
            | error e => rw [hargs] at h; simp at h
            | ok ra =>
              rw [hargs] at h
              obtain ⟨args, p3⟩ := ra
              simp only [] at h
              cases hex : expect ts p3 "ParenR" with
              | error e => rw [hex] at h; simp at h
              | ok rx =>
                rw [hex] at h
                obtain ⟨tk2, p4⟩ := rx
                simp only [] at h
                have hp2 := mono_parse_expr f ts p1 a p2 hex2
                have hp3 := mono_call_args f ts p2 [a] args p3 hargs
                have hp4 := expect_elim hex
                have hp5 := mono_call_loop f ts p4 _ v q h
                have hstart := start_parse_expr f ts p1 a p2 hex2
                have hpk1 : _peek ts p1 = _peek ts' p1 :=
                  peek_eq_of_le he (by omega) (start_not_term _ hstart)
                have hpk3 : _peek ts p3 = _peek ts' p3 := peek_eq_of_lt he (by omega)
                rw [matchTok_congr he (by omega) hT, hm]
                simp only []
                rw [if_pos (by rw [peekT_congr hpk1]; exact hpr)]
                rw [loc_parse_expr f ts ts' p p1 a p2 hex2 (by omega) he]
                simp only []
                rw [loc_call_args f ts ts' p p2 [a] args p3 hargs (by omega) he]
                simp only []
                rw [expect_congr hpk3, hex]
                simp only []
                exact loc_call_loop f ts ts' p p4 _ v q h (by omega) he
        · rw [if_neg hpr] at h
          cases hex : expect ts p1 "ParenR" with
          | error e => rw [hex] at h; simp at h
          | ok rx =>
            rw [hex] at h
            obtain ⟨tk2, p2⟩ := rx
            simp only [] at h
            have hp4 := expect_elim hex
            have hp5 := mono_call_loop f ts p2 _ v q h
            have hprr : peekT ts p1 = "ParenR" := by
              by_contra hcon
              exact hpr hcon
            have hpk1 : _peek ts p1 = _peek ts' p1 :=
              peek_eq_of_le he (by omega) (by rw [hprr]; decide)
            rw [matchTok_congr he (by omega) hT, hm]
            simp only []
            rw [if_neg (by rw [peekT_congr hpk1]; exact hpr)]
            rw [expect_congr hpk1, hex]
            simp only []
            exact loc_call_loop f ts ts' p p2 _ v q h (by omega) he

theorem loc_call_args : ∀ (f : Nat) (ts ts' : List Token) (p pos : Nat) (acc : List Expr)
      (v : List Expr) (q : Nat), call_args f ts pos acc = .ok (v, q) → q ≤ p →
      equivAt ts ts' p → call_args f ts' pos acc = .ok (v, q)
  | 0, ts, ts', p, pos, acc, v, q => by
    intro h hq he
    simp [call_args] at h
  | f + 1, ts, ts', p, pos, acc, v, q => by
    intro h hq he
    have hT : ∀ t ∈ (["Comma"] : List String), t ∉ termTypes := by decide
    simp only [call_args] at h ⊢
    cases hm : matchTok ts pos ["Comma"] with
    | error e => rw [hm] at h; simp at h
    | ok r =>
      rw [hm] at h
      cases r with
      | none =>
        simp at h
        obtain ⟨hv, hq2⟩ := h
        rw [matchTok_congr he (by omega) hT, hm]
        simp [hv, hq2]
      | some tp =>
        obtain ⟨tk, p1⟩ := tp
        simp only [] at h
        cases hex2 : parse_expr f ts p1 with
        | error e => rw [hex2] at h; simp at h
        | ok re =>
          rw [hex2] at h
          obtain ⟨a, p2⟩ := re
          simp only [] at h
          have hp1 := (matchTok_some_elim hm).1
          have hp2 := mono_parse_expr f ts p1 a p2 hex2
          have hp3 := mono_call_args f ts p2 _ v q h
          rw [matchTok_congr he (by omega) hT, hm]
          simp only []
          rw [loc_parse_expr f ts ts' p p1 a p2 hex2 (by omega) he]
          simp only []
          exact loc_call_args f ts ts' p p2 _ v q h (by omega) he

theorem loc_parse_primary : ∀ (f : Nat) (ts ts' : List Token) (p pos : Nat) (v : Expr)
      (q : Nat), parse_primary f ts pos = .ok (v, q) → q ≤ p → equivAt ts ts' p →
      parse_primary f ts' pos = .ok (v, q)
  | 0, ts, ts', p, pos, v, q => by
    intro h hq he
    simp [parse_primary] at h
  | f + 1, ts, ts', p, pos, v, q => by
    intro h hq he
    simp only [parse_primary] at h ⊢
    by_cases h1 : (_peek ts pos).type ∈ litTokens
    · rw [if_pos h1] at h
      cases hn : nextTok ts pos with
      | error e => rw [hn] at h; simp at h
      | ok rn =>
        rw [hn] at h
        obtain ⟨tk, p1⟩ := rn
        simp at h
        obtain ⟨hv, hq2⟩ := h
        have hpn := (nextTok_elim hn).1
        have hpk : _peek ts pos = _peek ts' pos := peek_eq_of_lt he (by omega)
        rw [if_pos (by rw [← hpk]; exact h1), nextTok_congr hpk, hn]
        simp [hv, hq2]
    · rw [if_neg h1] at h
      by_cases h2 : (_peek ts pos).type == "Identifier"
      · rw [if_pos h2] at h
        cases hn : nextTok ts pos with
        | error e => rw [hn] at h; simp at h
        | ok rn =>
          rw [hn] at h
          obtain ⟨tk, p1⟩ := rn
          simp at h
          obtain ⟨hv, hq2⟩ := h
          have hpn := (nextTok_elim hn).1
          have hpk : _peek ts pos = _peek ts' pos := peek_eq_of_lt he (by omega)
          rw [if_neg (by rw [← hpk]; exact h1), if_pos (by rw [← hpk]; exact h2),
            nextTok_congr hpk, hn]
          simp [hv, hq2]
      · rw [if_neg h2] at h
        by_cases h3 : (_peek ts pos).type == "ParenL"
        · rw [if_pos h3] at h
          cases hn : nextTok ts pos with
          | error e => rw [hn] at h; simp at h
          | ok rn =>
            rw [hn] at h
            obtain ⟨tk, p1⟩ := rn
            simp only [] at h
            cases hex2 : parse_expr f ts p1 with
            | error e => rw [hex2] at h; simp at h
            | ok re =>
              rw [hex2] at h
              obtain ⟨n, p2⟩ := re
              simp only [] at h
              cases hex : expect ts p2 "ParenR" with
              | error e => rw [hex] at h; simp at h
              | ok rx =>
                rw [hex] at h
                obtain ⟨tk2, p3⟩ := rx
                simp at h
                obtain ⟨hv, hq2⟩ := h
                have hpn := (nextTok_elim hn).1
                have hpe := mono_parse_expr f ts p1 n p2 hex2
                have hpx := expect_elim hex
                have hpk : _peek ts pos = _peek ts' pos := peek_eq_of_lt he (by omega)
                have hpk2 : _peek ts p2 = _peek ts' p2 := peek_eq_of_lt he (by omega)
                rw [if_neg (by rw [← hpk]; exact h1), if_neg (by rw [← hpk]; exact h2),
                  if_pos (by rw [← hpk]; exact h3), nextTok_congr hpk, hn]
                simp only []
                rw [loc_parse_expr f ts ts' p p1 n p2 hex2 (by omega) he]
                simp only []
                rw [expect_congr hpk2, hex]
                simp [hv, hq2]
        · rw [if_neg h3] at h
          simp at h

end

/-! ## C9 machinery: concrete `_peek` computations over cons/append lists -/

theorem peek_cons_zero (a : Token) (L : List Token) : _peek (a :: L) 0 = a := by
  have h : 0 < (a :: L).length := by simp
  simp [_peek, h]


theorem peek_cons_succ (a : Token) (L : List Token) (n : Nat) :
    _peek (a :: L) (n + 1) = _peek L n := by
  by_cases h : n < L.length
  · have h2 : n + 1 < (a :: L).length := by simp; omega
    simp [_peek, h, h2]
  · have h2 : ¬(n + 1 < (a :: L).length) := by simp; omega
    simp [_peek, h, h2]

theorem peek_cons_one (a x : Token) (L : List Token) : _peek (a :: x :: L) 1 = x := by
  show _peek (a :: x :: L) (0 + 1) = x
  rw [peek_cons_succ, peek_cons_zero]

theorem peek_append_lt (xs rest rest2 : List Token) :
    ∀ (i : Nat), i < xs.length → _peek (xs ++ rest) i = _peek (xs ++ rest2) i := by
  induction xs with
  | nil => intro i hi; simp at hi
  | cons x xs ih =>
    intro i hi
    cases i with
    | zero => rw [List.cons_append, List.cons_append, peek_cons_zero, peek_cons_zero]
    | succ n =>
      rw [List.cons_append, List.cons_append, peek_cons_succ, peek_cons_succ]
      simp only [List.length_cons] at hi
      exact ih n (by omega)

theorem peek_append_sep (xs : List Token) (b : Token) (r : List Token) :
    _peek (xs ++ b :: r) xs.length = b := by
  induction xs with
  | nil => exact peek_cons_zero b r
  | cons x xs ih =>
    rw [List.cons_append, List.length_cons, peek_cons_succ]
    exact ih

/-- Two token lists of the form `a :: xs ++ t :: rest` that share the prefix
`a :: xs` but end it with different terminator-class tokens `t` are `equivAt`
the terminator position. -/
theorem equivAt_sep (a b b2 : Token) (xs r r2 : List Token)
    (hb : b.type ∈ termTypes) (hb2 : b2.type ∈ termTypes) :
    equivAt (a :: (xs ++ b :: r)) (a :: (xs ++ b2 :: r2)) (xs.length + 1) := by
  constructor
  · intro i hi
    cases i with
    | zero => rw [peek_cons_zero, peek_cons_zero]
    | succ n =>
      rw [peek_cons_succ, peek_cons_succ]
      exact peek_append_lt xs (b :: r) (b2 :: r2) n (by omega)
  · right
    constructor
    · show (_peek (a :: (xs ++ b :: r)) (xs.length + 1)).type ∈ termTypes
      rw [peek_cons_succ, peek_append_sep]
      exact hb
    · show (_peek (a :: (xs ++ b2 :: r2)) (xs.length + 1)).type ∈ termTypes
      rw [peek_cons_succ, peek_append_sep]
      exact hb2

theorem start_not_ds : ∀ t ∈ startTypes, t ∉ (["Dot", "Semicolon"] : List String) := by
  decide

/-- Reduction of the `Return` branch of `parse_stmt` (lines 151-157): when the
statement starts with `Return`, the next token is not already a terminator, the
expression after `Return` parses to `(e, p)`, and the optional-terminator match
at `p` returns `r`, the whole statement parses to `ReturnStmt(e)` ending at
`termPos r p`. -/
theorem parse_stmt_return_red {f : Nat} {ts : List Token} {e : Expr} {p : Nat}
    {r : Option (Token × Nat)}
    (h0 : peekT ts 0 = "Return")
    (h1 : peekT ts 1 ∉ (["Dot", "Semicolon"] : List String))
    (hx : parse_expr f ts 1 = .ok (e, p))
    (hm : matchTok ts p ["Dot", "Semicolon"] = .ok r) :
    parse_stmt (f + 1) ts 0 = .ok (.returnStmt (some e), termPos r p) := by
  have hty : (_peek ts 0).type = "Return" := h0
  have hnext : nextTok ts 0 = .ok (_peek ts 0, 1) := by
    simp only [nextTok]
    rw [hty]
    rfl
  simp only [parse_stmt]
  rw [hty]
  rw [if_neg (by decide : ¬(("Return" : String) ∈ typeTokens))]
  rw [if_pos (by decide : (("Return" : String) == "Return" || ("Return" : String) == "wapsi") = true)]
  rw [hnext]
  simp only []
  rw [if_neg h1, hx]
  simp only []
  rw [hm]

/-! ## Concrete fixtures used by the claim theorems -/

/-- The `function` symbol the resolver's pass 1 creates for
`function int add(int a, int b)`. -/
def addSym : Symbol :=
  { name := "add", kind := "function", type_tok := some "Int",
    params := some [⟨"Int", "a"⟩, ⟨"Int", "b"⟩], scope_level := 0 }

/-- Checker state after resolving a program whose global scope binds `add`. -/
def stAdd : TCState :=
  { saChain := [{ scope_type := "global", symbols := [("add", addSym)] }] }

/-- Global symbols for two `bool` variables `p` and `q`. -/
def pSym : Symbol := { name := "p", kind := "var", type_tok := some "Bool", scope_level := 0 }

/-- Companion to `pSym`. -/
def qSym : Symbol := { name := "q", kind := "var", type_tok := some "Bool", scope_level := 0 }

/-- Checker state whose global scope binds `bool p` and `bool q`. -/
def stPQ : TCState :=
  { saChain := [{ scope_type := "global", symbols := [("p", pSym), ("q", qSym)] }] }

/-- Global symbol for an `int` variable `x`. -/
def xSym : Symbol := { name := "x", kind := "var", type_tok := some "Int", scope_level := 0 }

/-- Global symbol for an `int` variable `y`. -/
def ySym : Symbol := { name := "y", kind := "var", type_tok := some "Int", scope_level := 0 }

/-- Checker state whose global scope binds `add`, `int x`, `int y`, `bool p`. -/
def stXY : TCState :=
  { saChain := [Frame.mk "global" [("add", addSym), ("x", xSym), ("y", ySym), ("p", pSym)]] }

/-- The parsed declaration `int x = true`. -/
def xDecl : VarDecl := .mk "Int" "x" (some (.literal (.vBool true)))

/-- The parsed program `int x = true` (one top-level item, which the parser
emits as the tuple `("Var", VarDecl("Int", "x", Literal(True)))`). -/
def progC4 : Program := ⟨[.stmt (.varTuple xDecl)]⟩

/-- The parsed function `function int f() { }`: declared return type `Int`
(not `Void`), and no `return` statement in its body. -/
def fnF : FnDecl := ⟨"Int", "f", [], []⟩

/-- A program consisting only of `fnF`. -/
def progC5 : Program := ⟨[.fn fnF]⟩

/-- `int x = true` placed inside a function body:
`function int g() { int x = true  return 0 }`. -/
def progC4fn : Program :=
  ⟨[.fn ⟨"Int", "g", [], [.varTuple xDecl, .returnStmt (some (.literal (.vInt 0)))]⟩]⟩

/-- An identifier token as both lexers emit it. -/
def identTok (s : String) : Token := { type := "Identifier", value := .vStr s }

/-- A bare keyword/punctuation token (no value). -/
def tok (t : String) : Token := { type := t }

/-! ## Claim C1 -/

/-- Claim C1: the type checker's per-function scope lookup has no
implementation path in the resolver's data structures. For every checker
state and every function declaration, `check_fn_decl` stops with the
`AttributeError` produced by `get_function_scope`'s read of the missing
`scope_analyzer.all_scopes` attribute — the same error for every function,
before any per-function type rule (parameter check, body walk, return
check) is applied — and consequently `check_program` on any program whose
items contain at least one `FnDecl` terminates with an exception. -/
theorem c1_fn_scope_lookup_always_fails :
    (∀ (st : TCState) (f : FnDecl),
      check_fn_decl st f = .error (.attributeError "ScopeAnalyzer" "all_scopes"))
    ∧ ∀ (st : TCState) (p : Program), p.items.any Item.isFn = true →
      ∃ e, check_program st p = .error e := by
  constructor
  · intro st f
    rfl
  · intro st p hp
    suffices h : ∀ (items : List Item) (st : TCState), items.any Item.isFn = true →
        ∃ e, check_item_list st items = .error e by
      exact h p.items st hp
    intro items
    induction items with
    | nil => intro st h; simp at h
    | cons i rest ih =>
      intro st h
      match hi : check_item st i with
      | .error e => exact ⟨e, by simp [check_item_list, hi]⟩
      | .ok st' =>
        cases i with
        | fn f =>
          exact absurd hi (by simp [check_item, check_fn_decl])
        | bareVar v =>
          have hrest : rest.any Item.isFn = true := by
            simpa [Item.isFn] using h
          obtain ⟨e, he⟩ := ih st' hrest
          exact ⟨e, by simp [check_item_list, hi, he]⟩
        | stmt s =>
          have hrest : rest.any Item.isFn = true := by
            simpa [Item.isFn] using h
          obtain ⟨e, he⟩ := ih st' hrest
          exact ⟨e, by simp [check_item_list, hi, he]⟩

/-- Witness for C1 at the concrete program `function int f() { }`. -/
theorem c1_witness :
    progC5.items.any Item.isFn = true
    ∧ ∃ e, check_program (tcInit initState) progC5 = .error e :=
  ⟨by decide, c1_fn_scope_lookup_always_fails.2 (tcInit initState) progC5 (by decide)⟩

/-! ## Claim C2 -/

/-- Claim C2 (code bug): with `add` bound as `function int add(int a, int b)`,
the call-checking rules hold only until an argument must be checked:
`add(5)` does raise the parameter-count error before any argument is
checked, but `add(5, 10)` raises `AttributeError` (the checker reads
`Literal.type_tok`, a field the parser's `Literal` dataclass does not have)
instead of checking to `Int`, and `add(5, true)` likewise raises
`AttributeError` instead of a parameter-type error naming `b`. The
positional mechanism itself works when argument checking succeeds: with
`int x`, `int y` also in scope, `add(x, y)` checks to `Int`, and
`add(x, p)` with `bool p` raises the parameter-type error naming `b`. -/
theorem c2_call_checking_crashes_on_literal_args :
    check_expr stAdd (.call (.identifier "add") [.literal (.vInt 5), .literal (.vInt 10)])
      = .error (.attributeError "Literal" "type_tok")
    ∧ check_expr stAdd (.call (.identifier "add") [.literal (.vInt 5)])
      = .error (.fnCallParamCount "add")
    ∧ check_expr stAdd (.call (.identifier "add") [.literal (.vInt 5), .literal (.vBool true)])
      = .error (.attributeError "Literal" "type_tok")
    ∧ check_expr stXY (.call (.identifier "add") [.identifier "x", .identifier "y"])
      = .ok (some "Int")
    ∧ check_expr stXY (.call (.identifier "add") [.identifier "x", .identifier "p"])
      = .error (.fnCallParamType "add" "b") :=
  ⟨rfl, rfl, rfl, rfl, rfl⟩

/-! ## Claim C3 -/

/-- Claim C3 (code bug): the parser tags additive expressions with operator
`"AddOp"` (here: `p + q` parses to `Binary("AddOp", p, q)`), but
`check_expr`'s arithmetic rule matches the operator against `"+"`, so on a
parser-produced tree the non-numeric check never fires: with `bool p` and
`bool q`, the checker assigns `p + q` the left operand's type `Bool` and
raises no error, while the very same tree with operator string `"+"`
(which the parser never emits) would raise the non-numeric arithmetic
error. -/
theorem c3_arith_rule_never_fires_on_parsed_ops :
    parse_expr 30 [identTok "p", tok "AddOp", identTok "q"] 0
      = .ok (.binary "AddOp" (.identifier "p") (.identifier "q"), 3)
    ∧ check_expr stPQ (.binary "AddOp" (.identifier "p") (.identifier "q"))
      = .ok (some "Bool")
    ∧ check_expr stPQ (.binary "+" (.identifier "p") (.identifier "q"))
      = .error .attemptedAddOpOnNonNumeric :=
  ⟨rfl, rfl, rfl⟩

/-! ## Claim C4 -/

/-- Claim C4 (code bug): `int x = true` does not raise
`ExpressionTypeMismatch` anywhere. At the top level the parsed program
passes the resolver and then passes the type checker silently, because the
`("Var", v)` tuple the parser emits matches no `isinstance` branch of
`check_item`/`check_stmt`; inside a function body the checker raises the
`AttributeError` of `get_function_scope` before reaching any statement; and
even `check_var_decl` applied directly to the declaration raises
`AttributeError` (reading the nonexistent `Literal.type_tok`), not
`ExpressionTypeMismatch`. -/
theorem c4_int_x_true_not_flagged :
    (visit_program initState progC4).errors = []
    ∧ check_program (tcInit (visit_program initState progC4)) progC4
      = .ok (tcInit (visit_program initState progC4))
    ∧ check_stmt (tcInit (visit_program initState progC4)) (.varTuple xDecl)
      = .ok (tcInit (visit_program initState progC4))
    ∧ check_var_decl (tcInit (visit_program initState progC4)) xDecl
      = .error (.attributeError "Literal" "type_tok")
    ∧ check_program (tcInit (visit_program initState progC4fn)) progC4fn
      = .error (.attributeError "ScopeAnalyzer" "all_scopes") :=
  ⟨rfl, rfl, rfl, rfl, rfl⟩

/-! ## Claim C5 -/

/-- Claim C5 (code bug): `function int f() { }` — non-`Void` return type,
no `return` statement in the immediate body — sails through the resolver,
but the type checker raises the `AttributeError` of `get_function_scope`
(from `check_fn_decl`'s first real step), not `MissingReturnStatement`
(`ReturnStmtNotFound`): the return-presence scan of `check_fn_decl` is dead
code behind the unconditional `AttributeError`, so `ReturnStmtNotFound` is
never raised for any function. -/
theorem c5_missing_return_scan_unreachable :
    (visit_program initState progC5).errors = []
    ∧ check_program (tcInit (visit_program initState progC5)) progC5
      = .error (.attributeError "ScopeAnalyzer" "all_scopes")
    ∧ check_fn_decl (tcInit (visit_program initState progC5)) fnF
      = .error (.attributeError "ScopeAnalyzer" "all_scopes") :=
  ⟨rfl, rfl, rfl⟩

/-! ## Resolver lemmas: the error list is append-only and never influences
the walk

`Splits f` says the state transformer `f` (a resolver visit step) computes
its result chain and its newly appended errors from the input chain alone:
the input error list is carried through untouched underneath. This is the
formal content of "the resolver accumulates violations and never stops at
one": errors already recorded neither abort nor alter the rest of the
walk. -/
def Splits (f : SAState → SAState) : Prop :=
  ∀ st : SAState,
    f st = ⟨(f ⟨st.chain, []⟩).chain, st.errors ++ (f ⟨st.chain, []⟩).errors⟩

theorem splits_id : Splits (fun st => st) := by
  intro st
  simp

theorem splits_comp {f g : SAState → SAState} (hf : Splits f) (hg : Splits g) :
    Splits (fun st => g (f st)) := by
  intro st
  show g (f st)
    = ⟨(g (f ⟨st.chain, []⟩)).chain, st.errors ++ (g (f ⟨st.chain, []⟩)).errors⟩
  rw [hf st, hg ⟨(f ⟨st.chain, []⟩).chain, st.errors ++ (f ⟨st.chain, []⟩).errors⟩,
    hg (f ⟨st.chain, []⟩)]
  simp

theorem splits_addErr (e : ScopeErr) : Splits (fun st => addErr st e) := by
  intro st
  simp [addErr]

theorem splits_enter (t : String) : Splits (fun st => enter_scope st t) := by
  intro st
  simp [enter_scope]

theorem splits_exit : Splits exit_scope := by
  intro st
  obtain ⟨ch, errs⟩ := st
  match ch with
  | [] => simp [exit_scope]
  | [a] => simp [exit_scope]
  | a :: b :: rest => simp [exit_scope]

theorem splits_tryDefine (name kind : String) (tt : Option String)
    (ps : Option (List Param)) :
    Splits (fun st => tryDefine st name kind tt ps) := by
  intro st
  obtain ⟨ch, errs⟩ := st
  match ch with
  | [] => simp [tryDefine, define_symbol]
  | fr :: parents =>
    match hd : fr.define name (mkSymbol (fr :: parents) name kind tt ps) with
    | .error e => simp [tryDefine, define_symbol, addErr, hd]
    | .ok fr' => simp [tryDefine, define_symbol, hd]

theorem splits_foldl {α : Type} (step : SAState → α → SAState)
    (hstep : ∀ a, Splits (fun st => step st a)) (l : List α) :
    Splits (fun st => l.foldl step st) := by
  induction l with
  | nil => intro st; simp
  | cons a tl ih =>
    have h := splits_comp (hstep a) ih
    intro st
    simpa using h st

mutual

theorem splits_visit_expr : ∀ e : Expr, Splits (fun st => visit_expr st e)
  | .binary op l r => by
    have h := splits_comp (splits_visit_expr l) (splits_visit_expr r)
    intro st
    exact h st
  | .unary op e1 => by
    intro st
    exact splits_visit_expr e1 st
  | .literal v => by
    intro st
    show st = ⟨st.chain, st.errors ++ ([] : List ScopeErr)⟩
    simp
  | .identifier n => by
    intro st
    have heq : ∀ st' : SAState, visit_expr st' (.identifier n)
        = (match chainLookup st'.chain n with
           | some _ => st'
           | none => addErr st' (.undeclaredVariableAccessed n)) := fun _ => rfl
    show visit_expr st (.identifier n)
      = ⟨(visit_expr ⟨st.chain, []⟩ (.identifier n)).chain,
          st.errors ++ (visit_expr ⟨st.chain, []⟩ (.identifier n)).errors⟩
    rw [heq st, heq ⟨st.chain, []⟩]
    cases h : chainLookup st.chain n <;> simp [h, addErr]
  | .call c args => by
    match c with
    | .identifier cname =>
      have h1 : Splits (fun st =>
          match lookup_symbol st cname with
          | none => addErr st (.undefinedFunctionCalled cname)
          | some s =>
            if s.kind == "function" then st else addErr st (.calledNonFunction cname)) := by
        intro st
        simp only [lookup_symbol]
        cases h : chainLookup st.chain cname with
        | none => simp [h, addErr]
        | some s =>
          by_cases hk : s.kind == "function" <;> simp [h, hk, addErr]
      have h := splits_comp h1 (splits_visit_expr_list args)
      intro st
      exact h st
    | .binary op l r =>
      have h := splits_comp (splits_visit_expr (.binary op l r)) (splits_visit_expr_list args)
      intro st
      exact h st
    | .unary op e1 =>
      have h := splits_comp (splits_visit_expr (.unary op e1)) (splits_visit_expr_list args)
      intro st
      exact h st
    | .literal v =>
      have h := splits_comp (splits_visit_expr (.literal v)) (splits_visit_expr_list args)
      intro st
      exact h st
    | .call c2 args2 =>
      have h := splits_comp (splits_visit_expr (.call c2 args2)) (splits_visit_expr_list args)
      intro st
      exact h st

theorem splits_visit_expr_list : ∀ es : List Expr, Splits (fun st => visit_expr_list st es)
  | [] => by
    intro st
    show st = ⟨st.chain, st.errors ++ ([] : List ScopeErr)⟩
    simp
  | e :: rest => by
    have h := splits_comp (splits_visit_expr e) (splits_visit_expr_list rest)
    intro st
    exact h st

end

theorem splits_visit_opt_expr (oe : Option Expr) : Splits (fun st => visit_opt_expr st oe) := by
  match oe with
  | some e => exact splits_visit_expr e
  | none => exact splits_id

theorem splits_visit_var_decl (v : VarDecl) : Splits (fun st => visit_var_decl st v) := by
  have h := splits_comp (splits_visit_opt_expr v.expr)
    (splits_tryDefine v.name "var" (some v.type_tok) none)
  intro st
  exact h st

theorem splits_visit_for_init (init : Option ForInit) :
    Splits (fun st => visit_for_init st init) := by
  match init with
  | some (.var v) => exact splits_visit_var_decl v
  | some (.exprStmt e) => exact splits_visit_expr e
  | none => exact splits_id

mutual

theorem splits_visit_stmt : ∀ s : Stmt, Splits (fun st => visit_stmt st s)
  | .varTuple v => by
    intro st
    exact splits_visit_var_decl v st
  | .blockTuple body => by
    have h := splits_comp (splits_comp (splits_enter "block")
      (splits_visit_stmt_list body)) splits_exit
    intro st
    exact h st
  | .exprStmt e => by
    intro st
    exact splits_visit_expr e st
  | .returnStmt oe => by
    intro st
    exact splits_visit_opt_expr oe st
  | .ifStmt cond if_block else_block => by
    have hthen := splits_comp (splits_visit_expr cond)
      (splits_comp (splits_comp (splits_enter "block")
        (splits_visit_stmt_list if_block)) splits_exit)
    by_cases he : else_block.isEmpty
    · intro st
      show visit_stmt st (.ifStmt cond if_block else_block)
        = ⟨(visit_stmt ⟨st.chain, []⟩ (.ifStmt cond if_block else_block)).chain,
            st.errors ++ (visit_stmt ⟨st.chain, []⟩ (.ifStmt cond if_block else_block)).errors⟩
      conv_lhs => rw [show visit_stmt st (.ifStmt cond if_block else_block)
        = (if else_block.isEmpty
            then exit_scope (visit_stmt_list (enter_scope (visit_expr st cond) "block") if_block)
            else exit_scope (visit_stmt_list (enter_scope
              (exit_scope (visit_stmt_list (enter_scope (visit_expr st cond) "block") if_block)) "block") else_block)) from rfl]
      rw [if_pos he]
      conv_rhs => rw [show visit_stmt ⟨st.chain, []⟩ (.ifStmt cond if_block else_block)
        = (if else_block.isEmpty
            then exit_scope (visit_stmt_list (enter_scope (visit_expr ⟨st.chain, []⟩ cond) "block") if_block)
            else exit_scope (visit_stmt_list (enter_scope
              (exit_scope (visit_stmt_list (enter_scope (visit_expr ⟨st.chain, []⟩ cond) "block") if_block)) "block") else_block)) from rfl]
      rw [if_pos he]
      exact hthen st
    · intro st
      show visit_stmt st (.ifStmt cond if_block else_block)
        = ⟨(visit_stmt ⟨st.chain, []⟩ (.ifStmt cond if_block else_block)).chain,
            st.errors ++ (visit_stmt ⟨st.chain, []⟩ (.ifStmt cond if_block else_block)).errors⟩
      conv_lhs => rw [show visit_stmt st (.ifStmt cond if_block else_block)
        = (if else_block.isEmpty
            then exit_scope (visit_stmt_list (enter_scope (visit_expr st cond) "block") if_block)
            else exit_scope (visit_stmt_list (enter_scope
              (exit_scope (visit_stmt_list (enter_scope (visit_expr st cond) "block") if_block)) "block") else_block)) from rfl]
      rw [if_neg he]
      conv_rhs => rw [show visit_stmt ⟨st.chain, []⟩ (.ifStmt cond if_block else_block)
        = (if else_block.isEmpty
            then exit_scope (visit_stmt_list (enter_scope (visit_expr ⟨st.chain, []⟩ cond) "block") if_block)
            else exit_scope (visit_stmt_list (enter_scope
              (exit_scope (visit_stmt_list (enter_scope (visit_expr ⟨st.chain, []⟩ cond) "block") if_block)) "block") else_block)) from rfl]
      rw [if_neg he]
      exact (splits_comp hthen
        (splits_comp (splits_comp (splits_enter "block")
          (splits_visit_stmt_list else_block)) splits_exit)) st
  | .forStmt init cond updt block => by
    have h := splits_comp (splits_enter "block") (splits_comp (splits_visit_for_init init)
      (splits_comp (splits_visit_opt_expr cond) (splits_comp (splits_visit_opt_expr updt)
        (splits_comp (splits_visit_stmt_list block) splits_exit))))
    intro st
    exact h st
  | .breakStmt => by
    intro st
    show st = ⟨st.chain, st.errors ++ ([] : List ScopeErr)⟩
    simp

theorem splits_visit_stmt_list : ∀ ss : List Stmt, Splits (fun st => visit_stmt_list st ss)
  | [] => by
    intro st
    show st = ⟨st.chain, st.errors ++ ([] : List ScopeErr)⟩
    simp
  | s :: rest => by
    have h := splits_comp (splits_visit_stmt s) (splits_visit_stmt_list rest)
    intro st
    exact h st

end

theorem splits_visit_fn_decl (f : FnDecl) : Splits (fun st => visit_fn_decl st f) := by
  have h := splits_comp (splits_enter "function")
    (splits_comp (splits_foldl _
      (fun p => splits_tryDefine p.name "param" (some p.type_tok) none) f.params)
      (splits_comp (splits_visit_stmt_list f.body) splits_exit))
  intro st
  exact h st

theorem splits_pass1_step (it : Item) : Splits (fun st => pass1_step st it) := by
  match it with
  | .fn f => exact splits_tryDefine f.name "function" (some f.type_tok) (some f.params)
  | .bareVar v => exact splits_id
  | .stmt s => exact splits_id

theorem splits_pass2_step (it : Item) : Splits (fun st => pass2_step st it) := by
  match it with
  | .fn f => exact splits_visit_fn_decl f
  | .bareVar v => exact splits_id
  | .stmt s => exact splits_visit_stmt s

theorem splits_visit_program (p : Program) : Splits (fun st => visit_program st p) := by
  have h := splits_comp (splits_foldl pass1_step splits_pass1_step p.items)
    (splits_foldl pass2_step splits_pass2_step p.items)
  intro st
  exact h st

/-! ## Resolver lemmas: expressions never touch the scope chain -/

mutual

theorem chain_visit_expr : ∀ (e : Expr) (st : SAState), (visit_expr st e).chain = st.chain
  | .binary op l r, st => by
    show (visit_expr (visit_expr st l) r).chain = st.chain
    rw [chain_visit_expr r, chain_visit_expr l]
  | .unary op e1, st => chain_visit_expr e1 st
  | .literal v, st => rfl
  | .identifier n, st => by
    show (match chainLookup st.chain n with
      | some _ => st
      | none => addErr st (.undeclaredVariableAccessed n)).chain = st.chain
    cases h : chainLookup st.chain n <;> simp [addErr]
  | .call c args, st => by
    match c with
    | .identifier cname =>
      show (visit_expr_list (match chainLookup st.chain cname with
        | none => addErr st (.undefinedFunctionCalled cname)
        | some s =>
          if s.kind == "function" then st else addErr st (.calledNonFunction cname)) args).chain
        = st.chain
      rw [chain_visit_expr_list args]
      cases h : chainLookup st.chain cname with
      | none => simp [addErr]
      | some s => by_cases hk : s.kind == "function" <;> simp [hk, addErr]
    | .binary op l r =>
      show (visit_expr_list (visit_expr st (.binary op l r)) args).chain = st.chain
      rw [chain_visit_expr_list args, chain_visit_expr (.binary op l r)]
    | .unary op e1 =>
      show (visit_expr_list (visit_expr st (.unary op e1)) args).chain = st.chain
      rw [chain_visit_expr_list args, chain_visit_expr (.unary op e1)]
    | .literal v =>
      show (visit_expr_list (visit_expr st (.literal v)) args).chain = st.chain
      rw [chain_visit_expr_list args, chain_visit_expr (.literal v)]
    | .call c2 args2 =>
      show (visit_expr_list (visit_expr st (.call c2 args2)) args).chain = st.chain
      rw [chain_visit_expr_list args, chain_visit_expr (.call c2 args2)]

theorem chain_visit_expr_list : ∀ (es : List Expr) (st : SAState),
    (visit_expr_list st es).chain = st.chain
  | [], st => rfl
  | e :: rest, st => by
    show (visit_expr_list (visit_expr st e) rest).chain = st.chain
    rw [chain_visit_expr_list rest, chain_visit_expr e]

end

/-! ## Claim C8: machinery -/

mutual

/-- `e` contains a *variable reference* to `n`: an `Identifier n` occurrence
that `visit_expr` resolves as a variable. A `Call`'s identifier callee is
not such an occurrence (the resolver treats it as a function name and
reports `UndefinedFunctionCalled` instead). -/
def mentionsVar (e : Expr) (n : String) : Bool :=
  match e with
  | .binary _ l r => mentionsVar l n || mentionsVar r n
  | .unary _ e1 => mentionsVar e1 n
  | .literal _ => false
  | .identifier m => m == n
  | .call callee args =>
    (match callee with
     | .identifier _ => false
     | other => mentionsVar other n) || mentionsVarList args n

/-- Any of the expressions contains a variable reference to `n`. -/
def mentionsVarList (es : List Expr) (n : String) : Bool :=
  match es with
  | [] => false
  | e :: rest => mentionsVar e n || mentionsVarList rest n

end

/-- Errors already recorded survive any further `Splits` step. -/
theorem mem_errors_of_splits {f : SAState → SAState} (hf : Splits f) {st : SAState}
    {err : ScopeErr} (h : err ∈ st.errors) : err ∈ (f st).errors := by
  rw [hf st]
  exact List.mem_append.2 (Or.inl h)

mutual

/-- If `n` is unbound in the whole chain and `e` references it as a
variable, visiting `e` records `UndeclaredVariableAccessed n`. -/
theorem uva_visit_expr : ∀ (e : Expr) (st : SAState) (n : String),
    chainLookup st.chain n = none → mentionsVar e n = true →
    ScopeErr.undeclaredVariableAccessed n ∈ (visit_expr st e).errors
  | .binary op l r, st, n => by
    intro hnb hm
    show _ ∈ (visit_expr (visit_expr st l) r).errors
    rcases Bool.or_eq_true_iff.mp (by simpa [mentionsVar] using hm) with hl | hr
    · exact mem_errors_of_splits (splits_visit_expr r) (uva_visit_expr l st n hnb hl)
    · have hch : chainLookup (visit_expr st l).chain n = none := by
        rw [chain_visit_expr l st]; exact hnb
      exact uva_visit_expr r (visit_expr st l) n hch hr
  | .unary op e1, st, n => by
    intro hnb hm
    exact uva_visit_expr e1 st n hnb (by simpa [mentionsVar] using hm)
  | .literal v, st, n => by
    intro _ hm
    simp [mentionsVar] at hm
  | .identifier m, st, n => by
    intro hnb hm
    have hmn : m = n := by simpa [mentionsVar] using hm
    subst hmn
    show _ ∈ (match chainLookup st.chain m with
      | some _ => st
      | none => addErr st (.undeclaredVariableAccessed m)).errors
    rw [hnb]
    simp [addErr]
  | .call c args, st, n => by
    intro hnb hm
    match c with
    | .identifier cname =>
      have hargs : mentionsVarList args n = true := by
        simpa [mentionsVar] using hm
      show _ ∈ (visit_expr_list (match chainLookup st.chain cname with
        | none => addErr st (.undefinedFunctionCalled cname)
        | some s =>
          if s.kind == "function" then st else addErr st (.calledNonFunction cname)) args).errors
      have hch : ∀ st1 : SAState, st1.chain = st.chain →
          ScopeErr.undeclaredVariableAccessed n ∈ (visit_expr_list st1 args).errors := by
        intro st1 h1
        exact uva_visit_expr_list args st1 n (h1 ▸ hnb) hargs
      cases h : chainLookup st.chain cname with
      | none => exact hch _ (by simp [addErr])
      | some s =>
        by_cases hk : s.kind == "function"
        · simp only [hk, if_true]
          exact hch st rfl
        · simp only [hk, if_false]
          exact hch _ (by simp [addErr])
    | .binary op l r =>
      show _ ∈ (visit_expr_list (visit_expr st (.binary op l r)) args).errors
      rcases Bool.or_eq_true_iff.mp
        (show (mentionsVar (.binary op l r) n || mentionsVarList args n) = true from hm) with hc | hargs
      · exact mem_errors_of_splits (splits_visit_expr_list args)
          (uva_visit_expr (.binary op l r) st n hnb hc)
      · exact uva_visit_expr_list args _ n
          (by rw [chain_visit_expr (.binary op l r) st]; exact hnb) hargs
    | .unary op e1 =>
      show _ ∈ (visit_expr_list (visit_expr st (.unary op e1)) args).errors
      rcases Bool.or_eq_true_iff.mp
        (show (mentionsVar (.unary op e1) n || mentionsVarList args n) = true from hm) with hc | hargs
      · exact mem_errors_of_splits (splits_visit_expr_list args)
          (uva_visit_expr (.unary op e1) st n hnb hc)
      · exact uva_visit_expr_list args _ n
          (by rw [chain_visit_expr (.unary op e1) st]; exact hnb) hargs
    | .literal v =>
      show _ ∈ (visit_expr_list (visit_expr st (.literal v)) args).errors
      rcases Bool.or_eq_true_iff.mp
        (show (mentionsVar (.literal v) n || mentionsVarList args n) = true from hm) with hc | hargs
      · exact mem_errors_of_splits (splits_visit_expr_list args)
          (uva_visit_expr (.literal v) st n hnb hc)
      · exact uva_visit_expr_list args _ n
          (by rw [chain_visit_expr (.literal v) st]; exact hnb) hargs
    | .call c2 args2 =>
      show _ ∈ (visit_expr_list (visit_expr st (.call c2 args2)) args).errors
      rcases Bool.or_eq_true_iff.mp
        (show (mentionsVar (.call c2 args2) n || mentionsVarList args n) = true from hm) with hc | hargs
      · exact mem_errors_of_splits (splits_visit_expr_list args)
          (uva_visit_expr (.call c2 args2) st n hnb hc)
      · exact uva_visit_expr_list args _ n
          (by rw [chain_visit_expr (.call c2 args2) st]; exact hnb) hargs

theorem uva_visit_expr_list : ∀ (es : List Expr) (st : SAState) (n : String),
    chainLookup st.chain n = none → mentionsVarList es n = true →
    ScopeErr.undeclaredVariableAccessed n ∈ (visit_expr_list st es).errors
  | [], st, n => by
    intro _ hm
    simp [mentionsVarList] at hm
  | e :: rest, st, n => by
    intro hnb hm
    show _ ∈ (visit_expr_list (visit_expr st e) rest).errors
    rcases Bool.or_eq_true_iff.mp (by simpa [mentionsVarList] using hm) with he | hrest
    · exact mem_errors_of_splits (splits_visit_expr_list rest) (uva_visit_expr e st n hnb he)
    · exact uva_visit_expr_list rest _ n
        (by rw [chain_visit_expr e st]; exact hnb) hrest

end

/-! ## Claim C8 -/

/-- Claim C8: the resolver visits a variable declaration's initializer
*before* binding the declared name, so when the declared name has no
binding anywhere in the current scope chain and the initializer references
it as a variable, `UndeclaredVariableAccessed` for that name is recorded —
the reference does not resolve to the new binding. -/
theorem c8_initializer_resolved_before_binding :
    ∀ (st : SAState) (ty n : String) (e : Expr),
      chainLookup st.chain n = none → mentionsVar e n = true →
      ScopeErr.undeclaredVariableAccessed n
        ∈ (visit_var_decl st (.mk ty n (some e))).errors := by
  intro st ty n e hnb hm
  show _ ∈ (tryDefine (visit_opt_expr st (VarDecl.expr (.mk ty n (some e))))
    (VarDecl.name (.mk ty n (some e))) "var"
    (some (VarDecl.type_tok (.mk ty n (some e)))) none).errors
  have h1 : ScopeErr.undeclaredVariableAccessed n ∈ (visit_expr st e).errors :=
    uva_visit_expr e st n hnb hm
  exact mem_errors_of_splits (splits_tryDefine n "var" (some ty) none) h1

/-- Witness for C8: `int x = x` at the global scope of a fresh analyzer. -/
theorem c8_witness :
    chainLookup initState.chain "x" = none
    ∧ mentionsVar (.identifier "x") "x" = true
    ∧ ScopeErr.undeclaredVariableAccessed "x"
        ∈ (visit_var_decl initState (.mk "Int" "x" (some (.identifier "x")))).errors :=
  ⟨by decide, by decide,
    c8_initializer_resolved_before_binding initState "Int" "x" (.identifier "x")
      (by decide) (by decide)⟩

/-! ## Claim C6: a well-formedness discipline for scope resolution

`wellFormedProgram` expresses, over the embedding's own scope chains, the
spec's notion of a well-formed program: every identifier reference resolves
in the visible scope chain at the point of use (declarations seen in
resolver order: functions pre-registered by pass 1, a variable bound after
its own initializer), every callee resolves to a function-kind symbol, and
no name is bound twice in the same frame. It is a checklist, not a
re-execution of the resolver: it records no errors and decides a Boolean.
-/

/-- The chain after a successful bind of `name` in the head frame — the
`.ok` branch of `define_symbol`. -/
def chainBind (ch : Chain) (name kind : String) (tt : Option String)
    (ps : Option (List Param)) : Chain :=
  match ch with
  | [] => []
  | fr :: parents =>
    { fr with symbols := fr.symbols ++ [(name, mkSymbol (fr :: parents) name kind tt ps)] }
      :: parents

/-- The head frame does not yet bind `name`. -/
def headFresh (ch : Chain) (name : String) : Bool :=
  match ch with
  | [] => true
  | fr :: _ => (fr.lookup_local name).isNone

mutual

/-- Every identifier of `e` is declared in the visible chain, and every
identifier callee is bound to a function-kind symbol. -/
def wfExpr (ch : Chain) (e : Expr) : Bool :=
  match e with
  | .binary _ l r => wfExpr ch l && wfExpr ch r
  | .unary _ e1 => wfExpr ch e1
  | .literal _ => true
  | .identifier n => (chainLookup ch n).isSome
  | .call callee args =>
    (match callee with
     | .identifier cname =>
       match chainLookup ch cname with
       | some s => s.kind == "function"
       | none => false
     | other => wfExpr ch other) && wfExprList ch args

/-- `wfExpr` over a list. -/
def wfExprList (ch : Chain) (es : List Expr) : Bool :=
  match es with
  | [] => true
  | e :: rest => wfExpr ch e && wfExprList ch rest

end

/-- `wfExpr` on an optional expression (absent is well formed). -/
def wfOptExpr (ch : Chain) (oe : Option Expr) : Bool :=
  match oe with
  | some e => wfExpr ch e
  | none => true

/-- A declaration is well formed when its initializer (resolved first)
is well formed and its name is fresh in the current frame; the second
component is the chain with the new binding. -/
def wfVarDecl (ch : Chain) (v : VarDecl) : Bool × Chain :=
  (wfOptExpr ch v.expr && headFresh ch v.name,
   chainBind ch v.name "var" (some v.type_tok) none)

/-- Well-formedness of a `for` initializer, inside the loop's own frame. -/
def wfForInit (ch : Chain) (init : Option ForInit) : Bool × Chain :=
  match init with
  | some (.var v) => wfVarDecl ch v
  | some (.exprStmt e) => (wfExpr ch e, ch)
  | none => (true, ch)

mutual

/-- Statement well-formedness, threading the chain exactly as the resolver
binds names: a declaration extends the current frame, nested constructs
see a fresh pushed `block` frame and leave the chain unchanged. -/
def wfStmt (ch : Chain) (s : Stmt) : Bool × Chain :=
  match s with
  | .varTuple v => wfVarDecl ch v
  | .blockTuple body => ((wfStmtList (Frame.mk "block" [] :: ch) body).1, ch)
  | .exprStmt e => (wfExpr ch e, ch)
  | .returnStmt oe => (wfOptExpr ch oe, ch)
  | .ifStmt cond tb eb =>
    (wfExpr ch cond && (wfStmtList (Frame.mk "block" [] :: ch) tb).1 &&
      (if eb.isEmpty then true else (wfStmtList (Frame.mk "block" [] :: ch) eb).1), ch)
  | .forStmt init cond updt block =>
    let ini := wfForInit (Frame.mk "block" [] :: ch) init
    (ini.1 && wfOptExpr ini.2 cond && wfOptExpr ini.2 updt
      && (wfStmtList ini.2 block).1, ch)
  | .breakStmt => (true, ch)

/-- `wfStmt` threaded over a list. -/
def wfStmtList (ch : Chain) (ss : List Stmt) : Bool × Chain :=
  match ss with
  | [] => (true, ch)
  | s :: rest =>
    let hd := wfStmt ch s
    let tl := wfStmtList hd.2 rest
    (hd.1 && tl.1, tl.2)

end

/-- Parameters bound one by one into the function frame, each fresh. -/
def wfParams (ch : Chain) (ps : List Param) : Bool × Chain :=
  match ps with
  | [] => (true, ch)
  | p :: rest =>
    let b := headFresh ch p.name
    let tl := wfParams (chainBind ch p.name "param" (some p.type_tok) none) rest
    (b && tl.1, tl.2)

/-- A function declaration: parameters pairwise fresh in a fresh
`function` frame, body well formed with them in scope. -/
def wfFnDecl (ch : Chain) (f : FnDecl) : Bool :=
  let ps := wfParams (Frame.mk "function" [] :: ch) f.params
  ps.1 && (wfStmtList ps.2 f.body).1

/-- Pass-1 well-formedness step: each top-level function name fresh in the
global frame when registered. -/
def wfItem1 (ch : Chain) (it : Item) : Bool × Chain :=
  match it with
  | .fn f => (headFresh ch f.name,
      chainBind ch f.name "function" (some f.type_tok) (some f.params))
  | _ => (true, ch)

/-- `wfItem1` threaded over the items. -/
def wfItems1 (ch : Chain) (items : List Item) : Bool × Chain :=
  match items with
  | [] => (true, ch)
  | it :: rest =>
    let hd := wfItem1 ch it
    let tl := wfItems1 hd.2 rest
    (hd.1 && tl.1, tl.2)

/-- Pass-2 well-formedness step. -/
def wfItem2 (ch : Chain) (it : Item) : Bool × Chain :=
  match it with
  | .fn f => (wfFnDecl ch f, ch)
  | .stmt s => wfStmt ch s
  | .bareVar _ => (true, ch)

/-- `wfItem2` threaded over the items. -/
def wfItems2 (ch : Chain) (items : List Item) : Bool × Chain :=
  match items with
  | [] => (true, ch)
  | it :: rest =>
    let hd := wfItem2 ch it
    let tl := wfItems2 hd.2 rest
    (hd.1 && tl.1, tl.2)

/-- The spec's "well-formed program where every identifier is declared
before first use in its visible scope": both resolver passes validate. -/
def wellFormedProgram (p : Program) : Bool :=
  let pass1 := wfItems1 initState.chain p.items
  pass1.1 && (wfItems2 pass1.2 p.items).1

/-! ## Claim C6: correspondence between the discipline and the resolver -/

theorem bool_and_split {a b : Bool} (h : (a && b) = true) : a = true ∧ b = true := by
  simpa using h

theorem tryDefine_fresh (ch : Chain) (errs : List ScopeErr) (name kind : String)
    (tt : Option String) (ps : Option (List Param)) (h : headFresh ch name = true) :
    tryDefine ⟨ch, errs⟩ name kind tt ps = ⟨chainBind ch name kind tt ps, errs⟩ := by
  match ch with
  | [] => simp [tryDefine, define_symbol, chainBind]
  | fr :: parents =>
    have hn : fr.lookup_local name = none := by
      simpa [headFresh, Option.isNone_iff_eq_none] using h
    simp [tryDefine, define_symbol, Frame.define, chainBind, hn]

mutual

theorem wf_visit_expr : ∀ (e : Expr) (ch : Chain) (errs : List ScopeErr),
    wfExpr ch e = true → visit_expr ⟨ch, errs⟩ e = ⟨ch, errs⟩
  | .binary op l r, ch, errs => by
    intro h
    obtain ⟨hl, hr⟩ := bool_and_split (show (wfExpr ch l && wfExpr ch r) = true from h)
    show visit_expr (visit_expr ⟨ch, errs⟩ l) r = ⟨ch, errs⟩
    rw [wf_visit_expr l ch errs hl, wf_visit_expr r ch errs hr]
  | .unary op e1, ch, errs => by
    intro h
    exact wf_visit_expr e1 ch errs h
  | .literal v, ch, errs => by
    intro _
    rfl
  | .identifier n, ch, errs => by
    intro h
    obtain ⟨sym, hs⟩ := Option.isSome_iff_exists.mp h
    show (match chainLookup ch n with
      | some _ => (⟨ch, errs⟩ : SAState)
      | none => addErr ⟨ch, errs⟩ (.undeclaredVariableAccessed n)) = ⟨ch, errs⟩
    rw [hs]
  | .call c args, ch, errs => by
    intro h
    match c with
    | .identifier cname =>
      obtain ⟨hc, hargs⟩ := bool_and_split (show ((match chainLookup ch cname with
        | some s => s.kind == "function"
        | none => false) && wfExprList ch args) = true from h)
      show visit_expr_list (match chainLookup ch cname with
        | none => addErr ⟨ch, errs⟩ (.undefinedFunctionCalled cname)
        | some s =>
          if s.kind == "function" then (⟨ch, errs⟩ : SAState)
          else addErr ⟨ch, errs⟩ (.calledNonFunction cname)) args = ⟨ch, errs⟩
      cases hl : chainLookup ch cname with
      | none => rw [hl] at hc; exact absurd hc (by simp)
      | some sym =>
        rw [hl] at hc
        have hk : (sym.kind == "function") = true := by simpa using hc
        show visit_expr_list (if sym.kind == "function" then (⟨ch, errs⟩ : SAState)
          else addErr ⟨ch, errs⟩ (.calledNonFunction cname)) args = ⟨ch, errs⟩
        simp only [hk, if_true]
        exact wf_visit_expr_list args ch errs hargs
    | .binary op l r =>
      obtain ⟨hc, hargs⟩ := bool_and_split
        (show (wfExpr ch (.binary op l r) && wfExprList ch args) = true from h)
      show visit_expr_list (visit_expr ⟨ch, errs⟩ (.binary op l r)) args = ⟨ch, errs⟩
      rw [wf_visit_expr (.binary op l r) ch errs hc]
      exact wf_visit_expr_list args ch errs hargs
    | .unary op e1 =>
      obtain ⟨hc, hargs⟩ := bool_and_split
        (show (wfExpr ch (.unary op e1) && wfExprList ch args) = true from h)
      show visit_expr_list (visit_expr ⟨ch, errs⟩ (.unary op e1)) args = ⟨ch, errs⟩
      rw [wf_visit_expr (.unary op e1) ch errs hc]
      exact wf_visit_expr_list args ch errs hargs
    | .literal v =>
      obtain ⟨hc, hargs⟩ := bool_and_split
        (show (wfExpr ch (.literal v) && wfExprList ch args) = true from h)
      show visit_expr_list (visit_expr ⟨ch, errs⟩ (.literal v)) args = ⟨ch, errs⟩
      rw [wf_visit_expr (.literal v) ch errs hc]
      exact wf_visit_expr_list args ch errs hargs
    | .call c2 args2 =>
      obtain ⟨hc, hargs⟩ := bool_and_split
        (show (wfExpr ch (.call c2 args2) && wfExprList ch args) = true from h)
      show visit_expr_list (visit_expr ⟨ch, errs⟩ (.call c2 args2)) args = ⟨ch, errs⟩
      rw [wf_visit_expr (.call c2 args2) ch errs hc]
      exact wf_visit_expr_list args ch errs hargs

theorem wf_visit_expr_list : ∀ (es : List Expr) (ch : Chain) (errs : List ScopeErr),
    wfExprList ch es = true → visit_expr_list ⟨ch, errs⟩ es = ⟨ch, errs⟩
  | [], ch, errs => by
    intro _
    rfl
  | e :: rest, ch, errs => by
    intro h
    obtain ⟨he, hrest⟩ := bool_and_split
      (show (wfExpr ch e && wfExprList ch rest) = true from h)
    show visit_expr_list (visit_expr ⟨ch, errs⟩ e) rest = ⟨ch, errs⟩
    rw [wf_visit_expr e ch errs he]
    exact wf_visit_expr_list rest ch errs hrest

end

theorem wf_visit_opt_expr (oe : Option Expr) (ch : Chain) (errs : List ScopeErr)
    (h : wfOptExpr ch oe = true) : visit_opt_expr ⟨ch, errs⟩ oe = ⟨ch, errs⟩ := by
  match oe with
  | some e => exact wf_visit_expr e ch errs h
  | none => rfl

theorem wf_visit_var_decl (v : VarDecl) (ch : Chain) (errs : List ScopeErr)
    (h : (wfVarDecl ch v).1 = true) :
    visit_var_decl ⟨ch, errs⟩ v = ⟨(wfVarDecl ch v).2, errs⟩ := by
  obtain ⟨he, hf⟩ := bool_and_split
    (show (wfOptExpr ch v.expr && headFresh ch v.name) = true from h)
  show tryDefine (visit_opt_expr ⟨ch, errs⟩ v.expr) v.name "var" (some v.type_tok) none
    = ⟨(wfVarDecl ch v).2, errs⟩
  rw [wf_visit_opt_expr v.expr ch errs he]
  exact tryDefine_fresh ch errs v.name "var" (some v.type_tok) none hf

theorem wf_visit_for_init (init : Option ForInit) (ch : Chain) (errs : List ScopeErr)
    (h : (wfForInit ch init).1 = true) :
    visit_for_init ⟨ch, errs⟩ init = ⟨(wfForInit ch init).2, errs⟩ := by
  match init with
  | some (.var v) => exact wf_visit_var_decl v ch errs h
  | some (.exprStmt e) => exact wf_visit_expr e ch errs h
  | none => rfl

theorem wfVarDecl_tail (v : VarDecl) (fr : Frame) (ch : Chain) :
    ∃ fr', (wfVarDecl (fr :: ch) v).2 = fr' :: ch :=
  ⟨_, rfl⟩

theorem wfForInit_tail (init : Option ForInit) (fr : Frame) (ch : Chain) :
    ∃ fr', (wfForInit (fr :: ch) init).2 = fr' :: ch := by
  match init with
  | some (.var v) => exact wfVarDecl_tail v fr ch
  | some (.exprStmt e) => exact ⟨fr, rfl⟩
  | none => exact ⟨fr, rfl⟩

theorem wfStmt_tail (s : Stmt) (fr : Frame) (ch : Chain) :
    ∃ fr', (wfStmt (fr :: ch) s).2 = fr' :: ch := by
  match s with
  | .varTuple v => exact wfVarDecl_tail v fr ch
  | .blockTuple body => exact ⟨fr, rfl⟩
  | .exprStmt e => exact ⟨fr, rfl⟩
  | .returnStmt oe => exact ⟨fr, rfl⟩
  | .ifStmt c tb eb => exact ⟨fr, rfl⟩
  | .forStmt i c u b => exact ⟨fr, rfl⟩
  | .breakStmt => exact ⟨fr, rfl⟩

theorem wfStmtList_tail : ∀ (ss : List Stmt) (fr : Frame) (ch : Chain),
    ∃ fr', (wfStmtList (fr :: ch) ss).2 = fr' :: ch
  | [], fr, ch => ⟨fr, rfl⟩
  | s :: rest, fr, ch => by
    obtain ⟨fr1, h1⟩ := wfStmt_tail s fr ch
    show ∃ fr', (wfStmtList (wfStmt (fr :: ch) s).2 rest).2 = fr' :: ch
    rw [h1]
    exact wfStmtList_tail rest fr1 ch

theorem wfParams_tail : ∀ (ps : List Param) (fr : Frame) (ch : Chain),
    ∃ fr', (wfParams (fr :: ch) ps).2 = fr' :: ch
  | [], fr, ch => ⟨fr, rfl⟩
  | p :: rest, fr, ch => by
    show ∃ fr', (wfParams (chainBind (fr :: ch) p.name "param" (some p.type_tok) none) rest).2
      = fr' :: ch
    exact wfParams_tail rest _ ch

mutual

theorem wf_visit_stmt : ∀ (s : Stmt) (fr : Frame) (ch : Chain) (errs : List ScopeErr),
    (wfStmt (fr :: ch) s).1 = true →
    visit_stmt ⟨fr :: ch, errs⟩ s = ⟨(wfStmt (fr :: ch) s).2, errs⟩
  | .varTuple v, fr, ch, errs => by
    intro h
    exact wf_visit_var_decl v (fr :: ch) errs h
  | .blockTuple body, fr, ch, errs => by
    intro h
    show exit_scope (visit_stmt_list (enter_scope ⟨fr :: ch, errs⟩ "block") body)
      = ⟨fr :: ch, errs⟩
    have henter : enter_scope (⟨fr :: ch, errs⟩ : SAState) "block"
        = ⟨Frame.mk "block" [] :: fr :: ch, errs⟩ := rfl
    rw [henter, wf_visit_stmt_list body (Frame.mk "block" []) (fr :: ch) errs h]
    obtain ⟨fr', hfr⟩ := wfStmtList_tail body (Frame.mk "block" []) (fr :: ch)
    rw [hfr]
    rfl
  | .exprStmt e, fr, ch, errs => by
    intro h
    exact wf_visit_expr e (fr :: ch) errs h
  | .returnStmt oe, fr, ch, errs => by
    intro h
    exact wf_visit_opt_expr oe (fr :: ch) errs h
  | .ifStmt cond tb eb, fr, ch, errs => by
    intro h
    obtain ⟨h12, he⟩ := bool_and_split (show ((wfExpr (fr :: ch) cond
        && (wfStmtList (Frame.mk "block" [] :: fr :: ch) tb).1)
      && (if eb.isEmpty then true
          else (wfStmtList (Frame.mk "block" [] :: fr :: ch) eb).1)) = true from h)
    obtain ⟨hc, ht⟩ := bool_and_split h12
    show (if eb.isEmpty
        then exit_scope (visit_stmt_list
          (enter_scope (visit_expr ⟨fr :: ch, errs⟩ cond) "block") tb)
        else exit_scope (visit_stmt_list (enter_scope
          (exit_scope (visit_stmt_list
            (enter_scope (visit_expr ⟨fr :: ch, errs⟩ cond) "block") tb)) "block") eb))
      = ⟨fr :: ch, errs⟩
    rw [show visit_expr ⟨fr :: ch, errs⟩ cond = ⟨fr :: ch, errs⟩
      from wf_visit_expr cond (fr :: ch) errs hc]
    have hblk : exit_scope (visit_stmt_list
        (enter_scope (⟨fr :: ch, errs⟩ : SAState) "block") tb) = ⟨fr :: ch, errs⟩ := by
      have henter : enter_scope (⟨fr :: ch, errs⟩ : SAState) "block"
          = ⟨Frame.mk "block" [] :: fr :: ch, errs⟩ := rfl
      rw [henter, wf_visit_stmt_list tb (Frame.mk "block" []) (fr :: ch) errs ht]
      obtain ⟨fr', hfr⟩ := wfStmtList_tail tb (Frame.mk "block" []) (fr :: ch)
      rw [hfr]
      rfl
    rw [hblk]
    by_cases hemp : eb.isEmpty
    · rw [if_pos hemp]
    · rw [if_neg hemp]
      rw [if_neg hemp] at he
      have henter : enter_scope (⟨fr :: ch, errs⟩ : SAState) "block"
          = ⟨Frame.mk "block" [] :: fr :: ch, errs⟩ := rfl
      rw [henter, wf_visit_stmt_list eb (Frame.mk "block" []) (fr :: ch) errs he]
      obtain ⟨fr', hfr⟩ := wfStmtList_tail eb (Frame.mk "block" []) (fr :: ch)
      rw [hfr]
      rfl
  | .forStmt init cond updt block, fr, ch, errs => by
    intro h
    obtain ⟨h123, hb⟩ := bool_and_split
      (show (((wfForInit (Frame.mk "block" [] :: fr :: ch) init).1
        && wfOptExpr (wfForInit (Frame.mk "block" [] :: fr :: ch) init).2 cond
        && wfOptExpr (wfForInit (Frame.mk "block" [] :: fr :: ch) init).2 updt)
      && (wfStmtList (wfForInit (Frame.mk "block" [] :: fr :: ch) init).2 block).1)
        = true from h)
    obtain ⟨h12, hu⟩ := bool_and_split h123
    obtain ⟨hi, hc⟩ := bool_and_split h12
    show exit_scope (visit_stmt_list (visit_opt_expr (visit_opt_expr
      (visit_for_init (enter_scope ⟨fr :: ch, errs⟩ "block") init) cond) updt) block)
      = ⟨fr :: ch, errs⟩
    have henter : enter_scope (⟨fr :: ch, errs⟩ : SAState) "block"
        = ⟨Frame.mk "block" [] :: fr :: ch, errs⟩ := rfl
    rw [henter, wf_visit_for_init init (Frame.mk "block" [] :: fr :: ch) errs hi,
      wf_visit_opt_expr cond _ errs hc, wf_visit_opt_expr updt _ errs hu]
    obtain ⟨fr1, hfr1⟩ := wfForInit_tail init (Frame.mk "block" []) (fr :: ch)
    rw [hfr1] at hb ⊢
    rw [wf_visit_stmt_list block fr1 (fr :: ch) errs hb]
    obtain ⟨fr2, hfr2⟩ := wfStmtList_tail block fr1 (fr :: ch)
    rw [hfr2]
    rfl
  | .breakStmt, fr, ch, errs => by
    intro _
    rfl

theorem wf_visit_stmt_list : ∀ (ss : List Stmt) (fr : Frame) (ch : Chain)
      (errs : List ScopeErr),
    (wfStmtList (fr :: ch) ss).1 = true →
    visit_stmt_list ⟨fr :: ch, errs⟩ ss = ⟨(wfStmtList (fr :: ch) ss).2, errs⟩
  | [], fr, ch, errs => by
    intro _
    rfl
  | s :: rest, fr, ch, errs => by
    intro h
    obtain ⟨hs, hrest⟩ := bool_and_split (show ((wfStmt (fr :: ch) s).1
      && (wfStmtList (wfStmt (fr :: ch) s).2 rest).1) = true from h)
    show visit_stmt_list (visit_stmt ⟨fr :: ch, errs⟩ s) rest
      = ⟨(wfStmtList (wfStmt (fr :: ch) s).2 rest).2, errs⟩
    rw [wf_visit_stmt s fr ch errs hs]
    obtain ⟨fr1, hfr1⟩ := wfStmt_tail s fr ch
    rw [hfr1] at hrest ⊢
    exact wf_visit_stmt_list rest fr1 ch errs hrest

end

theorem wf_visit_params : ∀ (ps : List Param) (ch : Chain) (errs : List ScopeErr),
    (wfParams ch ps).1 = true →
    ps.foldl (fun acc p => tryDefine acc p.name "param" (some p.type_tok) none) ⟨ch, errs⟩
      = ⟨(wfParams ch ps).2, errs⟩
  | [], ch, errs => by
    intro _
    rfl
  | p :: rest, ch, errs => by
    intro h
    obtain ⟨hp, hrest⟩ := bool_and_split (show (headFresh ch p.name
      && (wfParams (chainBind ch p.name "param" (some p.type_tok) none) rest).1) = true from h)
    show rest.foldl (fun acc p => tryDefine acc p.name "param" (some p.type_tok) none)
        (tryDefine ⟨ch, errs⟩ p.name "param" (some p.type_tok) none)
      = ⟨(wfParams (chainBind ch p.name "param" (some p.type_tok) none) rest).2, errs⟩
    rw [tryDefine_fresh ch errs p.name "param" (some p.type_tok) none hp]
    exact wf_visit_params rest _ errs hrest

theorem wf_visit_fn_decl (f : FnDecl) (fr : Frame) (ch : Chain) (errs : List ScopeErr)
    (h : wfFnDecl (fr :: ch) f = true) :
    visit_fn_decl ⟨fr :: ch, errs⟩ f = ⟨fr :: ch, errs⟩ := by
  obtain ⟨hp, hb⟩ := bool_and_split
    (show ((wfParams (Frame.mk "function" [] :: fr :: ch) f.params).1
      && (wfStmtList (wfParams (Frame.mk "function" [] :: fr :: ch) f.params).2 f.body).1)
      = true from h)
  show exit_scope (visit_stmt_list (f.params.foldl
    (fun acc p => tryDefine acc p.name "param" (some p.type_tok) none)
    (enter_scope ⟨fr :: ch, errs⟩ "function")) f.body) = ⟨fr :: ch, errs⟩
  have henter : enter_scope (⟨fr :: ch, errs⟩ : SAState) "function"
      = ⟨Frame.mk "function" [] :: fr :: ch, errs⟩ := rfl
  rw [henter, wf_visit_params f.params (Frame.mk "function" [] :: fr :: ch) errs hp]
  obtain ⟨fr1, hfr1⟩ := wfParams_tail f.params (Frame.mk "function" []) (fr :: ch)
  rw [hfr1] at hb ⊢
  rw [wf_visit_stmt_list f.body fr1 (fr :: ch) errs hb]
  obtain ⟨fr2, hfr2⟩ := wfStmtList_tail f.body fr1 (fr :: ch)
  rw [hfr2]
  rfl

theorem wfItems1_tail : ∀ (items : List Item) (fr : Frame) (ch : Chain),
    ∃ fr', (wfItems1 (fr :: ch) items).2 = fr' :: ch
  | [], fr, ch => ⟨fr, rfl⟩
  | it :: rest, fr, ch => by
    have hit : ∃ fr1, (wfItem1 (fr :: ch) it).2 = fr1 :: ch := by
      cases it with
      | fn f => exact ⟨_, rfl⟩
      | bareVar v => exact ⟨fr, rfl⟩
      | stmt s2 => exact ⟨fr, rfl⟩
    obtain ⟨fr1, h1⟩ := hit
    show ∃ fr', (wfItems1 (wfItem1 (fr :: ch) it).2 rest).2 = fr' :: ch
    rw [h1]
    exact wfItems1_tail rest fr1 ch

theorem wfItem2_tail (it : Item) (fr : Frame) (ch : Chain) :
    ∃ fr', (wfItem2 (fr :: ch) it).2 = fr' :: ch := by
  match it with
  | .fn f => exact ⟨fr, rfl⟩
  | .bareVar v => exact ⟨fr, rfl⟩
  | .stmt s2 => exact wfStmt_tail s2 fr ch

theorem wf_visit_pass1 : ∀ (items : List Item) (ch : Chain) (errs : List ScopeErr),
    (wfItems1 ch items).1 = true →
    visit_program_pass1 ⟨ch, errs⟩ items = ⟨(wfItems1 ch items).2, errs⟩
  | [], ch, errs => by
    intro _
    rfl
  | it :: rest, ch, errs => by
    intro h
    obtain ⟨hi, hrest⟩ := bool_and_split (show ((wfItem1 ch it).1
      && (wfItems1 (wfItem1 ch it).2 rest).1) = true from h)
    show visit_program_pass1 (pass1_step ⟨ch, errs⟩ it) rest
      = ⟨(wfItems1 (wfItem1 ch it).2 rest).2, errs⟩
    have hstep : pass1_step ⟨ch, errs⟩ it = ⟨(wfItem1 ch it).2, errs⟩ := by
      cases it with
      | fn f =>
        exact tryDefine_fresh ch errs f.name "function" (some f.type_tok) (some f.params) hi
      | bareVar v => rfl
      | stmt s2 => rfl
    rw [hstep]
    exact wf_visit_pass1 rest (wfItem1 ch it).2 errs hrest

theorem wf_visit_pass2 : ∀ (items : List Item) (fr : Frame) (ch : Chain)
      (errs : List ScopeErr),
    (wfItems2 (fr :: ch) items).1 = true →
    visit_program_pass2 ⟨fr :: ch, errs⟩ items = ⟨(wfItems2 (fr :: ch) items).2, errs⟩
  | [], fr, ch, errs => by
    intro _
    rfl
  | it :: rest, fr, ch, errs => by
    intro h
    obtain ⟨hi, hrest⟩ := bool_and_split (show ((wfItem2 (fr :: ch) it).1
      && (wfItems2 (wfItem2 (fr :: ch) it).2 rest).1) = true from h)
    show visit_program_pass2 (pass2_step ⟨fr :: ch, errs⟩ it) rest
      = ⟨(wfItems2 (wfItem2 (fr :: ch) it).2 rest).2, errs⟩
    have hstep : pass2_step ⟨fr :: ch, errs⟩ it = ⟨(wfItem2 (fr :: ch) it).2, errs⟩ := by
      cases it with
      | fn f => exact wf_visit_fn_decl f fr ch errs hi
      | bareVar v => rfl
      | stmt s2 => exact wf_visit_stmt s2 fr ch errs hi
    rw [hstep]
    obtain ⟨fr1, h1⟩ := wfItem2_tail it fr ch
    rw [h1] at hrest ⊢
    exact wf_visit_pass2 rest fr1 ch errs hrest

/-! ## Claim C6 -/

/-- Claim C6: the resolver never stops at the first violation. Every visit
step only appends to the error list and computes its result (chain and new
errors) from the scope chain alone, so errors found early neither abort nor
alter the rest of the full-tree walk, and `analyze` reports the whole
accumulated batch at the end; and for every well-formed program — every
identifier declared before first use in its visible scope chain, callees
bound to functions, no same-frame duplicates — the walk records no error at
all and the resolver succeeds with an empty error list. -/
theorem c6_resolver_accumulates :
    (∀ (p : Program) (st : SAState),
      visit_program st p
        = ⟨(visit_program ⟨st.chain, []⟩ p).chain,
           st.errors ++ (visit_program ⟨st.chain, []⟩ p).errors⟩)
    ∧ (∀ p : Program, (visit_program initState p).errors ≠ [] →
        analyzeScope p = .error (visit_program initState p).errors)
    ∧ (∀ p : Program, wellFormedProgram p = true →
        (visit_program initState p).errors = []
        ∧ analyzeScope p = .ok (visit_program initState p)) := by
  refine ⟨fun p st => splits_visit_program p st, ?_, ?_⟩
  · intro p hne
    unfold analyzeScope
    rw [if_neg (by simpa [List.isEmpty_iff] using hne)]
  · intro p hwf
    obtain ⟨h1, h2⟩ := bool_and_split (show ((wfItems1 initState.chain p.items).1
      && (wfItems2 (wfItems1 initState.chain p.items).2 p.items).1) = true from hwf)
    obtain ⟨g1, hg1⟩ := wfItems1_tail p.items (Frame.mk "global" []) []
    have hvp : visit_program initState p
        = ⟨(wfItems2 (wfItems1 initState.chain p.items).2 p.items).2, []⟩ := by
      show visit_program_pass2 (visit_program_pass1 initState p.items) p.items = _
      have hinit : (initState : SAState) = ⟨initState.chain, []⟩ := rfl
      rw [hinit, wf_visit_pass1 p.items initState.chain [] h1]
      have hch : (wfItems1 initState.chain p.items).2 = g1 :: [] := hg1
      rw [hch] at h2 ⊢
      exact wf_visit_pass2 p.items g1 [] [] h2
    constructor
    · rw [hvp]
    · unfold analyzeScope
      rw [hvp]
      rfl

/-- The well-formed demonstration program
`function int add(int a, int b) { return a + b } int r = add(5, 10)`. -/
def progDemo : Program := ⟨[
  .fn ⟨"Int", "add", [⟨"Int", "a"⟩, ⟨"Int", "b"⟩],
    [.returnStmt (some (.binary "AddOp" (.identifier "a") (.identifier "b")))]⟩,
  .stmt (.varTuple (.mk "Int" "r"
    (some (.call (.identifier "add") [.literal (.vInt 5), .literal (.vInt 10)]))))]⟩

/-- Witness for C6 at `progDemo`, and at a state with a pre-existing error
for the accumulation conjunct. -/
theorem c6_witness :
    wellFormedProgram progDemo = true
    ∧ (visit_program initState progDemo).errors = []
    ∧ analyzeScope progDemo = .ok (visit_program initState progDemo)
    ∧ visit_program ⟨initState.chain, [.undeclaredVariableAccessed "w"]⟩ progDemo
      = ⟨(visit_program ⟨initState.chain, []⟩ progDemo).chain,
         [.undeclaredVariableAccessed "w"]
           ++ (visit_program ⟨initState.chain, []⟩ progDemo).errors⟩ :=
  ⟨by decide, (c6_resolver_accumulates.2.2 progDemo (by decide)).1,
    (c6_resolver_accumulates.2.2 progDemo (by decide)).2,
    c6_resolver_accumulates.1 progDemo ⟨initState.chain, [.undeclaredVariableAccessed "w"]⟩⟩

/-! ## Claim C10 -/

/-- Counterexample to claim C10 as stated: `parse` on a marker-less token
list need not fail with `UnexpectedEOF`. The empty token list (no EOF
marker) parses successfully to the empty `Program`, and the marker-less
list `[Function]`, truncated mid-declaration, fails with
`ExpectedTypeToken` — not `UnexpectedEOF` (every call site of `next` inside
`parse` re-checks the peeked token's type first, so the synthesized EOF
token is caught by `expect`/type tests, not by `next`). -/
theorem c10_counterexample :
    parse 2 ([] : List Token) = .ok ⟨[]⟩
    ∧ parse 3 [tok "Function"] = .error .expectedTypeToken :=
  ⟨rfl, rfl⟩

/-- Claim C10 as amended: the parser never indexes the token list out of
bounds. For every token list and every position at or past the end, `_peek`
returns the synthesized `Token("EOF", None)` and `next` raises
`UnexpectedEOF` instead of reading past the list; `parse` on a marker-less
token list therefore never reads past the list — it either returns a
`Program` (the empty list yields the empty `Program`) or fails with a
`ParseError`, though not necessarily `UnexpectedEOF` (a list truncated
mid-declaration such as `[Function]` fails with `ExpectedTypeToken`). -/
theorem c10_peek_next_bounds :
    (∀ (ts : List Token) (pos : Nat), ts.length ≤ pos → _peek ts pos = eofToken)
    ∧ (∀ (ts : List Token) (pos : Nat), ts.length ≤ pos →
        nextTok ts pos = .error .unexpectedEOF)
    ∧ parse 2 ([] : List Token) = .ok ⟨[]⟩
    ∧ parse 3 [tok "Function"] = .error .expectedTypeToken := by
  have hpeek : ∀ (ts : List Token) (pos : Nat), ts.length ≤ pos → _peek ts pos = eofToken := by
    intro ts pos h
    unfold _peek
    rw [dif_neg (by omega)]
  refine ⟨hpeek, ?_, rfl, rfl⟩
  intro ts pos h
  unfold nextTok
  rw [hpeek ts pos h]
  rfl

/-- Witness for C10's amended theorem at the empty list and position 5. -/
theorem c10_witness :
    _peek ([] : List Token) 5 = eofToken
    ∧ nextTok ([] : List Token) 5 = .error .unexpectedEOF :=
  ⟨c10_peek_next_bounds.1 [] 5 (by decide), c10_peek_next_bounds.2.1 [] 5 (by decide)⟩

/-! ## Claim C7 -/

/-- Claim C7: binding a name that already exists in the same frame is
always an error — `FunctionPrototypeRedefinition` when the new binding is a
function, `VariableRedefinition` otherwise — regardless of what kind of
entry (variable, parameter or function) already occupies the frame, and the
error is recorded (appended) by the resolver's `tryDefine` wrapper; binding
a name that is absent from the current frame always succeeds, no matter
what any outer frame (`rest`) binds, so shadowing an outer entry is never
an error. -/
theorem c7_redefinition_same_frame_only :
    ∀ (fr : Frame) (rest : Chain) (errs : List ScopeErr) (name kind : String)
      (tt : Option String) (ps : Option (List Param)),
      ((fr.lookup_local name).isSome →
        define_symbol ⟨fr :: rest, errs⟩ name kind tt ps
          = .error (if kind == "function" then .functionPrototypeRedefinition name
                    else .variableRedefinition name)
        ∧ tryDefine ⟨fr :: rest, errs⟩ name kind tt ps
          = ⟨fr :: rest, errs ++ [if kind == "function" then .functionPrototypeRedefinition name
                                  else .variableRedefinition name]⟩)
      ∧ ((fr.lookup_local name).isNone →
        define_symbol ⟨fr :: rest, errs⟩ name kind tt ps
          = .ok ⟨{ fr with symbols := fr.symbols ++
                    [(name, mkSymbol (fr :: rest) name kind tt ps)] } :: rest, errs⟩
        ∧ tryDefine ⟨fr :: rest, errs⟩ name kind tt ps
          = ⟨{ fr with symbols := fr.symbols ++
                [(name, mkSymbol (fr :: rest) name kind tt ps)] } :: rest, errs⟩) := by
  intro fr rest errs name kind tt ps
  constructor
  · intro hsome
    have hdef : define_symbol ⟨fr :: rest, errs⟩ name kind tt ps
        = .error (if kind == "function" then .functionPrototypeRedefinition name
                  else .variableRedefinition name) := by
      by_cases hk : kind == "function" <;>
        simp [define_symbol, Frame.define, mkSymbol, hsome, hk]
    refine ⟨hdef, ?_⟩
    unfold tryDefine
    rw [hdef]
  · intro hnone
    have hn : fr.lookup_local name = none := Option.isNone_iff_eq_none.mp hnone
    have hdef : define_symbol ⟨fr :: rest, errs⟩ name kind tt ps
        = .ok ⟨{ fr with symbols := fr.symbols ++
              [(name, mkSymbol (fr :: rest) name kind tt ps)] } :: rest, errs⟩ := by
      simp [define_symbol, Frame.define, mkSymbol, hn]
    refine ⟨hdef, ?_⟩
    unfold tryDefine
    rw [hdef]

/-- Witness for C7: redefining `x` in a block frame that already binds it
errors even though the new kind differs, and defining `x` in an empty block
frame succeeds even though the outer global frame binds `x`. -/
theorem c7_witness :
    (define_symbol ⟨[Frame.mk "block" [("x", xSym)], Frame.mk "global" []], []⟩
        "x" "var" (some "Int") none = .error (.variableRedefinition "x"))
    ∧ (define_symbol ⟨[Frame.mk "block" [], Frame.mk "global" [("x", xSym)]], []⟩
        "x" "var" (some "Int") none
      = .ok ⟨[Frame.mk "block" [("x", mkSymbol [Frame.mk "block" [],
          Frame.mk "global" [("x", xSym)]] "x" "var" (some "Int") none)],
          Frame.mk "global" [("x", xSym)]], []⟩) := by
  constructor
  · have h := ((c7_redefinition_same_frame_only (Frame.mk "block" [("x", xSym)])
      [Frame.mk "global" []] [] "x" "var" (some "Int") none).1 (by decide)).1
    simpa using h
  · have h := ((c7_redefinition_same_frame_only (Frame.mk "block" [])
      [Frame.mk "global" [("x", xSym)]] [] "x" "var" (some "Int") none).2 (by decide)).1
    simpa using h

theorem peekT_return_head (L : List Token) : peekT (tok "Return" :: L) 0 = "Return" := by
  show (_peek (tok "Return" :: L) 0).type = "Return"
  rw [peek_cons_zero]
  rfl

/-- **C9**: the three statement terminators are interchangeable. For every
expression token sequence `xs` that `parse_expr` parses (from position 1, just
after `Return`) to an AST `e` ending exactly at the terminator position, the
statements `return xs.`, `return xs;`, and `return xs` immediately followed by
a closing brace all parse to the identical AST `ReturnStmt(e)` (the first two
consume the terminator, the third leaves the brace for the enclosing block). -/
theorem c9_terminators_interchangeable (f : Nat) (xs r1 r2 r3 : List Token)
    (e : Expr)
    (hd : parse_expr f (tok "Return" :: (xs ++ tok "Dot" :: r1)) 1 =
      .ok (e, xs.length + 1)) :
    parse_stmt (f + 1) (tok "Return" :: (xs ++ tok "Dot" :: r1)) 0 =
        .ok (.returnStmt (some e), xs.length + 2) ∧
      parse_stmt (f + 1) (tok "Return" :: (xs ++ tok "Semicolon" :: r2)) 0 =
        .ok (.returnStmt (some e), xs.length + 2) ∧
      parse_stmt (f + 1) (tok "Return" :: (xs ++ tok "BraceR" :: r3)) 0 =
        .ok (.returnStmt (some e), xs.length + 1) := by
  have hstart := start_parse_expr f _ 1 e _ hd
  cases xs with
  | nil =>
    exfalso
    rw [List.nil_append] at hstart
    have hD : peekT (tok "Return" :: tok "Dot" :: r1) 1 = "Dot" := by
      show (_peek (tok "Return" :: tok "Dot" :: r1) 1).type = "Dot"
      rw [peek_cons_one]
      rfl
    rw [hD] at hstart
    exact absurd hstart (by decide)
  | cons x0 xs2 =>
    have hpk1 : peekT (tok "Return" :: ((x0 :: xs2) ++ tok "Dot" :: r1)) 1 = x0.type := by
      show (_peek (tok "Return" :: ((x0 :: xs2) ++ tok "Dot" :: r1)) 1).type = x0.type
      rw [List.cons_append, peek_cons_one]
    rw [hpk1] at hstart
    have hx0 : x0.type ∈ startTypes := hstart
    have hno : x0.type ∉ (["Dot", "Semicolon"] : List String) := start_not_ds _ hx0
    have hpk1S : peekT (tok "Return" :: ((x0 :: xs2) ++ tok "Semicolon" :: r2)) 1
        = x0.type := by
      show (_peek (tok "Return" :: ((x0 :: xs2) ++ tok "Semicolon" :: r2)) 1).type = x0.type
      rw [List.cons_append, peek_cons_one]
    have hpk1B : peekT (tok "Return" :: ((x0 :: xs2) ++ tok "BraceR" :: r3)) 1
        = x0.type := by
      show (_peek (tok "Return" :: ((x0 :: xs2) ++ tok "BraceR" :: r3)) 1).type = x0.type
      rw [List.cons_append, peek_cons_one]
    have hnoD : peekT (tok "Return" :: ((x0 :: xs2) ++ tok "Dot" :: r1)) 1
        ∉ (["Dot", "Semicolon"] : List String) := by rw [hpk1]; exact hno
    have hnoS : peekT (tok "Return" :: ((x0 :: xs2) ++ tok "Semicolon" :: r2)) 1
        ∉ (["Dot", "Semicolon"] : List String) := by rw [hpk1S]; exact hno
    have hnoB : peekT (tok "Return" :: ((x0 :: xs2) ++ tok "BraceR" :: r3)) 1
        ∉ (["Dot", "Semicolon"] : List String) := by rw [hpk1B]; exact hno
    have heS : equivAt (tok "Return" :: ((x0 :: xs2) ++ tok "Dot" :: r1))
        (tok "Return" :: ((x0 :: xs2) ++ tok "Semicolon" :: r2))
        ((x0 :: xs2).length + 1) :=
      equivAt_sep (tok "Return") (tok "Dot") (tok "Semicolon") (x0 :: xs2) r1 r2
        (by decide) (by decide)
    have heB : equivAt (tok "Return" :: ((x0 :: xs2) ++ tok "Dot" :: r1))
        (tok "Return" :: ((x0 :: xs2) ++ tok "BraceR" :: r3))
        ((x0 :: xs2).length + 1) :=
      equivAt_sep (tok "Return") (tok "Dot") (tok "BraceR") (x0 :: xs2) r1 r3
        (by decide) (by decide)
    have hdS := loc_parse_expr f (tok "Return" :: ((x0 :: xs2) ++ tok "Dot" :: r1))
      (tok "Return" :: ((x0 :: xs2) ++ tok "Semicolon" :: r2))
      ((x0 :: xs2).length + 1) 1 e ((x0 :: xs2).length + 1) hd (Nat.le_refl _) heS
    have hdB := loc_parse_expr f (tok "Return" :: ((x0 :: xs2) ++ tok "Dot" :: r1))
      (tok "Return" :: ((x0 :: xs2) ++ tok "BraceR" :: r3))
      ((x0 :: xs2).length + 1) 1 e ((x0 :: xs2).length + 1) hd (Nat.le_refl _) heB
    have hpD : _peek (tok "Return" :: ((x0 :: xs2) ++ tok "Dot" :: r1))
        ((x0 :: xs2).length + 1) = tok "Dot" := by
      rw [peek_cons_succ, peek_append_sep]
    have hpS : _peek (tok "Return" :: ((x0 :: xs2) ++ tok "Semicolon" :: r2))
        ((x0 :: xs2).length + 1) = tok "Semicolon" := by
      rw [peek_cons_succ, peek_append_sep]
    have hpB : _peek (tok "Return" :: ((x0 :: xs2) ++ tok "BraceR" :: r3))
        ((x0 :: xs2).length + 1) = tok "BraceR" := by
      rw [peek_cons_succ, peek_append_sep]
    have hnD : nextTok (tok "Return" :: ((x0 :: xs2) ++ tok "Dot" :: r1))
        ((x0 :: xs2).length + 1) = .ok (tok "Dot", (x0 :: xs2).length + 1 + 1) := by
      simp only [nextTok]
      rw [hpD]
      rfl
    have hnS : nextTok (tok "Return" :: ((x0 :: xs2) ++ tok "Semicolon" :: r2))
        ((x0 :: xs2).length + 1) = .ok (tok "Semicolon", (x0 :: xs2).length + 1 + 1) := by
      simp only [nextTok]
      rw [hpS]
      rfl
    have hmD : matchTok (tok "Return" :: ((x0 :: xs2) ++ tok "Dot" :: r1))
        ((x0 :: xs2).length + 1) ["Dot", "Semicolon"]
        = .ok (some (tok "Dot", (x0 :: xs2).length + 1 + 1)) := by
      simp only [matchTok]
      rw [hpD, if_pos (by decide : (tok "Dot").type ∈ (["Dot", "Semicolon"] : List String)),
        hnD]
    have hmS : matchTok (tok "Return" :: ((x0 :: xs2) ++ tok "Semicolon" :: r2))
        ((x0 :: xs2).length + 1) ["Dot", "Semicolon"]
        = .ok (some (tok "Semicolon", (x0 :: xs2).length + 1 + 1)) := by
      simp only [matchTok]
      rw [hpS, if_pos (by decide : (tok "Semicolon").type ∈ (["Dot", "Semicolon"] : List String)),
        hnS]
    have hmB : matchTok (tok "Return" :: ((x0 :: xs2) ++ tok "BraceR" :: r3))
        ((x0 :: xs2).length + 1) ["Dot", "Semicolon"] = .ok none := by
      simp only [matchTok]
      rw [hpB, if_neg (by decide : ¬((tok "BraceR").type ∈ (["Dot", "Semicolon"] : List String)))]
    exact ⟨parse_stmt_return_red (peekT_return_head _) hnoD hd hmD,
      parse_stmt_return_red (peekT_return_head _) hnoS hdS hmS,
      parse_stmt_return_red (peekT_return_head _) hnoB hdB hmB⟩

/-- Witness for C9 at the concrete statement `return x`: with each of the three
terminators the parse yields the identical AST `ReturnStmt(Identifier "x")`. -/
theorem c9_witness :
    parse_stmt 21 [tok "Return", identTok "x", tok "Dot"] 0 =
        .ok (.returnStmt (some (.identifier "x")), 3) ∧
      parse_stmt 21 [tok "Return", identTok "x", tok "Semicolon"] 0 =
        .ok (.returnStmt (some (.identifier "x")), 3) ∧
      parse_stmt 21 [tok "Return", identTok "x", tok "BraceR"] 0 =
        .ok (.returnStmt (some (.identifier "x")), 2) :=
  c9_terminators_interchangeable 20 [identTok "x"] [] [] [] (.identifier "x") rfl

end G21
